import Mathlib

/-!
# go-lame: the structural comparator of package `compare`

A shallow embedding of `src/compare/compare.go`.  Go values are seen the way
package `reflect` shows them to the comparator: every value carries its static
type, pointers are addresses into an explicit heap, and the runtime panics of
`reflect` (a method called on the zero `reflect.Value`, `Interface()` on a
value reached through an unexported field) are outcomes of their own.
The recursion of the comparator is not bounded by the size of its input
(a cyclic heap), so the embedding is driven by fuel: one unit per call of
`compareRecursively`.
-/

namespace compare

/-! ## The data model -/

/-- The kinds of `reflect.Kind`. -/
inductive Kind
  | Invalid | Bool | Int | Int8 | Int16 | Int32 | Int64
  | Uint | Uint8 | Uint16 | Uint32 | Uint64 | Uintptr
  | Float32 | Float64 | Complex64 | Complex128
  | Array | Chan | Func | Interface | Map | Ptr | Slice | String | Struct
  | UnsafePointer
  deriving DecidableEq

/-- A `reflect.Type`: the text that `Type.String()` prints for the type, and the address
of its descriptor.  Two Go types are identical exactly when their descriptors are the
same; two distinct types may print alike. -/
structure GoType where
  name : String
  rtype : Nat
  deriving DecidableEq

/-- The values of the kinds the comparator treats as leaves, apart from
interfaces.  An integer stands for every sized and unsized integer kind, a
float for its IEEE-754 binary64 bit pattern; channels and functions are
identities (`none` is the nil channel or function). -/
inductive Scalar
  | bool (b : Bool)
  | int (n : Int)
  | float (bits : Nat)
  | str (s : String)
  | chan (id : Option Nat)
  | func (id : Option Nat)
  | unsafePointer (addr : Nat)
  deriving DecidableEq

/-- A Go value together with its static type.  `iface` is a slot of interface
type holding nil or a concrete value; `ptr` holds nil or an address of the
heap; a slice or a map is nil (`none`) or holds its elements; the entries of a
map are listed in the order in which the runtime enumerates its keys; the
fields of a struct are listed in declaration order, exported or not. -/
inductive Value
  | scalar (t : GoType) (s : Scalar)
  | iface (t : GoType) (dyn : Option Value)
  | ptr (t : GoType) (addr : Option Nat)
  | slice (t : GoType) (elems : Option (List Value))
  | array (t : GoType) (elems : List Value)
  | map (t : GoType) (entries : Option (List (Value × Value)))
  | struct (t : GoType) (fields : List (String × Value))

/-- The memory pointers point into: the variable stored at each address. -/
abbrev Heap := List (Nat × Value)

/-- A `reflect.Value`: the zero Value, or a value with its read-only flag
(`flagRO`, set on everything reached through an unexported struct field). -/
inductive ReflectValue
  | zero
  | val (flagRO : Bool) (v : Value)

/-- The diff between the expected and the actual on exactly the same field.
`Expected` and `Actual` are `interface{}` values: nil, or a typed value. -/
structure Diff where
  Field : String
  Expected : Option Value
  Actual : Option Value

/-- The record of visited pointers, `map[uintptr]bool`. -/
abbrev visitedPtrs := List (Nat × Bool)

/-- The errors `compare.go` builds with `fmt.Errorf`, by format string. -/
inductive CompareError
  | mismatchedType (field : String) (expType actType : GoType)
  | mismatchedLen (field : String) (expLen actLen : Nat)
  | fieldNotFound (field : String)
  | invalidType (field : String) (expType actType : GoType)

/-- The runtime panics the comparator can run into. -/
inductive Panic
  | typeOfZeroValue
  | interfaceOfUnexported
  | isNilOfNonNilable
  | lenOfNonSequence
  | notAStruct
  | pointerOfNonPointer
  | danglingPointer

/-- What a call does: it returns `(diffs, err)`, it panics, or the fuel of the
embedding is used up before it returns. -/
inductive Outcome
  | ret (diffs : List Diff) (err : Option CompareError)
  | panic (p : Panic)
  | outOfFuel

/-! ## What package `reflect` answers about a value -/

/-- The kind of a leaf value. -/
def Scalar.kind : Scalar → Kind
  | .bool _ => Kind.Bool
  | .int _ => Kind.Int
  | .float _ => Kind.Float64
  | .str _ => Kind.String
  | .chan _ => Kind.Chan
  | .func _ => Kind.Func
  | .unsafePointer _ => Kind.UnsafePointer

/-- The static type of a value. -/
def Value.typ : Value → GoType
  | .scalar t _ => t
  | .iface t _ => t
  | .ptr t _ => t
  | .slice t _ => t
  | .array t _ => t
  | .map t _ => t
  | .struct t _ => t

/-- The kind of a value. -/
def Value.kind : Value → Kind
  | .scalar _ s => s.kind
  | .iface _ _ => Kind.Interface
  | .ptr _ _ => Kind.Ptr
  | .slice _ _ => Kind.Slice
  | .array _ _ => Kind.Array
  | .map _ _ => Kind.Map
  | .struct _ _ => Kind.Struct

/-- The method `Value.Type()`; it panics on the zero Value (`none`). -/
def ReflectValue.typ : ReflectValue → Option GoType
  | .zero => none
  | .val _ v => some v.typ

/-- The method `Value.Kind()`; the zero Value has kind `Invalid`. -/
def ReflectValue.kind : ReflectValue → Kind
  | .zero => Kind.Invalid
  | .val _ v => v.kind

/-- The function `reflect.ValueOf` on an `interface{}` argument: the zero Value for the nil
interface, otherwise the concrete value it holds, not read-only. -/
def ValueOf : Option Value → ReflectValue
  | none => .zero
  | some v => .val false v

/-- The method `Value.Interface()`: it panics on a value obtained from an unexported
field; on a value of interface kind it returns the element inside the interface, on any
other value the value itself with its type. -/
def ReflectValue.Interface : ReflectValue → Except Panic (Option Value)
  | .zero => .error Panic.typeOfZeroValue
  | .val true _ => .error Panic.interfaceOfUnexported
  | .val false (.iface _ dyn) => .ok dyn
  | .val false v => .ok (some v)

/-- The method `Value.IsNil()`, defined on the nilable kinds only (`none`: it panics). -/
def ReflectValue.IsNil : ReflectValue → Option Bool
  | .val _ (.ptr _ a) => some a.isNone
  | .val _ (.slice _ xs) => some xs.isNone
  | .val _ (.map _ es) => some es.isNone
  | .val _ (.iface _ d) => some d.isNone
  | .val _ (.scalar _ (.chan c)) => some c.isNone
  | .val _ (.scalar _ (.func f)) => some f.isNone
  | _ => none

/-- The values `v.Index(0)`, ..., `v.Index(v.Len()-1)` of a slice or an array, so that
`v.Len()` is the length of the list; each inherits the read-only flag (`none`: the value
is neither, and `Len()` panics). -/
def ReflectValue.elems : ReflectValue → Option (List ReflectValue)
  | .val ro (.slice _ (some xs)) => some (xs.map (ReflectValue.val ro))
  | .val _ (.slice _ none) => some []
  | .val ro (.array _ xs) => some (xs.map (ReflectValue.val ro))
  | _ => none

/-- The entries of a map value, none for a nil map, so that `v.Len()` is the length of
the list (`none`: the value is no map). -/
def ReflectValue.entries : ReflectValue → Option (List (Value × Value))
  | .val _ (.map _ (some es)) => some es
  | .val _ (.map _ none) => some []
  | _ => none

/-- The method `Value.Pointer()` on a pointer: its address, 0 for nil. -/
def ReflectValue.Pointer : ReflectValue → Option Nat
  | .val _ (.ptr _ (some a)) => some a
  | .val _ (.ptr _ none) => some 0
  | _ => none

/-- The function `reflect.Indirect` on a pointer: the variable it points to, with the
read-only flag of the pointer; the zero Value for a nil pointer. -/
def Indirect (h : Heap) : ReflectValue → Except Panic ReflectValue
  | .val ro (.ptr _ (some a)) =>
    match h.lookup a with
    | some v => .ok (.val ro v)
    | none => .error Panic.danglingPointer
  | .val _ (.ptr _ none) => .ok .zero
  | v => .ok v

/-- Whether a field name is exported: it starts with an upper-case letter.  The model
knows the upper-case letters `A` to `Z` only: a name that starts with another upper-case
letter of Unicode counts as unexported here. -/
def isExported (name : String) : Bool := name.front.isUpper

/-- The names `typ.Field(0).Name`, ..., of the fields of a struct value's type. -/
def ReflectValue.fieldNames : ReflectValue → Option (List String)
  | .val _ (.struct _ fs) => some (fs.map Prod.fst)
  | _ => none

/-- The method `Value.FieldByName`: the first field of that name, read-only when the
struct is or when the field is unexported; the zero Value when there is none (`none`:
the value is no struct and the method panics).  The flag is `flagStickyRO`, which
everything below inherits: the model does not tell an embedded unexported field, whose
flag `flagEmbedRO` the exported fields below it do not inherit, from another unexported
field. -/
def ReflectValue.FieldByName : ReflectValue → String → Option ReflectValue
  | .val ro (.struct _ fs), name =>
    match fs.lookup name with
    | some v => some (.val (ro || !isExported name) v)
    | none => some .zero
  | _, _ => none

/-- Whether a bit pattern of a binary64 float is a NaN. -/
def isNaN (bits : Nat) : Bool := (bits / 2 ^ 52) % 2 ^ 11 == 2047 && bits % 2 ^ 52 != 0

/-- Go's `==` on two floats given by their bit patterns: a NaN equals nothing, the two
zeros are equal. -/
def floatEq (a b : Nat) : Bool :=
  !isNaN a && !isNaN b && (a == b || (a % 2 ^ 63 == 0 && b % 2 ^ 63 == 0))

/-- Go's `==` on two leaf values of one type. -/
def Scalar.goEq : Scalar → Scalar → Bool
  | .bool a, .bool b => a == b
  | .int a, .int b => a == b
  | .float a, .float b => floatEq a b
  | .str a, .str b => a == b
  | .chan a, .chan b => a == b
  | .func a, .func b => a == b
  | .unsafePointer a, .unsafePointer b => a == b
  | _, _ => false

/-- The leaf cases of `deepValueEqual`: two functions are equal only when both are nil,
every other leaf is compared with `==`. -/
def Scalar.deepEq : Scalar → Scalar → Bool
  | .func f, .func g => f.isNone && g.isNone
  | a, b => a.goEq b

/-- Go's `==` on two map keys, by which a map finds a key: leaf values and pointers are
compared as `==` compares them, two interfaces are equal when both are nil or hold equal
values of one type, two arrays when their elements are equal, two structs when their
fields other than the blank ones are.  Slices, maps and functions are no keys. -/
def keyEq : Value → Value → Bool
  | .scalar t a, .scalar u b => t == u && a.goEq b
  | .ptr t a, .ptr u b => t == u && a == b
  | .iface t none, .iface u none => t == u
  | .iface t (some x), .iface u (some y) => t == u && keyEq x y
  | .array t xs, .array u ys => t == u && elems xs ys
  | .struct t fs, .struct u gs => t == u && fields fs gs
  | _, _ => false
where
  elems : List Value → List Value → Bool
    | x :: xs, y :: ys => keyEq x y && elems xs ys
    | [], [] => true
    | _, _ => false
  fields : List (String × Value) → List (String × Value) → Bool
    | (name, x) :: fs, (_, y) :: gs => (name == "_" || keyEq x y) && fields fs gs
    | [], [] => true
    | _, _ => false

/-- The element stored under a key, `none` when the key is absent. -/
def mapIndex : List (Value × Value) → Value → Option Value
  | [], _ => none
  | (k, v) :: rest, key => if keyEq k key then some v else mapIndex rest key

/-- The method `Value.MapIndex`: the element under the key, read-only when the map is;
the zero Value when the key is absent. -/
def ReflectValue.MapIndex : ReflectValue → Value → ReflectValue
  | .val ro (.map _ (some es)), key =>
    match mapIndex es key with
    | some v => .val ro v
    | none => .zero
  | _, _ => .zero

/-- The method `Value.String()`: the string itself for a value of kind String, and
`<T Value>` for a value of any other type `T`. -/
def Value.String : Value → String
  | .scalar _ (.str s) => s
  | v => "<" ++ v.typ.name ++ " Value>"

/-! ## `reflect.DeepEqual`

The library function the comparator calls on leaves, modelled case by case after
`deepValueEqual`.  Go's table of visited pointer pairs, which only makes it answer on
cyclic data, is replaced by fuel: `none` means the fuel ran out.  A slice or a map of the
model has no address: two slices, or two maps, are compared element by element also
where Go, finding that the two share their memory, answers true at once; the two answers
differ only on a value that is not equal to itself, one that holds a NaN or a non-nil
function. -/

/-- Pairwise deep equality of two sequences of equal length. -/
def deepAll (eq : Value → Value → Option Bool) : List Value → List Value → Option Bool
  | x :: xs, y :: ys =>
    match eq x y with
    | some true => deepAll eq xs ys
    | r => r
  | [], [] => some true
  | _, _ => some false

/-- Deep equality of the entries of a map with another map: every key of the first is a
key of the second, with deeply equal elements. -/
def deepEntries (eq : Value → Value → Option Bool) (es1 es2 : List (Value × Value)) :
    List (Value × Value) → Option Bool
  | [] => some true
  | (k, _) :: rest =>
    match mapIndex es1 k, mapIndex es2 k with
    | some v1, some v2 =>
      match eq v1 v2 with
      | some true => deepEntries eq es1 es2 rest
      | r => r
    | _, _ => some false

/-- The function `deepValueEqual` of package `reflect`. -/
def deepValueEqual (h : Heap) : Nat → Value → Value → Option Bool
  | 0, _, _ => none
  | fuel + 1, v1, v2 =>
    if v1.typ ≠ v2.typ then some false
    else
      match v1, v2 with
      | .array _ xs, .array _ ys => deepAll (deepValueEqual h fuel) xs ys
      | .slice _ none, .slice _ none => some true
      | .slice _ (some xs), .slice _ (some ys) =>
        if xs.length ≠ ys.length then some false
        else deepAll (deepValueEqual h fuel) xs ys
      | .iface _ none, .iface _ none => some true
      | .iface _ (some x), .iface _ (some y) => deepValueEqual h fuel x y
      | .ptr _ none, .ptr _ none => some true
      | .ptr _ (some a), .ptr _ (some b) =>
        if a = b then some true
        else
          match h.lookup a, h.lookup b with
          | some x, some y => deepValueEqual h fuel x y
          | _, _ => some false
      | .struct _ fs, .struct _ gs =>
        deepAll (deepValueEqual h fuel) (fs.map Prod.snd) (gs.map Prod.snd)
      | .map _ none, .map _ none => some true
      | .map _ (some es1), .map _ (some es2) =>
        if es1.length ≠ es2.length then some false
        else deepEntries (deepValueEqual h fuel) es1 es2 es1
      | .scalar _ a, .scalar _ b => some (a.deepEq b)
      | _, _ => some false

/-- The function `reflect.DeepEqual` on two `interface{}` values. -/
def DeepEqual (h : Heap) (fuel : Nat) : Option Value → Option Value → Option Bool
  | none, none => some true
  | none, some _ => some false
  | some _, none => some false
  | some x, some y => if x.typ ≠ y.typ then some false else deepValueEqual h fuel x y

/-! ## The comparator, `compare.go` -/

def isPointerType (kind : Kind) : Bool := kind == Kind.Ptr

def isArrayType (kind : Kind) : Bool := kind == Kind.Array

def isSliceType (kind : Kind) : Bool := kind == Kind.Slice

def isSliceOrArrayType (kind : Kind) : Bool := isArrayType kind || isSliceType kind

def isMapType (kind : Kind) : Bool := kind == Kind.Map

def isStructType (kind : Kind) : Bool := kind == Kind.Struct

/-- Chan, invalid and unsafe-pointer are all primitive types. -/
def isPrimitiveType (kind : Kind) : Bool :=
  !isPointerType kind && !isSliceOrArrayType kind && !isMapType kind && !isStructType kind

/-- The lookup `visit[p]` in a `map[uintptr]bool`: false for a key that is absent. -/
def visitedPtrs.get (visit : visitedPtrs) (p : Nat) : Bool := (visit.lookup p).getD false

/-- The list of the single diff of a field; `Interface()` is called on both values. -/
def newSingleDiffList (field : String) (exp act : ReflectValue) : Except Panic (List Diff) :=
  match exp.Interface with
  | .error p => .error p
  | .ok e =>
    match act.Interface with
    | .error p => .error p
    | .ok a => .ok [{ Field := field, Expected := e, Actual := a }]

/-- The signature of `compareRecursively`, which the handlers below call back. -/
abbrev Walk := String → ReflectValue → ReflectValue → visitedPtrs → visitedPtrs → Outcome

/-- Util function for comparing and updating elements inside a slice, array, map or
structure: it accepts a list of diffs and appends the element's diffs; on an error it
returns the list it was given together with the error. -/
def compareElem (walk : Walk) (diffs : List Diff) (fieldPrefix : String)
    (exp act : ReflectValue) (expVisit actVisit : visitedPtrs) : Outcome :=
  match walk fieldPrefix exp act expVisit actVisit with
  | .ret _ (some err) => .ret diffs (some err)
  | .ret elemDiffs none =>
    if elemDiffs.length > 0 then .ret (diffs ++ elemDiffs) none else .ret diffs none
  | .panic p => .panic p
  | .outOfFuel => .outOfFuel

/-- The function `comparePointer`: if the pointer is recorded as visited nothing is
different; otherwise the pointees are compared under the path `*(fieldPrefix)`.  Nothing
is ever recorded in the two maps. -/
def comparePointer (h : Heap) (walk : Walk) (fieldPrefix : String) (exp act : ReflectValue)
    (expVisit actVisit : visitedPtrs) : Outcome :=
  match exp.Pointer with
  | none => .panic Panic.pointerOfNonPointer
  | some p =>
    if expVisit.get p || actVisit.get p then .ret [] none
    else
      match Indirect h exp, Indirect h act with
      | .ok e, .ok a => walk ("*(" ++ fieldPrefix ++ ")") e a expVisit actVisit
      | .error q, _ => .panic q
      | _, .error q => .panic q

/-- The loop of `compareSliceOrArray` over the indices `i`, `i+1`, ...: the elements not
yet compared are the two lists, `diffs` the diffs collected so far. -/
def compareSliceOrArrayLoop (walk : Walk) (fieldPrefix : String)
    (expVisit actVisit : visitedPtrs) :
    Nat → List ReflectValue → List ReflectValue → List Diff → Outcome
  | i, e :: es, a :: as, diffs =>
    match compareElem walk diffs (fieldPrefix ++ "[" ++ toString i ++ "]") e a
        expVisit actVisit with
    | .ret diffs1 none =>
      compareSliceOrArrayLoop walk fieldPrefix expVisit actVisit (i + 1) es as diffs1
    | o => o
  | _, _, _, diffs => .ret diffs none

/-- The function `compareSliceOrArray`: the lengths are checked, then the elements are
compared one by one. -/
def compareSliceOrArray (walk : Walk) (fieldPrefix : String) (exp act : ReflectValue)
    (expVisit actVisit : visitedPtrs) : Outcome :=
  match exp.elems, act.elems with
  | some es, some as =>
    if es.length ≠ as.length then
      .ret [] (some (.mismatchedLen fieldPrefix es.length as.length))
    else if es.length = 0 then .ret [] none
    else compareSliceOrArrayLoop walk fieldPrefix expVisit actVisit 0 es as []
  | _, _ => .panic Panic.lenOfNonSequence

/-- The loop of `compareMap` over the keys of the expected map that are still to visit. -/
def compareMapLoop (walk : Walk) (fieldPrefix : String) (exp act : ReflectValue)
    (expVisit actVisit : visitedPtrs) : List Value → List Diff → Outcome
  | key :: keys, diffs =>
    match compareElem walk diffs (fieldPrefix ++ "[" ++ key.String ++ "]")
        (exp.MapIndex key) (act.MapIndex key) expVisit actVisit with
    | .ret diffs1 none => compareMapLoop walk fieldPrefix exp act expVisit actVisit keys diffs1
    | o => o
  | [], diffs => .ret diffs none

/-- The function `compareMap`; the keys are visited in the order `MapKeys` lists them. -/
def compareMap (walk : Walk) (fieldPrefix : String) (exp act : ReflectValue)
    (expVisit actVisit : visitedPtrs) : Outcome :=
  match exp.entries, act.entries with
  | some es, some as =>
    if es.length ≠ as.length then
      .ret [] (some (.mismatchedLen fieldPrefix es.length as.length))
    else if es.length = 0 then .ret [] none
    else compareMapLoop walk fieldPrefix exp act expVisit actVisit (es.map Prod.fst) []
  | _, _ => .panic Panic.lenOfNonSequence

/-- The loop of `compareStruct` over the names of the fields that are still to visit. -/
def compareStructLoop (walk : Walk) (fieldPrefix : String) (exp act : ReflectValue)
    (expVisit actVisit : visitedPtrs) : List String → List Diff → Outcome
  | fieldName :: names, diffs =>
    match exp.FieldByName fieldName, act.FieldByName fieldName with
    | some expField, some actField =>
      match actField with
      | .zero => .ret [] (some (.fieldNotFound (fieldPrefix ++ "." ++ fieldName)))
      | _ =>
        match compareElem walk diffs (fieldPrefix ++ "." ++ fieldName) expField actField
            expVisit actVisit with
        | .ret diffs1 none =>
          compareStructLoop walk fieldPrefix exp act expVisit actVisit names diffs1
        | o => o
    | _, _ => .panic Panic.notAStruct
  | [], diffs => .ret diffs none

/-- The function `compareStruct`: all the fields of the type are traversed, by name. -/
def compareStruct (walk : Walk) (fieldPrefix : String) (exp act : ReflectValue)
    (expVisit actVisit : visitedPtrs) : Outcome :=
  match exp.fieldNames with
  | some names => compareStructLoop walk fieldPrefix exp act expVisit actVisit names []
  | none => .panic Panic.notAStruct

/-- The function `compareRecursively`.  One unit of fuel is spent per call. -/
def compareRecursively (h : Heap) : Nat → Walk
  | 0, _, _, _, _, _ => .outOfFuel
  | fuel + 1, fieldPrefix, exp, act, expVisit, actVisit =>
    match exp.typ, act.typ with
    | some expType, some actType =>
      if expType ≠ actType then .ret [] (some (.mismatchedType fieldPrefix expType actType))
      else if isPrimitiveType exp.kind then
        match exp.Interface, act.Interface with
        | .ok e, .ok a =>
          match DeepEqual h fuel e a with
          | some true => .ret [] none
          | some false => .ret [{ Field := fieldPrefix, Expected := e, Actual := a }] none
          | none => .outOfFuel
        | .error p, _ => .panic p
        | _, .error p => .panic p
      else if isStructType exp.kind then
        compareStruct (compareRecursively h fuel) fieldPrefix exp act expVisit actVisit
      else if isArrayType exp.kind then
        compareSliceOrArray (compareRecursively h fuel) fieldPrefix exp act expVisit actVisit
      else
        match exp.IsNil, act.IsNil with
        | some expNil, some actNil =>
          if expNil && actNil then .ret [] none
          else if expNil || actNil then
            match newSingleDiffList fieldPrefix exp act with
            | .ok diffs => .ret diffs none
            | .error p => .panic p
          else if isPointerType exp.kind then
            comparePointer h (compareRecursively h fuel) fieldPrefix exp act expVisit actVisit
          else if isSliceType exp.kind then
            compareSliceOrArray (compareRecursively h fuel) fieldPrefix exp act
              expVisit actVisit
          else if isMapType exp.kind then
            compareMap (compareRecursively h fuel) fieldPrefix exp act expVisit actVisit
          else .ret [] (some (.invalidType fieldPrefix expType actType))
        | _, _ => .panic Panic.isNilOfNonNilable
    | _, _ => .panic Panic.typeOfZeroValue

/-- The function `Compare`: compare the given data and return the specific diffs. -/
def Compare (h : Heap) (fuel : Nat) (expected actual : Option Value) : Outcome :=
  compareRecursively h fuel "" (ValueOf expected) (ValueOf actual) [] []

/-- The text of an error, as `fmt.Errorf` formats it (for `invalidType` the two types are
printed by name). -/
def CompareError.Error : CompareError → String
  | .mismatchedType field expType actType =>
    "mismatched type of `" ++ field ++ "`, exp.Type=" ++ expType.name ++ ", act.Type="
      ++ actType.name
  | .mismatchedLen field expLen actLen =>
    "mismatched len of `" ++ field ++ "`, exp.Len=" ++ toString expLen ++ ", act.Len="
      ++ toString actLen
  | .fieldNotFound field => "field=`" ++ field ++ "` not found in act"
  | .invalidType field expType actType =>
    "invalid type found, field " ++ field ++ ", exp.Type=" ++ expType.name ++ ", act.Type="
      ++ actType.name

/-! ## The vocabulary of the properties -/

/-- A relation holds pairwise between two lists of the same length. -/
def all2 {α β : Type} (p : α → β → Bool) : List α → List β → Bool
  | x :: xs, y :: ys => p x y && all2 p xs ys
  | [], [] => true
  | _, _ => false

/-- Down to depth `n`, `y` is a deep copy of `x` that `reflect.DeepEqual` can tell to be
one: the two values have the same shape, types, field names, keys and leaves, pointers are
copied to pointers to copies, and no leaf is a NaN or a non-nil function (which are not
equal to themselves).  A copy of a channel is the same channel. -/
def comparableCopy (h : Heap) : Nat → Value → Value → Bool
  | 0, _, _ => false
  | n + 1, x, y =>
    match x, y with
    | .scalar t a, .scalar u b => t == u && a == b && a.deepEq a
    | .iface t none, .iface u none => t == u
    | .iface t (some a), .iface u (some b) => t == u && comparableCopy h n a b
    | .ptr t none, .ptr u none => t == u
    | .ptr t (some a), .ptr u (some b) =>
      t == u &&
        match h.lookup a, h.lookup b with
        | some v, some w => comparableCopy h n v w
        | _, _ => false
    | .slice t none, .slice u none => t == u
    | .slice t (some xs), .slice u (some ys) => t == u && all2 (comparableCopy h n) xs ys
    | .array t xs, .array u ys => t == u && all2 (comparableCopy h n) xs ys
    | .struct t fs, .struct u gs =>
      t == u && all2 (fun f g => f.1 == g.1 && comparableCopy h n f.2 g.2) fs gs
    | .map t none, .map u none => t == u
    | .map t (some es), .map u (some gs) =>
      t == u && es.length == gs.length &&
        es.all (fun e =>
          match mapIndex es e.1, mapIndex gs e.1 with
          | some v, some w => comparableCopy h n v w
          | _, _ => false)
    | _, _ => false

/-- Down to depth `n`, no leaf of `x` (a value of leaf kind or an interface) lies below
an unexported struct field; `ro` tells whether `x` itself does. -/
def exportedLeaves (h : Heap) : Nat → Bool → Value → Bool
  | 0, _, _ => false
  | n + 1, ro, x =>
    match x with
    | .scalar _ _ => !ro
    | .iface _ _ => !ro
    | .ptr _ none => true
    | .ptr _ (some a) =>
      match h.lookup a with
      | some v => exportedLeaves h n ro v
      | none => false
    | .slice _ none => true
    | .slice _ (some xs) => xs.all (exportedLeaves h n ro)
    | .array _ xs => xs.all (exportedLeaves h n ro)
    | .struct _ fs => fs.all (fun f => exportedLeaves h n (ro || !isExported f.1) f.2)
    | .map _ none => true
    | .map _ (some es) => es.all (fun e => exportedLeaves h n ro e.2)

/-- What `reflect.DeepEqual` answers on the values that two interfaces hold does not
depend on the memory that their slices and maps share: one of the interfaces is nil, or
the two values are of different types, or, down to depth `n`, neither holds a NaN or a
non-nil function (each is a comparable copy of itself). -/
def heldSafe (h : Heap) (n : Nat) : Option Value → Option Value → Bool
  | some a, some b => a.typ != b.typ || (comparableCopy h n a a && comparableCopy h n b b)
  | _, _ => true

/-- One step from a value to a part of it. -/
inductive Step
  | field (name : String)
  | index (i : Nat)
  | key (k : Value)
  | deref

/-- The field path after one more step: a struct member appends `.Name`, an element
`[i]`, a map entry `[key]` with the key as `Value.String()` prints it, and a pointer
dereference wraps the path as `*(path)`. -/
def Step.extend (path : String) : Step → String
  | .field name => path ++ "." ++ name
  | .index i => path ++ "[" ++ toString i ++ "]"
  | .key k => path ++ "[" ++ k.String ++ "]"
  | .deref => "*(" ++ path ++ ")"

/-- The field path of the position reached from `path` by the steps, first step first. -/
def pathFrom (path : String) (steps : List Step) : String := steps.foldl Step.extend path

/-- Down to depth `n`, `x` and `y` are two values of one type that are the same except
at one leaf: the position reached from `x` by `steps`, where `x` holds `lx` and `y` holds
`ly`.  The leaf is a value of leaf kind whose two values `reflect.DeepEqual` tells apart,
or an interface whose two contents it tells apart (`heldSafe`); it does not lie below an
unexported field; everything beside the way to the leaf is a comparable copy with
exported leaves, the fields of a struct on the way have distinct names and a map on the
way has the key of the leaf and the other keys on both sides.  `ro` tells whether `x`
lies below an unexported field. -/
inductive OneLeafDiffers (h : Heap) :
    Nat → Bool → Value → Value → List Step → Option Value → Option Value → Prop
  | leaf (n : Nat) (t : GoType) (a b : Scalar) (hd : a.deepEq b = false) :
    OneLeafDiffers h (n + 1) false (.scalar t a) (.scalar t b) []
      (some (.scalar t a)) (some (.scalar t b))
  | ifaceLeaf (n : Nat) (t : GoType) (a b : Option Value)
      (hd : DeepEqual h n a b = some false) (hsafe : heldSafe h n a b = true) :
    OneLeafDiffers h (n + 1) false (.iface t a) (.iface t b) [] a b
  | deref (n : Nat) (t : GoType) (ro : Bool) (a b : Nat) (x y : Value) (steps : List Step)
      (lx ly : Option Value) (ha : h.lookup a = some x) (hb : h.lookup b = some y)
      (hr : OneLeafDiffers h n ro x y steps lx ly) :
    OneLeafDiffers h (n + 1) ro (.ptr t (some a)) (.ptr t (some b)) (Step.deref :: steps)
      lx ly
  | field (n : Nat) (t : GoType) (ro : Bool) (name : String) (x y : Value)
      (steps : List Step) (lx ly : Option Value) (pre post pre1 post1 : List (String × Value))
      (hlen : pre.length = pre1.length)
      (hname : name ∉ (pre ++ post).map Prod.fst)
      (hcopy : comparableCopy h (n + 1) (.struct t (pre ++ post))
        (.struct t (pre1 ++ post1)) = true)
      (hexp : exportedLeaves h (n + 1) ro (.struct t (pre ++ post)) = true)
      (hr : OneLeafDiffers h n (ro || !isExported name) x y steps lx ly) :
    OneLeafDiffers h (n + 1) ro (.struct t (pre ++ (name, x) :: post))
      (.struct t (pre1 ++ (name, y) :: post1)) (Step.field name :: steps) lx ly
  | sliceElem (n : Nat) (t : GoType) (ro : Bool) (x y : Value) (steps : List Step)
      (lx ly : Option Value) (pre post pre1 post1 : List Value)
      (hlen : pre.length = pre1.length)
      (hcopy : comparableCopy h (n + 1) (.slice t (some (pre ++ post)))
        (.slice t (some (pre1 ++ post1))) = true)
      (hexp : exportedLeaves h (n + 1) ro (.slice t (some (pre ++ post))) = true)
      (hr : OneLeafDiffers h n ro x y steps lx ly) :
    OneLeafDiffers h (n + 1) ro (.slice t (some (pre ++ x :: post)))
      (.slice t (some (pre1 ++ y :: post1))) (Step.index pre.length :: steps) lx ly
  | arrayElem (n : Nat) (t : GoType) (ro : Bool) (x y : Value) (steps : List Step)
      (lx ly : Option Value) (pre post pre1 post1 : List Value)
      (hlen : pre.length = pre1.length)
      (hcopy : comparableCopy h (n + 1) (.array t (pre ++ post))
        (.array t (pre1 ++ post1)) = true)
      (hexp : exportedLeaves h (n + 1) ro (.array t (pre ++ post)) = true)
      (hr : OneLeafDiffers h n ro x y steps lx ly) :
    OneLeafDiffers h (n + 1) ro (.array t (pre ++ x :: post))
      (.array t (pre1 ++ y :: post1)) (Step.index pre.length :: steps) lx ly
  | mapEntry (n : Nat) (t : GoType) (ro : Bool) (k x y : Value) (steps : List Step)
      (lx ly : Option Value) (es gs : List (Value × Value)) (pre post : List Value)
      (hkeys : es.map Prod.fst = pre ++ k :: post)
      (hlen : es.length = gs.length)
      (hx : mapIndex es k = some x) (hy : mapIndex gs k = some y)
      (hothers : ∀ k1, k1 ∈ pre ++ post → ∃ v w, mapIndex es k1 = some v ∧
        mapIndex gs k1 = some w ∧ comparableCopy h n v w = true ∧
        exportedLeaves h n ro v = true)
      (hr : OneLeafDiffers h n ro x y steps lx ly) :
    OneLeafDiffers h (n + 1) ro (.map t (some es)) (.map t (some gs)) (Step.key k :: steps)
      lx ly

/-- Whatever the first walk answers, short of running out of fuel, the second answers. -/
def WalkLe (w1 w2 : Walk) : Prop :=
  ∀ path e a ev av o, w1 path e a ev av = o → o ≠ .outOfFuel → w2 path e a ev av = o

/-- The diffs a call returned, none when it did not return. -/
def Outcome.diffs : Outcome → List Diff
  | .ret ds _ => ds
  | _ => []

/-- The call returned with a nil error. -/
def Outcome.noError : Outcome → Bool
  | .ret _ none => true
  | _ => false

/-- The diff lists of a sequence of calls, one after the other. -/
def concatDiffs : List Outcome → List Diff
  | [] => []
  | o :: os => o.diffs ++ concatDiffs os

/-- What the walk answers on the element pairs of two sequences, the first pair being at
index `i`, each under the path `fieldPrefix[index]`. -/
def elemOutcomes (walk : Walk) (fieldPrefix : String) (ev av : visitedPtrs) :
    Nat → List ReflectValue → List ReflectValue → List Outcome
  | i, e :: es, a :: as =>
    walk (fieldPrefix ++ "[" ++ toString i ++ "]") e a ev av ::
      elemOutcomes walk fieldPrefix ev av (i + 1) es as
  | _, _, _ => []

/-- What the walk answers on the fields of two structs, taken pairwise in declaration
order, each under the path `fieldPrefix.Name`; `ro` tells whether the structs are
read-only. -/
def fieldOutcomes (walk : Walk) (fieldPrefix : String) (ro : Bool) (ev av : visitedPtrs) :
    List (String × Value) → List (String × Value) → List Outcome
  | f :: fs, g :: gs =>
    walk (fieldPrefix ++ "." ++ f.1) (.val (ro || !isExported f.1) f.2)
        (.val (ro || !isExported f.1) g.2) ev av ::
      fieldOutcomes walk fieldPrefix ro ev av fs gs
  | _, _ => []

/-- What the walk answers on the entries of two maps under the given keys, in the order
of the keys, each under the path `fieldPrefix[key]`. -/
def entryOutcomes (walk : Walk) (fieldPrefix : String) (exp act : ReflectValue)
    (ev av : visitedPtrs) : List Value → List Outcome
  | [] => []
  | key :: keys =>
    walk (fieldPrefix ++ "[" ++ key.String ++ "]") (exp.MapIndex key) (act.MapIndex key)
        ev av ::
      entryOutcomes walk fieldPrefix exp act ev av keys

/-- The value a Diff shows for a position: what an interface holds, any other value
itself. -/
def asInterface : Value → Option Value
  | .iface _ dyn => dyn
  | v => some v

/-- The part of a value that the steps lead to: a field of a struct, an element of a
non-nil slice or of an array, the element under a key of a map, the variable a non-nil
pointer points to. -/
def valueAt (h : Heap) : Value → List Step → Option Value
  | v, [] => some v
  | .struct _ fs, .field name :: steps =>
    match fs.lookup name with
    | some v => valueAt h v steps
    | none => none
  | .slice _ (some xs), .index i :: steps =>
    match xs.get? i with
    | some v => valueAt h v steps
    | none => none
  | .array _ xs, .index i :: steps =>
    match xs.get? i with
    | some v => valueAt h v steps
    | none => none
  | .map _ (some es), .key k :: steps =>
    match mapIndex es k with
    | some v => valueAt h v steps
    | none => none
  | .ptr _ (some a), .deref :: steps =>
    match h.lookup a with
    | some v => valueAt h v steps
    | none => none
  | _, _ => none

/-- The Diff `d` lies at a position below the two values: its `Field` is the path of the
steps from `path` on to the position, its `Expected` and `Actual` are what the two values
hold there. -/
def Located (h : Heap) (path : String) (x y : Value) (d : Diff) : Prop :=
  ∃ steps vx vy, d.Field = pathFrom path steps ∧ valueAt h x steps = some vx ∧
    valueAt h y steps = some vy ∧ d.Expected = asInterface vx ∧ d.Actual = asInterface vy

/-- The Diff lies at a position below the two values that the reflected values hold. -/
def LocatedR (h : Heap) (path : String) (e a : ReflectValue) (d : Diff) : Prop :=
  ∃ ro1 x ro2 y, e = .val ro1 x ∧ a = .val ro2 y ∧ Located h path x y d

/-- At every position that the two values both have, two values of one type are of one
kind: in Go the type of a value determines its kind. -/
def KindsAgree (h : Heap) (x y : Value) : Prop :=
  ∀ steps vx vy, valueAt h x steps = some vx → valueAt h y steps = some vy →
    vx.typ = vy.typ → vx.kind = vy.kind

/-- The kinds agree in the two values that the reflected values hold. -/
def KindsAgreeR (h : Heap) (e a : ReflectValue) : Prop :=
  ∀ ro1 x ro2 y, e = .val ro1 x → a = .val ro2 y → KindsAgree h x y

/-- Every diff that the walk returns lies at a position below the two values it was
given. -/
def WalkSound (h : Heap) (w : Walk) : Prop :=
  ∀ path e a ev av ds err, w path e a ev av = .ret ds err → KindsAgreeR h e a →
    ∀ d, d ∈ ds → LocatedR h path e a d

/-- The reflected value `c` is the part of `e` one step `s` down, or the zero Value. -/
def Child (h : Heap) (s : Step) (e c : ReflectValue) : Prop :=
  c = .zero ∨ ∃ ro v ro1 v1, e = .val ro v ∧ c = .val ro1 v1 ∧
    ∀ steps, valueAt h v (s :: steps) = valueAt h v1 steps

/-- The call `r` is put together from the calls `outs` on its parts: it returns with a nil
error exactly when each of them does, and its diff list is then theirs, one after the
other in the order of `outs`. -/
def ConcatOf (r : Outcome) (outs : List Outcome) : Prop :=
  (r.noError = true ↔ ∀ o, o ∈ outs → o.noError = true) ∧
    (r.noError = true → r = .ret (concatDiffs outs) none)

/-- The property `P` holds of the two values at every position that both have. -/
def Everywhere (h : Heap) (P : Value → Value → Prop) (x y : Value) : Prop :=
  ∀ steps vx vy, valueAt h x steps = some vx → valueAt h y steps = some vy → P vx vy

/-- What the type of a Go value determines: two values of one type are of one kind, and
two structs of one type have the same fields, in the same order. -/
def SameTypeSameShape (vx vy : Value) : Prop :=
  vx.typ = vy.typ →
    vx.kind = vy.kind ∧
      ∀ t fs u gs, vx = .struct t fs → vy = .struct u gs →
        fs.map Prod.fst = gs.map Prod.fst

/-- The two values are Go values: at every position that both have, the type determines
the kind and the fields. -/
def WellTyped (h : Heap) (x y : Value) : Prop := Everywhere h SameTypeSameShape x y

/-- The two values that the reflected values hold are Go values. -/
def WellTypedR (h : Heap) (e a : ReflectValue) : Prop :=
  ∀ ro1 x ro2 y, e = .val ro1 x → a = .val ro2 y → WellTyped h x y

/-- The error is a type mismatch or a length mismatch. -/
def CompareError.isMismatch : CompareError → Bool
  | .mismatchedType _ _ _ => true
  | .mismatchedLen _ _ _ => true
  | _ => false

/-- Every error that the walk returns on Go values is a type or a length mismatch. -/
def WalkErr (h : Heap) (w : Walk) : Prop :=
  ∀ path e a ev av ds err, w path e a ev av = .ret ds (some err) → WellTypedR h e a →
    err.isMismatch = true

/-- The Diff with `Expected` and `Actual` exchanged. -/
def Diff.swap (d : Diff) : Diff :=
  { Field := d.Field, Expected := d.Actual, Actual := d.Expected }

/-- The error with the two sides exchanged. -/
def CompareError.swap : CompareError → CompareError
  | .mismatchedType field expType actType => .mismatchedType field actType expType
  | .mismatchedLen field expLen actLen => .mismatchedLen field actLen expLen
  | .fieldNotFound field => .fieldNotFound field
  | .invalidType field expType actType => .invalidType field actType expType

/-- The outcome with the two sides exchanged: the same diffs, in the same order, each with
`Expected` and `Actual` exchanged, an error exactly when there was one, the same panic. -/
def Outcome.swap : Outcome → Outcome
  | .ret diffs err => .ret (diffs.map Diff.swap) (err.map CompareError.swap)
  | .panic p => .panic p
  | .outOfFuel => .outOfFuel

/-- No map is met within `n` steps down from `x`, the values that interfaces hold and
those that pointers point to included. -/
def noMapWithin (h : Heap) : Nat → Value → Bool
  | 0, _ => true
  | n + 1, x =>
    match x with
    | .scalar _ _ => true
    | .iface _ none => true
    | .iface _ (some d) => noMapWithin h n d
    | .ptr _ none => true
    | .ptr _ (some a) =>
      match h.lookup a with
      | some v => noMapWithin h n v
      | none => true
    | .slice _ none => true
    | .slice _ (some xs) => xs.all (noMapWithin h n)
    | .array _ xs => xs.all (noMapWithin h n)
    | .struct _ fs => fs.all (fun f => noMapWithin h n f.2)
    | .map _ _ => false

/-- The walk on the two values exchanged gives the outcome exchanged. -/
def SymAt (w : Walk) (path : String) (ro : Bool) (x y : Value) : Prop :=
  w path (.val ro y) (.val ro x) [] [] = (w path (.val ro x) (.val ro y) [] []).swap

/-- What the type of a Go value determines about its parts: two values of one type are of
one kind, and the parts that they have one step down, under the same field name, index,
key or dereference, are of one type. -/
def SameTypeSameParts (h : Heap) (vx vy : Value) : Prop :=
  vx.typ = vy.typ →
    vx.kind = vy.kind ∧
      ∀ s cx cy, valueAt h vx [s] = some cx → valueAt h vy [s] = some cy → cx.typ = cy.typ

/-- The two values are typed as Go values are: at every position that both have, the type
determines the kind and the types of the parts. -/
def PartsTyped (h : Heap) (x y : Value) : Prop := Everywhere h (SameTypeSameParts h) x y

/-- The two values that the reflected values hold are of one type, and typed as Go values
are. -/
def PartsTypedR (h : Heap) (e a : ReflectValue) : Prop :=
  ∀ ro1 x ro2 y, e = .val ro1 x → a = .val ro2 y → x.typ = y.typ ∧ PartsTyped h x y

/-- The error is a type mismatch. -/
def CompareError.isTypeMismatch : CompareError → Bool
  | .mismatchedType _ _ _ => true
  | _ => false

/-- On two Go values of one type, no error that the walk returns is a type mismatch. -/
def WalkTyped (h : Heap) (w : Walk) : Prop :=
  ∀ path e a ev av ds err, w path e a ev av = .ret ds (some err) → PartsTypedR h e a →
    err.isTypeMismatch = false

/-! ## Concrete values -/

def tInt : GoType := ⟨"int", 1⟩

def tString : GoType := ⟨"string", 2⟩

def tFloat64 : GoType := ⟨"float64", 3⟩

def tIntSlice : GoType := ⟨"[]int", 4⟩

def tIface : GoType := ⟨"interface {}", 5⟩

/-- The Go value `n` of type `int`. -/
def intV (n : Int) : Value := .scalar tInt (.int n)

/-- The Go value `s` of type `string`. -/
def strV (s : String) : Value := .scalar tString (.str s)

/-- A quiet NaN of type `float64`, bit pattern `0x7FF8000000000000`. -/
def nanV : Value := .scalar tFloat64 (.float 0x7FF8000000000000)

/-- The type `struct { A int; B []int }`. -/
def tPair : GoType := ⟨"struct { A int; B []int }", 6⟩

/-- The value `struct { A int; B []int }{1, []int{1}}`. -/
def pairExpected : Value := .struct tPair [("A", intV 1), ("B", .slice tIntSlice (some [intV 1]))]

/-- The value `struct { A int; B []int }{2, []int{1, 2}}`. -/
def pairActual : Value :=
  .struct tPair [("A", intV 2), ("B", .slice tIntSlice (some [intV 1, intV 2]))]

/-- The type `type Node struct { Next *Node }`. -/
def tNode : GoType := ⟨"compare.Node", 7⟩

def tPtrNode : GoType := ⟨"*compare.Node", 8⟩

/-- Two nodes, at the addresses 1 and 2, each of which points back to itself:
`n := &Node{}; n.Next = n`. -/
def selfHeap : Heap :=
  [(1, .struct tNode [("Next", .ptr tPtrNode (some 1))]),
   (2, .struct tNode [("Next", .ptr tPtrNode (some 2))])]

/-- The types of `compare_test.go`. -/
def tTS : GoType := ⟨"compare.TS", 9⟩

def tPtrTS : GoType := ⟨"*compare.TS", 10⟩

def tTSInner : GoType := ⟨"struct { C int; D interface {} }", 11⟩

def tB : GoType := ⟨"compare.B", 12⟩

def tPtrB : GoType := ⟨"*compare.B", 13⟩

/-- The value of type `TS` of `Test_Compare` whose field `B.D` holds the pointer at
address `b`. -/
def tsValue (b : Nat) : Value :=
  .struct tTS
    [("A", strV "aaa"),
     ("B", .struct tTSInner [("C", intV 3), ("D", .iface tIface (some (.ptr tPtrB (some b))))])]

/-- The heap of `Test_Compare`: the two `TS` values at the addresses 1 and 2, the
`B{M: "mmm"}` and `B{M: "m2mm"}` they hold in `B.D` at the addresses 3 and 4. -/
def testHeap : Heap :=
  [(1, tsValue 3), (2, tsValue 4),
   (3, .struct tB [("M", strV "mmm")]), (4, .struct tB [("M", strV "m2mm")])]

/-- The type `struct { D interface {} }`. -/
def tHolder : GoType := ⟨"struct { D interface {} }", 14⟩

/-- The value `struct { D interface {} }{d}`. -/
def holder (d : Value) : Value := .struct tHolder [("D", .iface tIface (some d))]

/-- The type `map[string][]int`. -/
def tMapSlice : GoType := ⟨"map[string][]int", 15⟩

/-- The value `map[string][]int{"k": {n}}`. -/
def mapSlice (n : Int) : Value :=
  .map tMapSlice (some [(strV "k", .slice tIntSlice (some [intV n]))])

/-- The type `map[string]int`. -/
def tMapInt : GoType := ⟨"map[string]int", 16⟩

/-- A map with keys of a string type `kt` and elements of a leaf type `vt`, its entries
in the order in which the runtime enumerates them. -/
def strMap (t kt vt : GoType) (es : List (String × Scalar)) : Value :=
  .map t (some (es.map (fun e => (Value.scalar kt (.str e.1), Value.scalar vt e.2))))

/-- The type `struct { A int; b int }`, with the unexported field `b`. -/
def tHidden : GoType := ⟨"struct { A int; b int }", 17⟩

/-- The value `struct { A int; b int }{1, 2}`. -/
def hidden : Value := .struct tHidden [("A", intV 1), ("b", intV 2)]

/-- The type `struct { X int; P *int }`. -/
def tWithPtr : GoType := ⟨"struct { X int; P *int }", 18⟩

def tPtrInt : GoType := ⟨"*int", 19⟩

/-- The type `struct { P *int; Q *int }`. -/
def tTwoPtr : GoType := ⟨"struct { P *int; Q *int }", 20⟩

/-- The value `struct { P *int; Q *int }{p, p}`: the two fields hold the same pointer, the
one at address `a`. -/
def twoPtr (a : Nat) : Value :=
  .struct tTwoPtr [("P", .ptr tPtrInt (some a)), ("Q", .ptr tPtrInt (some a))]

/-- A heap with the `int` 1 at address 1 and the `int` 2 at address 2. -/
def sharedHeap : Heap := [(1, intV 1), (2, intV 2)]

/-- The type `type Holder struct { Xs []int }` and the type of pointers to it. -/
def tXs : GoType := ⟨"compare.Holder", 21⟩

def tPtrXs : GoType := ⟨"*compare.Holder", 22⟩

/-- A heap with `Holder{Xs: []int{1, 2, 3}}` at address 1 and
`Holder{Xs: []int{1, 2, 4}}` at address 2. -/
def xsHeap : Heap :=
  [(1, .struct tXs [("Xs", .slice tIntSlice (some [intV 1, intV 2, intV 3]))]),
   (2, .struct tXs [("Xs", .slice tIntSlice (some [intV 1, intV 2, intV 4]))])]

/-- The type `map[int]int`. -/
def tMapIntInt : GoType := ⟨"map[int]int", 23⟩

/-- The value `map[int]int{k1: v1, ...}`, its entries in the order in which the runtime
enumerates them. -/
def intMap (es : List (Int × Int)) : Value :=
  .map tMapIntInt (some (es.map (fun e => (intV e.1, intV e.2))))

/-- The type `struct { A []int; B int }`. -/
def tSliceInt : GoType := ⟨"struct { A []int; B int }", 24⟩

/-- The type `struct { P *int; Xs []int }`. -/
def tPtrSlice : GoType := ⟨"struct { P *int; Xs []int }", 25⟩

/-- The type `[1]int` and the type `map[[1]int]int`, whose keys are arrays. -/
def tArr1 : GoType := ⟨"[1]int", 26⟩

def tMapArr : GoType := ⟨"map[[1]int]int", 27⟩

/-- The value `map[[1]int]int{[1]int{k}: v}`. -/
def arrMap (k v : Int) : Value := .map tMapArr (some [(.array tArr1 [intV k], intV v)])

end compare

/-! # Package `lame`: the wav header reader, the bridge to libmp3lame and the writer

The files `wavfile.go`, `liblame.go` and `encoder.go`.  A reader is an in-memory stream of
bytes; Go's `int` is the 64-bit integer; an integer of width `w` is an `Int` kept in range
by `wrapInt w`.  The C library libmp3lame is not part of the repository: its functions are
the fields of a record `NativeLame`, which everything below takes as a parameter. -/

namespace lame

/-- A byte. -/
abbrev Byte := Fin 256

/-- An `io.Reader` over a stream held in memory: the bytes that are still to read. -/
abbrev Reader := List Byte

/-- The integer of the given width with the bits of `n`, in two's complement. -/
def wrapInt (bits : Nat) (n : Int) : Int :=
  if n % 2 ^ bits < 2 ^ (bits - 1) then n % 2 ^ bits else n % 2 ^ bits - 2 ^ bits

/-- The conversion to `int16`. -/
def int16 (n : Int) : Int := wrapInt 16 n

/-- The conversion to `int32`, which is also the conversion to `C.int`. -/
def int32 (n : Int) : Int := wrapInt 32 n

/-- The conversion to `int64`, which is also the conversion to `int`. -/
def int64 (n : Int) : Int := wrapInt 64 n

/-- The errors of the package, and the one `fmt.Errorf` makes in `setterError`. -/
inductive Error
  | ErrInvalidWavChunkId
  | ErrCannotReadChunkId
  | ErrCannotReadHeader
  | ErrUnsupportedChannelNum
  | ErrInsufficientMemory
  | ErrCannotInitParams
  | ErrParamsNotInit
  | ErrTooSmallBuffer
  | ErrUnknown
  | ErrEmptyArguments
  | ErrInvalidSampleRate
  | cannot (name : String) (retCode : Int)
  deriving DecidableEq

/-- The ways a call can crash. -/
inductive Panic
  | uninitializedLame
  | nilHandleInC
  | integerDivideByZero
  | makesliceLenOutOfRange
  | sliceBoundsOutOfRange
  deriving DecidableEq

/-! ## `wavfile.go` -/

/-- The struct `WavHeaderRemaining`: the 40 bytes after the chunk id. -/
structure WavHeaderRemaining where
  ChunkSize : Int
  Format : List Byte
  SubChunk1Id : List Byte
  SubChunk1Size : Int
  AudioFormat : Int
  NumChannels : Int
  SampleRate : Int
  ByteRate : Int
  BlockAlign : Int
  BitsPerSample : Int
  SubChunk2Id : List Byte
  SubChunk2Size : Int
  deriving DecidableEq

/-- The struct `WavHeader`, the header of a common wav file, length=44B: the chunk id and,
embedded, the remaining fields. -/
structure WavHeader extends WavHeaderRemaining where
  ChunkId : List Byte
  deriving DecidableEq

/-- The chunk id of a little-endian file, `RIFF`. -/
def chunkIdLe : List Byte := [0x52, 0x49, 0x46, 0x46]

/-- The chunk id of a big-endian file, `RIFX`. -/
def chunkIdBe : List Byte := [0x52, 0x49, 0x46, 0x58]

/-- The bytes `WAVE`. -/
def format : List Byte := [0x57, 0x41, 0x56, 0x45]

/-- The bytes `fmt `. -/
def subChunk1Id : List Byte := [0x66, 0x6d, 0x74, 0x20]

/-- The bytes `data`. -/
def subChunk2Id : List Byte := [0x64, 0x61, 0x74, 0x61]

/-- The two byte orders of package `encoding/binary`. -/
inductive ByteOrder
  | LittleEndian
  | BigEndian
  deriving DecidableEq

/-- The byte `b[i]` as a number. -/
def byteAt (b : List Byte) (i : Nat) : Nat := (b.getD i 0).val

/-- The method `Uint16` of a byte order, on the first two bytes of `b`; the bits of the
bytes do not overlap, so that the sum is Go's bitwise or. -/
def ByteOrder.Uint16 : ByteOrder → List Byte → Nat
  | .LittleEndian, b => byteAt b 0 + byteAt b 1 * 2 ^ 8
  | .BigEndian, b => byteAt b 1 + byteAt b 0 * 2 ^ 8

/-- The method `Uint32` of a byte order, on the first four bytes of `b`. -/
def ByteOrder.Uint32 : ByteOrder → List Byte → Nat
  | .LittleEndian, b =>
    byteAt b 0 + byteAt b 1 * 2 ^ 8 + byteAt b 2 * 2 ^ 16 + byteAt b 3 * 2 ^ 24
  | .BigEndian, b =>
    byteAt b 3 + byteAt b 2 * 2 ^ 8 + byteAt b 1 * 2 ^ 16 + byteAt b 0 * 2 ^ 24

/-- The function `io.ReadFull` for `n` bytes: the bytes and the stream after them; when
the stream holds fewer than `n` bytes, an error, and the stream is drained. -/
def readFull (n : Nat) (reader : Reader) : Option (List Byte) × Reader :=
  if n ≤ reader.length then (some (reader.take n), reader.drop n) else (none, [])

/-- The slice `buf[offset : offset+n]` of the decoder of `binary.Read`. -/
def window (buf : List Byte) (offset n : Nat) : List Byte := (buf.drop offset).take n

/-- What `binary.Read` decodes from the 40 bytes it has read for a `WavHeaderRemaining`:
the fields in the order of their declaration, each at the offset the fields before it
leave. -/
def decodeWavHeaderRemaining (order : ByteOrder) (buf : List Byte) : WavHeaderRemaining :=
  { ChunkSize := int32 (order.Uint32 (window buf 0 4))
    Format := window buf 4 4
    SubChunk1Id := window buf 8 4
    SubChunk1Size := int32 (order.Uint32 (window buf 12 4))
    AudioFormat := int16 (order.Uint16 (window buf 16 2))
    NumChannels := int16 (order.Uint16 (window buf 18 2))
    SampleRate := int32 (order.Uint32 (window buf 20 4))
    ByteRate := int32 (order.Uint32 (window buf 24 4))
    BlockAlign := int16 (order.Uint16 (window buf 28 2))
    BitsPerSample := int16 (order.Uint16 (window buf 30 2))
    SubChunk2Id := window buf 32 4
    SubChunk2Size := int32 (order.Uint32 (window buf 36 4)) }

/-- The value `new(WavHeader)`: every field zero. -/
def zeroWavHeader : WavHeader :=
  { ChunkId := [0, 0, 0, 0]
    ChunkSize := 0
    Format := [0, 0, 0, 0]
    SubChunk1Id := [0, 0, 0, 0]
    SubChunk1Size := 0
    AudioFormat := 0
    NumChannels := 0
    SampleRate := 0
    ByteRate := 0
    BlockAlign := 0
    BitsPerSample := 0
    SubChunk2Id := [0, 0, 0, 0]
    SubChunk2Size := 0 }

/-- The function `ReadWavHeader`: the header, the error and the stream as the call leaves
it.  The chunk id is read, then, in the byte order it tells, the remaining fields. -/
def ReadWavHeader (reader : Reader) : WavHeader × Option Error × Reader :=
  match readFull 4 reader with
  | (none, reader1) => (zeroWavHeader, some .ErrCannotReadChunkId, reader1)
  | (some chunkId, reader1) =>
    let hdr : WavHeader := { zeroWavHeader with ChunkId := chunkId }
    if chunkId ≠ chunkIdLe ∧ chunkId ≠ chunkIdBe then
      (hdr, some .ErrInvalidWavChunkId, reader1)
    else
      let order := if chunkId = chunkIdLe then ByteOrder.LittleEndian else ByteOrder.BigEndian
      match readFull 40 reader1 with
      | (none, reader2) => (hdr, some .ErrCannotReadHeader, reader2)
      | (some buf, reader2) =>
        ({ hdr with toWavHeaderRemaining := decodeWavHeaderRemaining order buf }, none,
          reader2)

/-- The method `IsBigEndian`. -/
def WavHeader.IsBigEndian (hdr : WavHeader) : Bool := hdr.ChunkId == chunkIdBe

/-! ## `liblame.go` -/

/-- The functions of libmp3lame that the bridge calls, on an encoder state `σ`: a setter
gives its return code and the state it leaves, the two encoding functions the return code,
the bytes they have put into the mp3 buffer and the state. -/
structure NativeLame (σ : Type) where
  lame_init : Option σ
  lame_init_params : σ → Int × σ
  lame_set_in_samplerate : σ → Int → Int × σ
  lame_get_in_samplerate : σ → Int
  lame_set_num_channels : σ → Int → Int × σ
  lame_get_num_channels : σ → Int
  lame_set_out_samplerate : σ → Int → Int × σ
  lame_get_out_samplerate : σ → Int
  lame_set_quality : σ → Int → Int × σ
  lame_set_mode : σ → Int → Int × σ
  lame_encode_buffer : σ → List Int → List Int → Int → Int → Int × List Byte × σ
  lame_encode_buffer_interleaved : σ → List Int → Int → Int → Int × List Byte × σ

/-- The struct `Lame`: the pointer to the `lame_global_struct`, nil when `none`, and
whether `lame_init_params` has been called since the last setting. -/
structure Lame (σ : Type) where
  lgs : Option σ
  paramUpdated : Bool

def MODE_STEREO : Int := 0

def MODE_JOINT_STEREO : Int := 1

def MODE_DUAL_CHANNEL : Int := 2

def MODE_MONO : Int := 3

/-- The function `NewLame`. -/
def NewLame {σ : Type} (N : NativeLame σ) : Option (Lame σ) × Option Error :=
  match N.lame_init with
  | none => (none, some .ErrInsufficientMemory)
  | some g => (some { lgs := some g, paramUpdated := false }, none)

/-- The method `setterError`, after the C setter has left the state `g`: a return code
other than 0 is an error, otherwise `paramUpdated` is set to false. -/
def Lame.setterError {σ : Type} (l : Lame σ) (name : String) (ret : Int × σ) :
    Option Error × Lame σ :=
  if ret.1 ≠ 0 then (some (.cannot name ret.1), { l with lgs := some ret.2 })
  else (none, { lgs := some ret.2, paramUpdated := false })

/-- The method `checkSampleRate`. -/
def checkSampleRate (rate : Int) : Option Error :=
  if rate = 8000 ∨ rate = 11025 ∨ rate = 12000 ∨ rate = 16000 ∨ rate = 22050 ∨ rate = 24000
      ∨ rate = 32000 ∨ rate = 44100 ∨ rate = 48000 then none
  else some .ErrInvalidSampleRate

/-- The method `InitParams`; `checkLgs` panics on a nil handle. -/
def Lame.InitParams {σ : Type} (N : NativeLame σ) (l : Lame σ) :
    Except Panic (Option Error × Lame σ) :=
  match l.lgs with
  | none => .error .uninitializedLame
  | some g =>
    let ret := N.lame_init_params g
    if int64 ret.1 ≠ 0 then .ok (some .ErrCannotInitParams, { l with lgs := some ret.2 })
    else .ok (none, { lgs := some ret.2, paramUpdated := true })

/-- The method `SetInSampleRate`: set input sample rate. -/
def Lame.SetInSampleRate {σ : Type} (N : NativeLame σ) (l : Lame σ) (sampleRate : Int) :
    Except Panic (Option Error × Lame σ) :=
  match l.lgs with
  | none => .error .uninitializedLame
  | some g =>
    match checkSampleRate sampleRate with
    | some err => .ok (some err, l)
    | none => .ok (l.setterError "lame_set_in_samplerate"
        (N.lame_set_in_samplerate g (int32 sampleRate)))

/-- The method `GetInSampleRate`: get input sample rate. -/
def Lame.GetInSampleRate {σ : Type} (N : NativeLame σ) (l : Lame σ) : Except Panic Int :=
  match l.lgs with
  | none => .error .uninitializedLame
  | some g => .ok (N.lame_get_in_samplerate g)

/-- The method `SetNumChannels`: set number of channels. -/
def Lame.SetNumChannels {σ : Type} (N : NativeLame σ) (l : Lame σ) (numChannels : Int) :
    Except Panic (Option Error × Lame σ) :=
  match l.lgs with
  | none => .error .uninitializedLame
  | some g => .ok (l.setterError "lame_set_num_channels"
      (N.lame_set_num_channels g (int32 numChannels)))

/-- The method `GetNumChannels`: it calls `lame_get_in_samplerate`. -/
def Lame.GetNumChannels {σ : Type} (N : NativeLame σ) (l : Lame σ) : Except Panic Int :=
  match l.lgs with
  | none => .error .uninitializedLame
  | some g => .ok (N.lame_get_in_samplerate g)

/-- The method `SetOutSampleRate`. -/
def Lame.SetOutSampleRate {σ : Type} (N : NativeLame σ) (l : Lame σ) (outSampleRate : Int) :
    Except Panic (Option Error × Lame σ) :=
  match l.lgs with
  | none => .error .uninitializedLame
  | some g =>
    match checkSampleRate outSampleRate with
    | some err => .ok (some err, l)
    | none => .ok (l.setterError "lame_set_out_samplerate"
        (N.lame_set_out_samplerate g (int32 outSampleRate)))

/-- The method `GetOutSampleRate`. -/
def Lame.GetOutSampleRate {σ : Type} (N : NativeLame σ) (l : Lame σ) : Except Panic Int :=
  match l.lgs with
  | none => .error .uninitializedLame
  | some g => .ok (N.lame_get_out_samplerate g)

/-- The method `SetQuality`. -/
def Lame.SetQuality {σ : Type} (N : NativeLame σ) (l : Lame σ) (quality : Int) :
    Except Panic (Option Error × Lame σ) :=
  match l.lgs with
  | none => .error .uninitializedLame
  | some g => .ok (l.setterError "lame_set_quality" (N.lame_set_quality g (int32 quality)))

/-- The method `SetMode`. -/
def Lame.SetMode {σ : Type} (N : NativeLame σ) (l : Lame σ) (mode : Int) :
    Except Panic (Option Error × Lame σ) :=
  match l.lgs with
  | none => .error .uninitializedLame
  | some g => .ok (l.setterError "lame_set_mode" (N.lame_set_mode g (int32 mode)))

/-- The method `encodeError`. -/
def encodeError (ret : Int) : Int × Option Error :=
  if ret ≥ 0 then (ret, none)
  else if ret = -1 then (0, some .ErrTooSmallBuffer)
  else if ret = -2 then (0, some .ErrInsufficientMemory)
  else if ret = -3 then (0, some .ErrParamsNotInit)
  else (0, some .ErrUnknown)

/-- The mp3 buffer of `bufLen` zero bytes after the encoder has put `written` at its
start. -/
def filled (bufLen : Nat) (written : List Byte) : List Byte :=
  (written ++ List.replicate bufLen 0).take bufLen

/-- The method `EncodeInt16` on an mp3 buffer of `bufLen` bytes: the count, the error, the
buffer and the handle after the call.  The handle is not checked; a call of the C function
on a nil handle counts as a crash. -/
def Lame.EncodeInt16 {σ : Type} (N : NativeLame σ) (l : Lame σ) (dataLeft dataRight : List Int)
    (bufLen : Nat) : Except Panic (Int × Option Error × List Byte × Lame σ) :=
  if bufLen = 0 ∨ dataLeft.length = 0 ∨ dataRight.length = 0 then
    .ok (0, some .ErrEmptyArguments, List.replicate bufLen 0, l)
  else
    match l.lgs with
    | none => .error .nilHandleInC
    | some g =>
      let ret := N.lame_encode_buffer g dataLeft dataRight (int32 dataLeft.length)
        (int32 bufLen)
      let res := encodeError (int64 ret.1)
      .ok (res.1, res.2, filled bufLen ret.2.1, { l with lgs := some ret.2.2 })

/-- The method `EncodeInt16Interleaved`. -/
def Lame.EncodeInt16Interleaved {σ : Type} (N : NativeLame σ) (l : Lame σ) (data : List Int)
    (bufLen : Nat) : Except Panic (Int × Option Error × List Byte × Lame σ) :=
  if bufLen = 0 ∨ data.length = 0 then
    .ok (0, some .ErrEmptyArguments, List.replicate bufLen 0, l)
  else
    match l.lgs with
    | none => .error .nilHandleInC
    | some g =>
      let ret := N.lame_encode_buffer_interleaved g data (int32 data.length) (int32 bufLen)
      let res := encodeError (int64 ret.1)
      .ok (res.1, res.2, filled bufLen ret.2.1, { l with lgs := some ret.2.2 })

/-! ## `encoder.go` -/

/-- The struct `EncodeOptions`. -/
structure EncodeOptions where
  InBigEndian : Bool
  InSampleRate : Int
  InBitsPerSample : Int
  InNumChannels : Int
  OutSampleRate : Int
  OutMode : Int
  OutQuality : Int
  deriving DecidableEq

/-- The struct `Writer`; the output is a buffer in memory, to which a write appends. -/
structure Writer (σ : Type) extends EncodeOptions where
  output : List Byte
  lame : Lame σ

/-- The method `ToEncodeOptions`. -/
def WavHeader.ToEncodeOptions (hdr : WavHeader) : EncodeOptions :=
  { InBigEndian := hdr.IsBigEndian
    InSampleRate := int64 hdr.SampleRate
    InBitsPerSample := int64 hdr.BitsPerSample
    InNumChannels := int64 hdr.NumChannels
    OutSampleRate := int64 hdr.SampleRate
    OutMode := MODE_STEREO
    OutQuality := 0 }

/-- The function `NewWriter`, on an empty output. -/
def NewWriter {σ : Type} (N : NativeLame σ) : Option (Writer σ) × Option Error :=
  match NewLame N with
  | (some lame, none) =>
    (some
      { output := []
        lame := lame
        InBigEndian := false
        InSampleRate := 44100
        InBitsPerSample := 16
        InNumChannels := 2
        OutSampleRate := 44100
        OutMode := MODE_MONO
        OutQuality := 1 }, none)
  | (_, err) => (none, err)

/-- One step of `ForceUpdateParams`: the setter is run on the handle of the writer, and
the next step only when it returned no error. -/
def Writer.andThen {σ : Type} (w : Writer σ)
    (setter : Lame σ → Except Panic (Option Error × Lame σ))
    (next : Writer σ → Except Panic (Option Error × Writer σ)) :
    Except Panic (Option Error × Writer σ) :=
  match setter w.lame with
  | .error p => .error p
  | .ok (some err, l) => .ok (some err, { w with lame := l })
  | .ok (none, l) => next { w with lame := l }

/-- The method `ForceUpdateParams`. -/
def Writer.ForceUpdateParams {σ : Type} (N : NativeLame σ) (w : Writer σ) :
    Except Panic (Option Error × Writer σ) :=
  w.andThen (fun l => l.SetInSampleRate N w.InSampleRate) fun w1 =>
  w1.andThen (fun l => l.SetOutSampleRate N w.OutSampleRate) fun w2 =>
  w2.andThen (fun l => l.SetNumChannels N w.InNumChannels) fun w3 =>
  w3.andThen (fun l => l.SetMode N w.OutMode) fun w4 =>
  w4.andThen (fun l => l.SetQuality N w.OutQuality) fun w5 =>
  w5.andThen (fun l => l.InitParams N) fun w6 => .ok (none, w6)

/-- The samples that `Write` makes of the bytes `p`: `len(p) / 2` of them, sample `i` being
`int16(p[i*2]) * lo + int16(p[i*2+1]) * hi` in 16-bit arithmetic. -/
def samplesOf (inBigEndian : Bool) (p : List Byte) : List Int :=
  let lo : Int := if inBigEndian then 0x0100 else 0x0001
  let hi : Int := if inBigEndian then 0x0001 else 0x0100
  (List.range (p.length / 2)).map fun i =>
    int16 (int16 (int16 (byteAt p (i * 2)) * lo) + int16 (int16 (byteAt p (i * 2 + 1)) * hi))

/-- What a call of `Write` does: it returns `(n, err)` and leaves the writer `w`, or it
panics. -/
inductive WriteOutcome (σ : Type)
  | ret (n : Int) (err : Option Error) (w : Writer σ)
  | panic (p : Panic)

/-- The method `Write`.  The size of the mp3 buffer is computed in `float32`, which is
not modelled: `mp3BufSize` is the function `int(1.25 * float32(outSampleCount) + 7200)`. -/
def Writer.Write {σ : Type} (N : NativeLame σ) (mp3BufSize : Int → Int) (w : Writer σ)
    (p : List Byte) : WriteOutcome σ :=
  match (if !w.lame.paramUpdated then w.ForceUpdateParams N else .ok (none, w)) with
  | .error pn => .panic pn
  | .ok (some err, w1) => .ret 0 (some err) w1
  | .ok (none, w1) =>
    let samples := samplesOf w1.InBigEndian p
    let outNumChannels : Int := if w1.OutMode = MODE_MONO then 1 else 2
    if int64 w1.OutSampleRate = 0 then .panic .integerDivideByZero
    else if int64 w1.InNumChannels = 0 then .panic .integerDivideByZero
    else
      let outSampleCount :=
        int64 ((int64 ((int64 ((int64 (int64 samples.length * int64 w1.InSampleRate)).tdiv
          (int64 w1.OutSampleRate))) * int64 outNumChannels)).tdiv (int64 w1.InNumChannels))
      let bufSize := mp3BufSize outSampleCount
      if bufSize < 0 then .panic .makesliceLenOutOfRange
      else if w1.InNumChannels ≠ 1 ∧ w1.InNumChannels ≠ 2 then
        .ret 0 (some .ErrUnsupportedChannelNum) w1
      else
        match (if w1.InNumChannels = 1 then w1.lame.EncodeInt16 N samples samples bufSize.toNat
            else w1.lame.EncodeInt16Interleaved N samples bufSize.toNat) with
        | .error pn => .panic pn
        | .ok (_, some err, _, l) => .ret 0 (some err) { w1 with lame := l }
        | .ok (n, none, mp3Buf, l) =>
          if n.toNat ≤ mp3Buf.length then
            .ret (2 * samples.length) none
              { w1 with lame := l, output := w1.output ++ mp3Buf.take n.toNat }
          else .panic .sliceBoundsOutOfRange

/-! ## Words of the specification about package `lame` -/

/-- The bytes `lo` to `hi`, both included, of a stream. -/
def bytesAt (bs : List Byte) (lo hi : Nat) : List Byte := (bs.drop lo).take (hi + 1 - lo)

/-- The number that the bytes spell little-endian: the first byte counts least. -/
def leValue : List Byte → Nat
  | [] => 0
  | b :: bs => b.val + 256 * leValue bs

/-- The number that the bytes spell big-endian: the last byte counts least. -/
def beValue (bs : List Byte) : Nat := leValue bs.reverse

/-- The header that the first 44 bytes of a stream spell at the fixed layout, with
integers read by `value`. -/
def headerAt (value : List Byte → Nat) (bs : List Byte) : WavHeader :=
  { ChunkId := bytesAt bs 0 3
    ChunkSize := int32 (value (bytesAt bs 4 7))
    Format := bytesAt bs 8 11
    SubChunk1Id := bytesAt bs 12 15
    SubChunk1Size := int32 (value (bytesAt bs 16 19))
    AudioFormat := int16 (value (bytesAt bs 20 21))
    NumChannels := int16 (value (bytesAt bs 22 23))
    SampleRate := int32 (value (bytesAt bs 24 27))
    ByteRate := int32 (value (bytesAt bs 28 31))
    BlockAlign := int16 (value (bytesAt bs 32 33))
    BitsPerSample := int16 (value (bytesAt bs 34 35))
    SubChunk2Id := bytesAt bs 36 39
    SubChunk2Size := int32 (value (bytesAt bs 40 43)) }

/-- The signed integer of the given width that has the bits of `n`, a number below
`2 ^ bits`: `n` itself when its top bit is clear, `n - 2 ^ bits` when it is set. -/
def signed (bits n : Nat) : Int := if n < 2 ^ (bits - 1) then n else (n : Int) - 2 ^ bits

/-- The bytes `p[2 * i]` and `p[2 * i + 1]` of a stream. -/
def bytePair (p : List Byte) (i : Nat) : List Byte := [p.getD (2 * i) 0, p.getD (2 * i + 1) 0]

/-- The sample rates that the bridge accepts, in Hz. -/
def sampleRates : List Int := [8000, 11025, 12000, 16000, 22050, 24000, 32000, 44100, 48000]

/-! ## Concrete values of package `lame` -/

/-- The 44 bytes of the header of `res/1chan_s16ple.wav`, as `Test_ReadWavHeader` expects
them, and two bytes of data. -/
def wavLe : Reader :=
  [0x52, 0x49, 0x46, 0x46, 0x24, 0xe2, 0x04, 0x00, 0x57, 0x41, 0x56, 0x45,
   0x66, 0x6d, 0x74, 0x20, 0x10, 0x00, 0x00, 0x00, 0x01, 0x00, 0x01, 0x00,
   0x80, 0x3e, 0x00, 0x00, 0x00, 0x7d, 0x00, 0x00, 0x02, 0x00, 0x10, 0x00,
   0x64, 0x61, 0x74, 0x61, 0x00, 0xe2, 0x04, 0x00, 0xfe, 0xff]

/-- The same header in a big-endian file, and the same two bytes of data. -/
def wavBe : Reader :=
  [0x52, 0x49, 0x46, 0x58, 0x00, 0x04, 0xe2, 0x24, 0x57, 0x41, 0x56, 0x45,
   0x66, 0x6d, 0x74, 0x20, 0x00, 0x00, 0x00, 0x10, 0x00, 0x01, 0x00, 0x01,
   0x00, 0x00, 0x3e, 0x80, 0x00, 0x00, 0x7d, 0x00, 0x00, 0x02, 0x00, 0x10,
   0x64, 0x61, 0x74, 0x61, 0x00, 0x04, 0xe2, 0x00, 0xfe, 0xff]

/-- Seven bytes of PCM data: three samples and a byte left over. -/
def pcm : List Byte := [0x34, 0x12, 0xff, 0xff, 0x00, 0x80, 0x7f]

/-- The header that `Test_ReadWavHeader` expects, with the given chunk id. -/
def testHeader (chunkId : List Byte) : WavHeader :=
  { ChunkId := chunkId
    ChunkSize := 0x04e224
    Format := format
    SubChunk1Id := subChunk1Id
    SubChunk1Size := 16
    AudioFormat := 1
    NumChannels := 1
    SampleRate := 16000
    ByteRate := 32000
    BlockAlign := 2
    BitsPerSample := 16
    SubChunk2Id := subChunk2Id
    SubChunk2Size := 320000 }

/-- The parameters that a stand-in for the encoder keeps. -/
structure Params where
  in_samplerate : Int
  out_samplerate : Int
  num_channels : Int
  quality : Int
  mode : Int
  deriving DecidableEq

/-- A stand-in for libmp3lame that keeps the parameters it is given and encodes nothing:
every setter stores its argument and returns 0, every getter returns what is stored. -/
def paramsOnly : NativeLame Params :=
  { lame_init := some { in_samplerate := 44100, out_samplerate := 0, num_channels := 2,
                         quality := -1, mode := 4 }
    lame_init_params := fun g => (0, g)
    lame_set_in_samplerate := fun g v => (0, { g with in_samplerate := v })
    lame_get_in_samplerate := fun g => g.in_samplerate
    lame_set_num_channels := fun g v => (0, { g with num_channels := v })
    lame_get_num_channels := fun g => g.num_channels
    lame_set_out_samplerate := fun g v => (0, { g with out_samplerate := v })
    lame_get_out_samplerate := fun g => g.out_samplerate
    lame_set_quality := fun g v => (0, { g with quality := v })
    lame_set_mode := fun g v => (0, { g with mode := v })
    lame_encode_buffer := fun g _ _ _ _ => (0, [], g)
    lame_encode_buffer_interleaved := fun g _ _ _ => (0, [], g) }

/-- A stand-in for libmp3lame that encodes nothing and keeps a record of the PCM buffers
it is handed, in the order of the calls: every setter returns 0, `lame_encode_buffer`
records the left and the right buffer, `lame_encode_buffer_interleaved` its one buffer,
and both report 0 bytes of mp3. -/
def recorder : NativeLame (List (List Int)) :=
  { lame_init := some []
    lame_init_params := fun g => (0, g)
    lame_set_in_samplerate := fun g _ => (0, g)
    lame_get_in_samplerate := fun _ => 0
    lame_set_num_channels := fun g _ => (0, g)
    lame_get_num_channels := fun _ => 0
    lame_set_out_samplerate := fun g _ => (0, g)
    lame_get_out_samplerate := fun _ => 0
    lame_set_quality := fun g _ => (0, g)
    lame_set_mode := fun g _ => (0, g)
    lame_encode_buffer := fun g pcmLeft pcmRight _ _ => (0, [], g ++ [pcmLeft, pcmRight])
    lame_encode_buffer_interleaved := fun g data _ _ => (0, [], g ++ [data]) }

/-- The handle that `NewLame` makes on the stand-in. -/
def freshLame : Lame Params :=
  { lgs := paramsOnly.lame_init, paramUpdated := false }

/-- A writer as `NewWriter` makes it, after its parameters have been initialised, with
`InNumChannels` set to `n`. -/
def writerWith {σ : Type} (g : σ) (out : List Byte) (n : Int) : Writer σ :=
  { output := out
    lame := { lgs := some g, paramUpdated := true }
    InBigEndian := false
    InSampleRate := 44100
    InBitsPerSample := 16
    InNumChannels := n
    OutSampleRate := 44100
    OutMode := MODE_MONO
    OutQuality := 1 }

end lame

namespace compare

/-! ## Lemmas -/

theorem deepAll_true {α : Type} (eq : Value → Value → Option Bool) (f : α → Value)
    (p : α → α → Bool) (hp : ∀ x y, p x y = true → eq (f x) (f y) = some true) :
    ∀ xs ys, all2 p xs ys = true → deepAll eq (xs.map f) (ys.map f) = some true := by
  intro xs
  induction xs with
  | nil => intro ys hall; cases ys <;> simp_all [all2, deepAll]
  | cons x xs ih =>
    intro ys hall
    cases ys with
    | nil => simp [all2] at hall
    | cons y ys =>
      simp only [all2, Bool.and_eq_true] at hall
      simp only [List.map_cons, deepAll, hp x y hall.1]
      exact ih ys hall.2

theorem all2_length {α β : Type} (p : α → β → Bool) :
    ∀ xs ys, all2 p xs ys = true → xs.length = ys.length := by
  intro xs
  induction xs with
  | nil => intro ys hall; cases ys <;> simp_all [all2]
  | cons x xs ih =>
    intro ys hall
    cases ys with
    | nil => simp [all2] at hall
    | cons y ys =>
      simp only [all2, Bool.and_eq_true] at hall
      simp [ih ys hall.2]

theorem deepEntries_true (eq : Value → Value → Option Bool) (es gs : List (Value × Value))
    (p : Value → Value → Bool) (hp : ∀ x y, p x y = true → eq x y = some true) :
    ∀ rest : List (Value × Value),
      (rest.all (fun e =>
        match mapIndex es e.1, mapIndex gs e.1 with
        | some v, some w => p v w
        | _, _ => false)) = true →
      deepEntries eq es gs rest = some true := by
  intro rest
  induction rest with
  | nil => intro _; rfl
  | cons e rest ih =>
    intro hall
    obtain ⟨k, v0⟩ := e
    simp only [List.all_cons, Bool.and_eq_true] at hall
    obtain ⟨h1, h2⟩ := hall
    simp only [deepEntries]
    cases hv : mapIndex es k with
    | none => simp [hv] at h1
    | some v =>
      cases hw : mapIndex gs k with
      | none => simp [hv, hw] at h1
      | some w =>
        simp only [hv, hw] at h1
        simp only [hp v w h1]
        exact ih h2

theorem comparableCopy_typ (h : Heap) (n : Nat) (x y : Value)
    (hc : comparableCopy h n x y = true) : x.typ = y.typ := by
  cases n with
  | zero => simp [comparableCopy] at hc
  | succ n =>
    cases x <;> cases y <;>
      first
      | (simp [comparableCopy] at hc; done)
      | (rename_i a1 a2 a3 a4
         cases a2 <;> cases a4 <;> simp_all [comparableCopy, Value.typ])

theorem deepValueEqual_of_copy (h : Heap) :
    ∀ (n : Nat) (x y : Value), comparableCopy h n x y = true →
      ∀ fuel, n ≤ fuel → deepValueEqual h fuel x y = some true := by
  intro n
  induction n with
  | zero => intro x y hc; simp [comparableCopy] at hc
  | succ n ih =>
    intro x y hc fuel hfuel
    obtain ⟨m, rfl⟩ : ∃ m, fuel = m + 1 := ⟨fuel - 1, by omega⟩
    have hm : n ≤ m := by omega
    have ht := comparableCopy_typ h _ x y hc
    have hrec : ∀ a b, comparableCopy h n a b = true → deepValueEqual h m a b = some true :=
      fun a b hab => ih a b hab m hm
    cases x with
    | scalar t a =>
      cases y with
      | scalar u b =>
        simp only [comparableCopy, Bool.and_eq_true, beq_iff_eq] at hc
        obtain ⟨⟨rfl, rfl⟩, hd⟩ := hc
        simp [deepValueEqual, Value.typ, hd]
      | _ => simp [comparableCopy] at hc
    | iface t a =>
      cases y with
      | iface u b =>
        cases a <;> cases b <;> simp only [comparableCopy, Bool.and_eq_true, beq_iff_eq] at hc
        · simp [deepValueEqual, Value.typ, hc]
        · simp at hc
        · simp at hc
        · obtain ⟨rfl, hab⟩ := hc
          simp [deepValueEqual, Value.typ, hrec _ _ hab]
      | _ => simp [comparableCopy] at hc
    | ptr t a =>
      cases y with
      | ptr u b =>
        cases a <;> cases b <;> simp only [comparableCopy, Bool.and_eq_true, beq_iff_eq] at hc
        · simp [deepValueEqual, Value.typ, hc]
        · simp at hc
        · simp at hc
        · rename_i a b
          obtain ⟨rfl, hab⟩ := hc
          simp only [deepValueEqual, Value.typ, ne_eq, not_true_eq_false, ite_false]
          by_cases heq : a = b
          · simp [heq]
          · simp only [heq, ite_false]
            cases hv : h.lookup a <;> cases hw : h.lookup b <;> simp only [hv, hw] at hab ⊢
            · simp at hab
            · simp at hab
            · simp at hab
            · exact hrec _ _ hab
      | _ => simp [comparableCopy] at hc
    | slice t a =>
      cases y with
      | slice u b =>
        cases a <;> cases b <;> simp only [comparableCopy, Bool.and_eq_true, beq_iff_eq] at hc
        · simp [deepValueEqual, Value.typ, hc]
        · simp at hc
        · simp at hc
        · rename_i xs ys
          obtain ⟨rfl, hab⟩ := hc
          have hl := all2_length _ _ _ hab
          have hd := deepAll_true (deepValueEqual h m) id (comparableCopy h n) hrec xs ys hab
          simp only [List.map_id] at hd
          simp [deepValueEqual, Value.typ, hl, hd]
      | _ => simp [comparableCopy] at hc
    | array t xs =>
      cases y with
      | array u ys =>
        simp only [comparableCopy, Bool.and_eq_true, beq_iff_eq] at hc
        obtain ⟨rfl, hab⟩ := hc
        have hd := deepAll_true (deepValueEqual h m) id (comparableCopy h n) hrec xs ys hab
        simp only [List.map_id] at hd
        simp [deepValueEqual, Value.typ, hd]
      | _ => simp [comparableCopy] at hc
    | map t a =>
      cases y with
      | map u b =>
        cases a <;> cases b <;> simp only [comparableCopy, Bool.and_eq_true, beq_iff_eq] at hc
        · simp [deepValueEqual, Value.typ, hc]
        · simp at hc
        · simp at hc
        · rename_i es gs
          obtain ⟨⟨rfl, hl⟩, hab⟩ := hc
          have hd := deepEntries_true (deepValueEqual h m) es gs (comparableCopy h n) hrec es hab
          simp [deepValueEqual, Value.typ, hl, hd]
      | _ => simp [comparableCopy] at hc
    | struct t fs =>
      cases y with
      | struct u gs =>
        simp only [comparableCopy, Bool.and_eq_true, beq_iff_eq] at hc
        obtain ⟨rfl, hab⟩ := hc
        have hd := deepAll_true (deepValueEqual h m) Prod.snd
          (fun f g => f.1 == g.1 && comparableCopy h n f.2 g.2)
          (fun f g hfg => hrec _ _ (by simp only [Bool.and_eq_true] at hfg; exact hfg.2))
          fs gs hab
        simp [deepValueEqual, Value.typ, hd]
      | _ => simp [comparableCopy] at hc

/-! ### One step of `compareRecursively`, by the shape of the two values -/

theorem isPrimitiveType_scalar (a : Scalar) : isPrimitiveType a.kind = true := by
  cases a <;> rfl

theorem compareRecursively_scalar (h : Heap) (m : Nat) (path : String) (t : GoType)
    (a b : Scalar) (ev av : visitedPtrs) :
    compareRecursively h (m + 1) path (.val false (.scalar t a)) (.val false (.scalar t b))
        ev av =
      match DeepEqual h m (some (.scalar t a)) (some (.scalar t b)) with
      | some true => .ret [] none
      | some false =>
        .ret [{ Field := path, Expected := some (.scalar t a),
                Actual := some (.scalar t b) }] none
      | none => .outOfFuel := by
  simp [compareRecursively, ReflectValue.typ, Value.typ, ReflectValue.kind, Value.kind,
    isPrimitiveType_scalar, ReflectValue.Interface]

theorem compareRecursively_iface (h : Heap) (m : Nat) (path : String) (t : GoType)
    (a b : Option Value) (ev av : visitedPtrs) :
    compareRecursively h (m + 1) path (.val false (.iface t a)) (.val false (.iface t b))
        ev av =
      match DeepEqual h m a b with
      | some true => .ret [] none
      | some false => .ret [{ Field := path, Expected := a, Actual := b }] none
      | none => .outOfFuel := by
  simp [compareRecursively, ReflectValue.typ, Value.typ, ReflectValue.kind, Value.kind,
    isPrimitiveType, isPointerType, isSliceOrArrayType, isArrayType, isSliceType, isMapType,
    isStructType, ReflectValue.Interface]

theorem compareRecursively_struct (h : Heap) (m : Nat) (path : String) (t : GoType)
    (r s : Bool) (fs gs : List (String × Value)) (ev av : visitedPtrs) :
    compareRecursively h (m + 1) path (.val r (.struct t fs)) (.val s (.struct t gs)) ev av =
      compareStructLoop (compareRecursively h m) path (.val r (.struct t fs))
        (.val s (.struct t gs)) ev av (fs.map Prod.fst) [] := by
  simp [compareRecursively, ReflectValue.typ, Value.typ, ReflectValue.kind, Value.kind,
    isPrimitiveType, isPointerType, isSliceOrArrayType, isArrayType, isSliceType, isMapType,
    isStructType, compareStruct, ReflectValue.fieldNames]

theorem compareRecursively_array (h : Heap) (m : Nat) (path : String) (t : GoType)
    (r s : Bool) (xs ys : List Value) (ev av : visitedPtrs) :
    compareRecursively h (m + 1) path (.val r (.array t xs)) (.val s (.array t ys)) ev av =
      compareSliceOrArray (compareRecursively h m) path (.val r (.array t xs))
        (.val s (.array t ys)) ev av := by
  simp [compareRecursively, ReflectValue.typ, Value.typ, ReflectValue.kind, Value.kind,
    isPrimitiveType, isPointerType, isSliceOrArrayType, isArrayType, isSliceType, isMapType,
    isStructType]

theorem compareRecursively_slice (h : Heap) (m : Nat) (path : String) (t : GoType)
    (r s : Bool) (xs ys : List Value) (ev av : visitedPtrs) :
    compareRecursively h (m + 1) path (.val r (.slice t (some xs)))
        (.val s (.slice t (some ys))) ev av =
      compareSliceOrArray (compareRecursively h m) path (.val r (.slice t (some xs)))
        (.val s (.slice t (some ys))) ev av := by
  simp [compareRecursively, ReflectValue.typ, Value.typ, ReflectValue.kind, Value.kind,
    isPrimitiveType, isPointerType, isSliceOrArrayType, isArrayType, isSliceType, isMapType,
    isStructType, ReflectValue.IsNil]

theorem compareRecursively_map (h : Heap) (m : Nat) (path : String) (t : GoType)
    (r s : Bool) (es gs : List (Value × Value)) (ev av : visitedPtrs) :
    compareRecursively h (m + 1) path (.val r (.map t (some es)))
        (.val s (.map t (some gs))) ev av =
      compareMap (compareRecursively h m) path (.val r (.map t (some es)))
        (.val s (.map t (some gs))) ev av := by
  simp [compareRecursively, ReflectValue.typ, Value.typ, ReflectValue.kind, Value.kind,
    isPrimitiveType, isPointerType, isSliceOrArrayType, isArrayType, isSliceType, isMapType,
    isStructType, ReflectValue.IsNil]

theorem compareRecursively_ptr (h : Heap) (m : Nat) (path : String) (t : GoType)
    (r s : Bool) (a b : Nat) (ev av : visitedPtrs) :
    compareRecursively h (m + 1) path (.val r (.ptr t (some a)))
        (.val s (.ptr t (some b))) ev av =
      comparePointer h (compareRecursively h m) path (.val r (.ptr t (some a)))
        (.val s (.ptr t (some b))) ev av := by
  simp [compareRecursively, ReflectValue.typ, Value.typ, ReflectValue.kind, Value.kind,
    isPrimitiveType, isPointerType, isSliceOrArrayType, isArrayType, isSliceType, isMapType,
    isStructType, ReflectValue.IsNil]

theorem compareRecursively_nil_nil (h : Heap) (m : Nat) (path : String) (r s : Bool)
    (x y : Value) (ev av : visitedPtrs) (ht : x.typ = y.typ)
    (hk : isPrimitiveType x.kind = false) (hs : isStructType x.kind = false)
    (ha : isArrayType x.kind = false)
    (hx : ReflectValue.IsNil (.val r x) = some true)
    (hy : ReflectValue.IsNil (.val s y) = some true) :
    compareRecursively h (m + 1) path (.val r x) (.val s y) ev av = .ret [] none := by
  simp [compareRecursively, ReflectValue.typ, ReflectValue.kind, ht, hk, hs, ha, hx, hy]

/-! ### The loops over elements, fields and keys -/

theorem compareElem_ret (walk : Walk) (diffs ds : List Diff) (path : String)
    (e a : ReflectValue) (ev av : visitedPtrs) (hw : walk path e a ev av = .ret ds none) :
    compareElem walk diffs path e a ev av = .ret (diffs ++ ds) none := by
  cases ds with
  | nil => simp [compareElem, hw]
  | cons d ds => simp [compareElem, hw]

theorem compareElem_clean (walk : Walk) (diffs : List Diff) (path : String)
    (e a : ReflectValue) (ev av : visitedPtrs) (hw : walk path e a ev av = .ret [] none) :
    compareElem walk diffs path e a ev av = .ret diffs none := by
  simpa using compareElem_ret walk diffs [] path e a ev av hw

theorem all2_and_all {α β : Type} (p : α → β → Bool) (q : α → Bool) :
    ∀ xs ys, all2 p xs ys = true → xs.all q = true →
      all2 (fun x y => p x y && q x) xs ys = true := by
  intro xs
  induction xs with
  | nil => intro ys hall _; cases ys <;> simp_all [all2]
  | cons x xs ih =>
    intro ys hall hq
    cases ys with
    | nil => simp [all2] at hall
    | cons y ys =>
      simp only [all2, Bool.and_eq_true, List.all_cons] at hall hq ⊢
      exact ⟨⟨hall.1, hq.1⟩, ih ys hall.2 hq.2⟩

theorem sliceLoop_skip (walk : Walk) (fieldPrefix : String) (ev av : visitedPtrs)
    (r s : Bool) (p : Value → Value → Bool)
    (hp : ∀ path x y, p x y = true → walk path (.val r x) (.val s y) ev av = .ret [] none) :
    ∀ xs ys, all2 p xs ys = true → ∀ i diffs es2 as2,
      compareSliceOrArrayLoop walk fieldPrefix ev av i
          (xs.map (ReflectValue.val r) ++ es2) (ys.map (ReflectValue.val s) ++ as2) diffs =
        compareSliceOrArrayLoop walk fieldPrefix ev av (i + xs.length) es2 as2 diffs := by
  intro xs
  induction xs with
  | nil =>
    intro ys hall i diffs es2 as2
    cases ys with
    | nil => simp
    | cons y ys => simp [all2] at hall
  | cons x xs ih =>
    intro ys hall i diffs es2 as2
    cases ys with
    | nil => simp [all2] at hall
    | cons y ys =>
      simp only [all2, Bool.and_eq_true] at hall
      simp only [List.map_cons, List.cons_append, compareSliceOrArrayLoop,
        compareElem_clean walk diffs _ _ _ ev av (hp _ x y hall.1), List.length_cons]
      have key := ih ys hall.2 (i + 1) diffs es2 as2
      rw [show i + (xs.length + 1) = i + 1 + xs.length by omega]
      exact key

theorem structLoop_skip (walk : Walk) (fieldPrefix : String) (exp act : ReflectValue)
    (ev av : visitedPtrs) :
    ∀ names1 : List String,
      (∀ name, name ∈ names1 → ∃ r x s y,
        exp.FieldByName name = some (.val r x) ∧ act.FieldByName name = some (.val s y) ∧
        walk (fieldPrefix ++ "." ++ name) (.val r x) (.val s y) ev av = .ret [] none) →
      ∀ names2 diffs,
        compareStructLoop walk fieldPrefix exp act ev av (names1 ++ names2) diffs =
          compareStructLoop walk fieldPrefix exp act ev av names2 diffs := by
  intro names1
  induction names1 with
  | nil => intro _ names2 diffs; rfl
  | cons name names1 ih =>
    intro hall names2 diffs
    obtain ⟨r, x, s, y, he, ha, hw⟩ := hall name (by simp)
    simp only [List.cons_append, compareStructLoop, he, ha,
      compareElem_clean walk diffs _ _ _ ev av hw]
    exact ih (fun nm hnm => hall nm (by simp [hnm])) names2 diffs

theorem mapLoop_skip (walk : Walk) (fieldPrefix : String) (exp act : ReflectValue)
    (ev av : visitedPtrs) :
    ∀ keys1 : List Value,
      (∀ key, key ∈ keys1 →
        walk (fieldPrefix ++ "[" ++ key.String ++ "]") (exp.MapIndex key) (act.MapIndex key)
          ev av = .ret [] none) →
      ∀ keys2 diffs,
        compareMapLoop walk fieldPrefix exp act ev av (keys1 ++ keys2) diffs =
          compareMapLoop walk fieldPrefix exp act ev av keys2 diffs := by
  intro keys1
  induction keys1 with
  | nil => intro _ keys2 diffs; rfl
  | cons key keys1 ih =>
    intro hall keys2 diffs
    simp only [List.cons_append, compareMapLoop,
      compareElem_clean walk diffs _ _ _ ev av (hall key (by simp))]
    exact ih (fun k hk => hall k (by simp [hk])) keys2 diffs

theorem lookup_of_all2 (pf : String × Value → String × Value → Bool)
    (hname : ∀ f g, pf f g = true → f.1 = g.1) :
    ∀ fs gs, all2 pf fs gs = true → ∀ name, name ∈ fs.map Prod.fst →
      ∃ x y, fs.lookup name = some x ∧ gs.lookup name = some y ∧
        pf (name, x) (name, y) = true := by
  intro fs
  induction fs with
  | nil => intro gs _ name hmem; simp at hmem
  | cons f fs ih =>
    intro gs hall name hmem
    cases gs with
    | nil => simp [all2] at hall
    | cons g gs =>
      simp only [all2, Bool.and_eq_true] at hall
      obtain ⟨fn, fv⟩ := f
      obtain ⟨gn, gv⟩ := g
      have hfg : fn = gn := hname _ _ hall.1
      subst hfg
      by_cases hn : name = fn
      · subst hn
        exact ⟨fv, gv, by simp [List.lookup], by simp [List.lookup], hall.1⟩
      · have hmem2 : name ∈ fs.map Prod.fst := by
          simp only [List.map_cons, List.mem_cons] at hmem
          rcases hmem with hmem | hmem
          · exact absurd hmem hn
          · exact hmem
        obtain ⟨x, y, hx, hy, hxy⟩ := ih gs hall.2 name hmem2
        have hb : (name == fn) = false := by simpa using hn
        exact ⟨x, y, by simp [List.lookup, hb, hx], by simp [List.lookup, hb, hy], hxy⟩

theorem mapIndex_mem : ∀ (es : List (Value × Value)) (k v : Value),
    mapIndex es k = some v → ∃ k1, (k1, v) ∈ es := by
  intro es
  induction es with
  | nil => intro k v hv; simp [mapIndex] at hv
  | cons e es ih =>
    intro k v hv
    obtain ⟨k0, v0⟩ := e
    simp only [mapIndex] at hv
    by_cases hk : keyEq k0 k = true
    · simp only [hk, ite_true, Option.some.injEq] at hv
      exact ⟨k0, by simp [hv]⟩
    · simp only [hk] at hv
      obtain ⟨k1, hmem⟩ := ih k v (by simpa using hv)
      exact ⟨k1, by simp [hmem]⟩

/-! ### A comparable copy compares without a diff -/

theorem walk_of_copy (h : Heap) :
    ∀ (n : Nat) (ro : Bool) (x y : Value), comparableCopy h n x y = true →
      exportedLeaves h n ro x = true →
      ∀ fuel, n + 1 ≤ fuel → ∀ path ev av,
        compareRecursively h fuel path (.val ro x) (.val ro y) ev av = .ret [] none := by
  intro n
  induction n with
  | zero => intro ro x y hc; simp [comparableCopy] at hc
  | succ n ih =>
    intro ro x y hc he fuel hfuel path ev av
    obtain ⟨m, rfl⟩ : ∃ m, fuel = m + 1 := ⟨fuel - 1, by omega⟩
    have hm : n + 1 ≤ m := by omega
    have hrec : ∀ r a b, comparableCopy h n a b = true → exportedLeaves h n r a = true →
        ∀ p, compareRecursively h m p (.val r a) (.val r b) ev av = .ret [] none :=
      fun r a b hab hea p => ih r a b hab hea m hm p ev av
    cases x with
    | scalar t a =>
      cases y with
      | scalar u b =>
        have hd := deepValueEqual_of_copy h _ _ _ hc m hm
        simp only [comparableCopy, Bool.and_eq_true, beq_iff_eq] at hc
        obtain ⟨⟨rfl, rfl⟩, -⟩ := hc
        simp only [exportedLeaves, Bool.not_eq_true'] at he
        subst he
        simp [compareRecursively_scalar, DeepEqual, hd]
      | _ => simp [comparableCopy] at hc
    | iface t a =>
      cases y with
      | iface u b =>
        simp only [exportedLeaves, Bool.not_eq_true'] at he
        subst he
        cases a <;> cases b <;> simp only [comparableCopy, Bool.and_eq_true, beq_iff_eq] at hc
        · subst hc; simp [compareRecursively_iface, DeepEqual]
        · simp at hc
        · simp at hc
        · obtain ⟨rfl, hab⟩ := hc
          have hd := deepValueEqual_of_copy h _ _ _ hab m (by omega)
          have ht := comparableCopy_typ h _ _ _ hab
          simp [compareRecursively_iface, DeepEqual, hd, ht]
      | _ => simp [comparableCopy] at hc
    | ptr t a =>
      cases y with
      | ptr u b =>
        cases a <;> cases b <;> simp only [comparableCopy, Bool.and_eq_true, beq_iff_eq] at hc
        · subst hc
          exact compareRecursively_nil_nil h m path ro ro _ _ ev av rfl rfl rfl rfl rfl rfl
        · simp at hc
        · simp at hc
        · rename_i a b
          obtain ⟨rfl, hab⟩ := hc
          simp only [exportedLeaves] at he
          rw [compareRecursively_ptr]
          simp only [comparePointer, ReflectValue.Pointer, Indirect]
          split
          · rfl
          · cases hv : h.lookup a <;> cases hw : h.lookup b <;>
              simp only [hv, hw] at hab he ⊢
            · simp at hab
            · simp at hab
            · simp at hab
            · exact hrec _ _ _ hab he _
      | _ => simp [comparableCopy] at hc
    | slice t a =>
      cases y with
      | slice u b =>
        cases a <;> cases b <;> simp only [comparableCopy, Bool.and_eq_true, beq_iff_eq] at hc
        · subst hc
          exact compareRecursively_nil_nil h m path ro ro _ _ ev av rfl rfl rfl rfl rfl rfl
        · simp at hc
        · simp at hc
        · rename_i xs ys
          obtain ⟨rfl, hab⟩ := hc
          simp only [exportedLeaves] at he
          have hl := all2_length _ _ _ hab
          have hall := all2_and_all _ _ xs ys hab he
          have hs := sliceLoop_skip (compareRecursively h m) path ev av ro ro
            (fun a b => comparableCopy h n a b && exportedLeaves h n ro a)
            (fun p a b hp => by
              simp only [Bool.and_eq_true] at hp
              exact hrec ro a b hp.1 hp.2 p) xs ys hall 0 [] [] []
          simp only [List.append_nil] at hs
          rw [compareRecursively_slice]
          simp only [compareSliceOrArray, ReflectValue.elems, List.length_map, hl,
            ne_eq, not_true_eq_false, ite_false, hs]
          split <;> simp [compareSliceOrArrayLoop]
      | _ => simp [comparableCopy] at hc
    | array t xs =>
      cases y with
      | array u ys =>
        simp only [comparableCopy, Bool.and_eq_true, beq_iff_eq] at hc
        obtain ⟨rfl, hab⟩ := hc
        simp only [exportedLeaves] at he
        have hl := all2_length _ _ _ hab
        have hall := all2_and_all _ _ xs ys hab he
        have hs := sliceLoop_skip (compareRecursively h m) path ev av ro ro
          (fun a b => comparableCopy h n a b && exportedLeaves h n ro a)
          (fun p a b hp => by
            simp only [Bool.and_eq_true] at hp
            exact hrec ro a b hp.1 hp.2 p) xs ys hall 0 [] [] []
        simp only [List.append_nil] at hs
        rw [compareRecursively_array]
        simp only [compareSliceOrArray, ReflectValue.elems, List.length_map, hl,
          ne_eq, not_true_eq_false, ite_false, hs]
        split <;> simp [compareSliceOrArrayLoop]
      | _ => simp [comparableCopy] at hc
    | map t a =>
      cases y with
      | map u b =>
        cases a <;> cases b <;> simp only [comparableCopy, Bool.and_eq_true, beq_iff_eq] at hc
        · subst hc
          exact compareRecursively_nil_nil h m path ro ro _ _ ev av rfl rfl rfl rfl rfl rfl
        · simp at hc
        · simp at hc
        · rename_i es gs
          obtain ⟨⟨rfl, hl⟩, hab⟩ := hc
          simp only [exportedLeaves] at he
          have hs := mapLoop_skip (compareRecursively h m) path
            (.val ro (.map t (some es))) (.val ro (.map t (some gs))) ev av
            (es.map Prod.fst) (by
              intro key hkey
              simp only [List.mem_map] at hkey
              obtain ⟨e, hmem, rfl⟩ := hkey
              have h1 := (List.all_eq_true.mp hab) e hmem
              simp only [ReflectValue.MapIndex]
              cases hv : mapIndex es e.1 <;> cases hw : mapIndex gs e.1 <;>
                simp only [hv, hw] at h1 ⊢
              · simp at h1
              · simp at h1
              · simp at h1
              · rename_i v w
                obtain ⟨k1, hk1⟩ := mapIndex_mem es e.1 v hv
                have h2 := (List.all_eq_true.mp he) (k1, v) hk1
                exact hrec _ _ _ h1 h2 _) [] []
          simp only [List.append_nil] at hs
          rw [compareRecursively_map]
          simp only [compareMap, ReflectValue.entries, hl, ne_eq, not_true_eq_false,
            ite_false, hs]
          split <;> simp [compareMapLoop]
      | _ => simp [comparableCopy] at hc
    | struct t fs =>
      cases y with
      | struct u gs =>
        simp only [comparableCopy, Bool.and_eq_true, beq_iff_eq] at hc
        obtain ⟨rfl, hab⟩ := hc
        simp only [exportedLeaves] at he
        have hall := all2_and_all _ _ fs gs hab he
        have hs := structLoop_skip (compareRecursively h m) path
          (.val ro (.struct t fs)) (.val ro (.struct t gs)) ev av (fs.map Prod.fst) (by
            intro name hname
            obtain ⟨x, y, hx, hy, hxy⟩ := lookup_of_all2 _ (by
              intro f g hfg
              simp only [Bool.and_eq_true, beq_iff_eq] at hfg
              exact hfg.1.1) fs gs hall name hname
            simp only [Bool.and_eq_true, beq_iff_eq] at hxy
            exact ⟨_, x, _, y, by simp [ReflectValue.FieldByName, hx],
              by simp [ReflectValue.FieldByName, hy], hrec _ _ _ hxy.1.2 hxy.2 _⟩) [] []
        simp only [List.append_nil] at hs
        rw [compareRecursively_struct, hs]
        rfl
      | _ => simp [comparableCopy] at hc

/-! ### More fuel does not change an answer of `deepValueEqual` -/

theorem deepAll_mono (eq1 eq2 : Value → Value → Option Bool)
    (hyp : ∀ x y b, eq1 x y = some b → eq2 x y = some b) :
    ∀ xs ys b, deepAll eq1 xs ys = some b → deepAll eq2 xs ys = some b := by
  intro xs
  induction xs with
  | nil => intro ys b hb; cases ys <;> simpa [deepAll] using hb
  | cons x xs ih =>
    intro ys b hb
    cases ys with
    | nil => simpa [deepAll] using hb
    | cons y ys =>
      simp only [deepAll] at hb ⊢
      cases h1 : eq1 x y with
      | none => simp [h1] at hb
      | some c =>
        rw [hyp x y c h1]
        rw [h1] at hb
        cases c with
        | true => exact ih ys b hb
        | false => exact hb

theorem deepEntries_mono (eq1 eq2 : Value → Value → Option Bool)
    (hyp : ∀ x y b, eq1 x y = some b → eq2 x y = some b) (es gs : List (Value × Value)) :
    ∀ rest b, deepEntries eq1 es gs rest = some b → deepEntries eq2 es gs rest = some b := by
  intro rest
  induction rest with
  | nil => intro b hb; simpa [deepEntries] using hb
  | cons e rest ih =>
    intro b hb
    obtain ⟨k, v0⟩ := e
    simp only [deepEntries] at hb ⊢
    cases hv : mapIndex es k with
    | none => simpa [hv] using hb
    | some v =>
      cases hw : mapIndex gs k with
      | none => simpa [hv, hw] using hb
      | some w =>
        simp only [hv, hw] at hb ⊢
        cases h1 : eq1 v w with
        | none => simp [h1] at hb
        | some c =>
          rw [hyp v w c h1]
          rw [h1] at hb
          cases c with
          | true => exact ih b hb
          | false => exact hb

theorem deepValueEqual_mono (h : Heap) :
    ∀ (n : Nat) (x y : Value) (b : Bool), deepValueEqual h n x y = some b →
      ∀ fuel, n ≤ fuel → deepValueEqual h fuel x y = some b := by
  intro n
  induction n with
  | zero => intro x y b hb; simp [deepValueEqual] at hb
  | succ n ih =>
    intro x y b hb fuel hfuel
    obtain ⟨m, rfl⟩ : ∃ m, fuel = m + 1 := ⟨fuel - 1, by omega⟩
    have hrec : ∀ u v c, deepValueEqual h n u v = some c → deepValueEqual h m u v = some c :=
      fun u v c huv => ih u v c huv m (by omega)
    unfold deepValueEqual at hb ⊢
    split at hb
    · rename_i ht
      rw [if_pos ht]
      exact hb
    · rename_i ht
      rw [if_neg ht]
      split at hb
      all_goals first
        | exact hb
        | exact deepAll_mono _ _ hrec _ _ _ hb
        | exact hrec _ _ _ hb
        | (split at hb
           · rename_i hl; rw [if_pos hl]; exact hb
           · rename_i hl
             rw [if_neg hl]
             first
               | exact deepAll_mono _ _ hrec _ _ _ hb
               | exact deepEntries_mono _ _ hrec _ _ _ _ hb
               | (split at hb
                  · exact hrec _ _ _ hb
                  · exact hb))

/-! ### Two values that differ at one leaf -/

theorem DeepEqual_mono (h : Heap) (n : Nat) (a b : Option Value) (c : Bool)
    (hd : DeepEqual h n a b = some c) (fuel : Nat) (hfuel : n ≤ fuel) :
    DeepEqual h fuel a b = some c := by
  cases a <;> cases b <;> simp only [DeepEqual] at hd ⊢
  · exact hd
  · exact hd
  · exact hd
  · split at hd
    · rename_i ht; rw [if_pos ht]; exact hd
    · rename_i ht; rw [if_neg ht]; exact deepValueEqual_mono h n _ _ c hd fuel hfuel

theorem lookup_mid_self {β : Type} (name : String) (x : β) :
    ∀ (pre post : List (String × β)), name ∉ pre.map Prod.fst →
      (pre ++ (name, x) :: post).lookup name = some x := by
  intro pre
  induction pre with
  | nil => intro post _; simp [List.lookup]
  | cons f pre ih =>
    intro post hn
    obtain ⟨fn, fv⟩ := f
    simp only [List.map_cons, List.mem_cons, not_or] at hn
    have hb : (name == fn) = false := by simpa using hn.1
    simp only [List.cons_append, List.lookup, hb]
    exact ih post hn.2

theorem lookup_mid_ne {β : Type} (name nm : String) (x : β) (hne : nm ≠ name) :
    ∀ (pre post : List (String × β)),
      (pre ++ (name, x) :: post).lookup nm = (pre ++ post).lookup nm := by
  intro pre
  induction pre with
  | nil =>
    intro post
    have hb : (nm == name) = false := by simpa using hne
    simp [List.lookup, hb]
  | cons f pre ih =>
    intro post
    obtain ⟨fn, fv⟩ := f
    simp only [List.cons_append, List.lookup]
    cases hb : (nm == fn)
    · exact ih post
    · rfl

theorem all2_append_split {α β : Type} (p : α → β → Bool) :
    ∀ (pre : List α) (pre1 : List β) (post : List α) (post1 : List β),
      pre.length = pre1.length → all2 p (pre ++ post) (pre1 ++ post1) = true →
      all2 p pre pre1 = true ∧ all2 p post post1 = true := by
  intro pre
  induction pre with
  | nil =>
    intro pre1 post post1 hlen hall
    cases pre1 with
    | nil => exact ⟨rfl, by simpa using hall⟩
    | cons y ys => simp at hlen
  | cons x xs ih =>
    intro pre1 post post1 hlen hall
    cases pre1 with
    | nil => simp at hlen
    | cons y ys =>
      simp only [List.cons_append, all2, Bool.and_eq_true] at hall
      simp only [List.length_cons, add_left_inj] at hlen
      obtain ⟨h1, h2⟩ := ih ys post post1 hlen hall.2
      exact ⟨by simp [all2, hall.1, h1], h2⟩

theorem all2_names (pf : String × Value → String × Value → Bool)
    (hname : ∀ f g, pf f g = true → f.1 = g.1) :
    ∀ fs gs, all2 pf fs gs = true → fs.map Prod.fst = gs.map Prod.fst := by
  intro fs
  induction fs with
  | nil => intro gs hall; cases gs <;> simp_all [all2]
  | cons f fs ih =>
    intro gs hall
    cases gs with
    | nil => simp [all2] at hall
    | cons g gs =>
      simp only [all2, Bool.and_eq_true] at hall
      simp [hname f g hall.1, ih gs hall.2]

theorem pathFrom_cons (path : String) (s : Step) (steps : List Step) :
    pathFrom path (s :: steps) = pathFrom (Step.extend path s) steps := rfl

theorem visitedPtrs_get_nil (p : Nat) : visitedPtrs.get [] p = false := rfl

theorem structLoop_one (walk : Walk) (fieldPrefix : String) (exp act : ReflectValue)
    (ev av : visitedPtrs) (names1 names2 : List String) (name : String) (ds : List Diff)
    (h1 : ∀ nm, nm ∈ names1 ++ names2 → ∃ r x s y,
      exp.FieldByName nm = some (.val r x) ∧ act.FieldByName nm = some (.val s y) ∧
      walk (fieldPrefix ++ "." ++ nm) (.val r x) (.val s y) ev av = .ret [] none)
    (h2 : ∃ r x s y,
      exp.FieldByName name = some (.val r x) ∧ act.FieldByName name = some (.val s y) ∧
      walk (fieldPrefix ++ "." ++ name) (.val r x) (.val s y) ev av = .ret ds none) :
    compareStructLoop walk fieldPrefix exp act ev av (names1 ++ name :: names2) [] =
      .ret ds none := by
  rw [structLoop_skip walk fieldPrefix exp act ev av names1
    (fun nm hnm => h1 nm (by simp [hnm]))]
  obtain ⟨r, x, s, y, he, ha, hw⟩ := h2
  simp only [compareStructLoop, he, ha, compareElem_ret walk [] ds _ _ _ ev av hw,
    List.nil_append]
  have hs := structLoop_skip walk fieldPrefix exp act ev av names2
    (fun nm hnm => h1 nm (by simp [hnm])) [] ds
  simp only [List.append_nil] at hs
  rw [hs]
  rfl

theorem sliceLoop_one (walk : Walk) (fieldPrefix : String) (ev av : visitedPtrs)
    (r s : Bool) (p : Value → Value → Bool)
    (hp : ∀ path x y, p x y = true → walk path (.val r x) (.val s y) ev av = .ret [] none)
    (pre pre1 post post1 : List Value) (x y : Value) (d : Diff)
    (hpre : all2 p pre pre1 = true) (hpost : all2 p post post1 = true)
    (hw : walk (fieldPrefix ++ "[" ++ toString pre.length ++ "]") (.val r x) (.val s y)
      ev av = .ret [d] none) :
    compareSliceOrArrayLoop walk fieldPrefix ev av 0
        ((pre ++ x :: post).map (ReflectValue.val r))
        ((pre1 ++ y :: post1).map (ReflectValue.val s)) [] = .ret [d] none := by
  simp only [List.map_append, List.map_cons]
  rw [sliceLoop_skip walk fieldPrefix ev av r s p hp pre pre1 hpre]
  simp only [Nat.zero_add, compareSliceOrArrayLoop,
    compareElem_ret walk [] [d] _ _ _ ev av hw, List.nil_append]
  have hs := sliceLoop_skip walk fieldPrefix ev av r s p hp post post1 hpost
    (pre.length + 1) [d] [] []
  simp only [List.append_nil] at hs
  rw [hs]
  rfl

theorem mapLoop_one (walk : Walk) (fieldPrefix : String) (exp act : ReflectValue)
    (ev av : visitedPtrs) (keys1 keys2 : List Value) (key : Value) (d : Diff)
    (h1 : ∀ k, k ∈ keys1 ++ keys2 →
      walk (fieldPrefix ++ "[" ++ k.String ++ "]") (exp.MapIndex k) (act.MapIndex k)
        ev av = .ret [] none)
    (h2 : walk (fieldPrefix ++ "[" ++ key.String ++ "]") (exp.MapIndex key)
      (act.MapIndex key) ev av = .ret [d] none) :
    compareMapLoop walk fieldPrefix exp act ev av (keys1 ++ key :: keys2) [] =
      .ret [d] none := by
  rw [mapLoop_skip walk fieldPrefix exp act ev av keys1 (fun k hk => h1 k (by simp [hk]))]
  simp only [compareMapLoop, compareElem_ret walk [] [d] _ _ _ ev av h2, List.nil_append]
  have hs := mapLoop_skip walk fieldPrefix exp act ev av keys2
    (fun k hk => h1 k (by simp [hk])) [] [d]
  simp only [List.append_nil] at hs
  rw [hs]
  rfl

theorem compareRecursively_struct_one (h : Heap) (n : Nat) (t : GoType) (ro : Bool)
    (name : String) (x y : Value) (pre post pre1 post1 : List (String × Value))
    (hlen : pre.length = pre1.length)
    (hname : name ∉ (pre ++ post).map Prod.fst)
    (hcopy : comparableCopy h (n + 1) (.struct t (pre ++ post))
      (.struct t (pre1 ++ post1)) = true)
    (hexp : exportedLeaves h (n + 1) ro (.struct t (pre ++ post)) = true)
    (m : Nat) (hm : n + 1 ≤ m) (path : String) (ds : List Diff)
    (hw : compareRecursively h m (path ++ "." ++ name) (.val (ro || !isExported name) x)
      (.val (ro || !isExported name) y) [] [] = .ret ds none) :
    compareRecursively h (m + 1) path (.val ro (.struct t (pre ++ (name, x) :: post)))
      (.val ro (.struct t (pre1 ++ (name, y) :: post1))) [] [] = .ret ds none := by
  simp only [comparableCopy, Bool.and_eq_true, beq_iff_eq, true_and] at hcopy
  simp only [exportedLeaves] at hexp
  have hall := all2_and_all _ _ _ _ hcopy hexp
  have hnm : ∀ (f g : String × Value),
      ((f.1 == g.1 && comparableCopy h n f.2 g.2) &&
        exportedLeaves h n (ro || !isExported f.1) f.2) = true → f.1 = g.1 := by
    intro f g hfg
    simp only [Bool.and_eq_true, beq_iff_eq] at hfg
    exact hfg.1.1
  have hnames := all2_names _ hnm _ _ (all2_append_split _ pre pre1 post post1 hlen hall).1
  have hname1 : name ∉ pre.map Prod.fst := by
    intro hmem; exact hname (by simp only [List.map_append, List.mem_append]; exact Or.inl hmem)
  rw [compareRecursively_struct]
  simp only [List.map_append, List.map_cons]
  refine structLoop_one (compareRecursively h m) path _ _ [] [] _ _ name _ ?_ ?_
  · intro nm hmem
    have hmem2 : nm ∈ (pre ++ post).map Prod.fst := by
      simpa only [List.map_append] using hmem
    have hne : nm ≠ name := fun heq => hname (heq ▸ hmem2)
    obtain ⟨u, v, hu, hv, huv⟩ := lookup_of_all2 _ hnm _ _ hall nm hmem2
    simp only [Bool.and_eq_true, beq_iff_eq] at huv
    refine ⟨_, u, _, v, ?_, ?_, walk_of_copy h n _ u v huv.1.2 huv.2 m hm _ [] []⟩
    · simp [ReflectValue.FieldByName, lookup_mid_ne name nm x hne, hu]
    · simp [ReflectValue.FieldByName, lookup_mid_ne name nm y hne, hv]
  · refine ⟨_, x, _, y, ?_, ?_, hw⟩
    · simp [ReflectValue.FieldByName, lookup_mid_self name x pre post hname1]
    · simp [ReflectValue.FieldByName, lookup_mid_self name y pre1 post1 (hnames ▸ hname1)]

theorem walk_oneLeaf (h : Heap) (n : Nat) (ro : Bool) (x y : Value) (steps : List Step)
    (lx ly : Option Value) (hyp : OneLeafDiffers h n ro x y steps lx ly) :
    ∀ fuel, n + 1 ≤ fuel → ∀ path,
      compareRecursively h fuel path (.val ro x) (.val ro y) [] [] =
        .ret [{ Field := pathFrom path steps, Expected := lx, Actual := ly }] none := by
  induction hyp with
  | leaf n t a b hd =>
    intro fuel hfuel path
    obtain ⟨m, rfl⟩ : ∃ m, fuel = m + 2 := ⟨fuel - 2, by omega⟩
    simp [compareRecursively_scalar, DeepEqual, deepValueEqual, Value.typ, hd, pathFrom]
  | ifaceLeaf n t a b hd _ =>
    intro fuel hfuel path
    obtain ⟨m, rfl⟩ : ∃ m, fuel = m + 1 := ⟨fuel - 1, by omega⟩
    have hd2 := DeepEqual_mono h n a b false hd m (by omega)
    simp [compareRecursively_iface, hd2, pathFrom]
  | deref n t ro a b x y steps lx ly ha hb _ ih =>
    intro fuel hfuel path
    obtain ⟨m, rfl⟩ : ∃ m, fuel = m + 1 := ⟨fuel - 1, by omega⟩
    rw [compareRecursively_ptr]
    simp only [comparePointer, ReflectValue.Pointer, visitedPtrs_get_nil, Bool.or_self,
      Bool.false_eq_true, ite_false, Indirect, ha, hb]
    rw [ih m (by omega)]
    rfl
  | field n t ro name x y steps lx ly pre post pre1 post1 hlen hname hcopy hexp _ ih =>
    intro fuel hfuel path
    obtain ⟨m, rfl⟩ : ∃ m, fuel = m + 1 := ⟨fuel - 1, by omega⟩
    rw [pathFrom_cons]
    exact compareRecursively_struct_one h n t ro name x y pre post pre1 post1 hlen hname
      hcopy hexp m (by omega) path _ (ih m (by omega) _)
  | sliceElem n t ro x y steps lx ly pre post pre1 post1 hlen hcopy hexp _ ih =>
    intro fuel hfuel path
    obtain ⟨m, rfl⟩ : ∃ m, fuel = m + 1 := ⟨fuel - 1, by omega⟩
    simp only [comparableCopy, Bool.and_eq_true, beq_iff_eq, true_and] at hcopy
    simp only [exportedLeaves] at hexp
    have hall := all2_and_all _ _ _ _ hcopy hexp
    obtain ⟨hpre, hpost⟩ := all2_append_split _ pre pre1 post post1 hlen hall
    have hl := all2_length _ _ _ hpost
    have hl2 : (pre ++ x :: post).length = (pre1 ++ y :: post1).length := by
      simp [hlen, hl]
    have hl3 : ¬ (pre1 ++ y :: post1).length = 0 := by simp
    rw [compareRecursively_slice]
    simp only [compareSliceOrArray, ReflectValue.elems, List.length_map, hl2, ne_eq,
      not_true_eq_false, ite_false]
    rw [if_neg hl3, pathFrom_cons]
    exact sliceLoop_one (compareRecursively h m) path [] [] ro ro _
      (fun p a b hp => by
        simp only [Bool.and_eq_true] at hp
        exact walk_of_copy h n ro a b hp.1 hp.2 m (by omega) p [] [])
      pre pre1 post post1 x y _ hpre hpost (ih m (by omega) _)
  | arrayElem n t ro x y steps lx ly pre post pre1 post1 hlen hcopy hexp _ ih =>
    intro fuel hfuel path
    obtain ⟨m, rfl⟩ : ∃ m, fuel = m + 1 := ⟨fuel - 1, by omega⟩
    simp only [comparableCopy, Bool.and_eq_true, beq_iff_eq, true_and] at hcopy
    simp only [exportedLeaves] at hexp
    have hall := all2_and_all _ _ _ _ hcopy hexp
    obtain ⟨hpre, hpost⟩ := all2_append_split _ pre pre1 post post1 hlen hall
    have hl := all2_length _ _ _ hpost
    have hl2 : (pre ++ x :: post).length = (pre1 ++ y :: post1).length := by
      simp [hlen, hl]
    have hl3 : ¬ (pre1 ++ y :: post1).length = 0 := by simp
    rw [compareRecursively_array]
    simp only [compareSliceOrArray, ReflectValue.elems, List.length_map, hl2, ne_eq,
      not_true_eq_false, ite_false]
    rw [if_neg hl3, pathFrom_cons]
    exact sliceLoop_one (compareRecursively h m) path [] [] ro ro _
      (fun p a b hp => by
        simp only [Bool.and_eq_true] at hp
        exact walk_of_copy h n ro a b hp.1 hp.2 m (by omega) p [] [])
      pre pre1 post post1 x y _ hpre hpost (ih m (by omega) _)
  | mapEntry n t ro k x y steps lx ly es gs pre post hkeys hlen hx hy hothers _ ih =>
    intro fuel hfuel path
    obtain ⟨m, rfl⟩ : ∃ m, fuel = m + 1 := ⟨fuel - 1, by omega⟩
    have hpos : es.length ≠ 0 := by
      have hl : (es.map Prod.fst).length = (pre ++ k :: post).length := by rw [hkeys]
      simp only [List.length_map, List.length_append, List.length_cons] at hl
      omega
    rw [compareRecursively_map]
    simp only [compareMap, ReflectValue.entries, hlen, ne_eq, not_true_eq_false, ite_false]
    rw [if_neg (by omega), hkeys, pathFrom_cons]
    refine mapLoop_one (compareRecursively h m) path _ _ [] [] pre post k _ ?_ ?_
    · intro k1 hk1
      obtain ⟨v, w, hv, hw, hvw, hev⟩ := hothers k1 hk1
      simp only [ReflectValue.MapIndex, hv, hw]
      exact walk_of_copy h n ro v w hvw hev m (by omega) _ [] []
    · simp only [ReflectValue.MapIndex, hx, hy]
      exact ih m (by omega) _

/-! ### String-keyed maps with leaf elements, nil pointers -/

theorem mapIndex_strEntries (kt vt : GoType) (s : String) :
    ∀ es : List (String × Scalar),
      mapIndex (es.map (fun e => (Value.scalar kt (.str e.1), Value.scalar vt e.2)))
          (.scalar kt (.str s)) =
        (es.lookup s).map (Value.scalar vt) := by
  intro es
  induction es with
  | nil => rfl
  | cons e es ih =>
    obtain ⟨k, v⟩ := e
    simp only [List.map_cons, mapIndex, keyEq, Scalar.goEq, beq_self_eq_true, Bool.true_and,
      List.lookup]
    by_cases hk : k = s
    · subst hk; simp
    · have h1 : (k == s) = false := by simpa using hk
      have h2 : (s == k) = false := by simpa using fun heq : s = k => hk heq.symm
      simp only [h1, h2, Bool.false_eq_true, ite_false]
      exact ih

theorem lookup_of_mem_nodup {β : Type} :
    ∀ (es : List (String × β)) (k : String) (v : β),
      (es.map Prod.fst).Nodup → (k, v) ∈ es → es.lookup k = some v := by
  intro es
  induction es with
  | nil => intro k v _ hmem; simp at hmem
  | cons e es ih =>
    intro k v hnd hmem
    obtain ⟨k0, v0⟩ := e
    simp only [List.map_cons, List.nodup_cons] at hnd
    simp only [List.mem_cons, Prod.mk.injEq] at hmem
    rcases hmem with ⟨rfl, rfl⟩ | hmem
    · simp [List.lookup]
    · have hne : k ≠ k0 := by
        intro heq
        subst heq
        exact hnd.1 (List.mem_map_of_mem Prod.fst hmem)
      have hb : (k == k0) = false := by simpa using hne
      simp only [List.lookup, hb]
      exact ih k v hnd.2 hmem

theorem compareRecursively_leaf_same (h : Heap) (m : Nat) (path : String) (t : GoType)
    (a : Scalar) (ev av : visitedPtrs) (ha : a.deepEq a = true) :
    compareRecursively h (m + 2) path (.val false (.scalar t a)) (.val false (.scalar t a))
      ev av = .ret [] none := by
  simp [compareRecursively_scalar, DeepEqual, deepValueEqual, ha]

theorem compareRecursively_leaf_differs (h : Heap) (m : Nat) (path : String) (t : GoType)
    (a b : Scalar) (ev av : visitedPtrs) (hab : a.deepEq b = false) :
    compareRecursively h (m + 2) path (.val false (.scalar t a)) (.val false (.scalar t b))
        ev av =
      .ret [{ Field := path, Expected := some (.scalar t a), Actual := some (.scalar t b) }]
        none := by
  simp [compareRecursively_scalar, DeepEqual, deepValueEqual, Value.typ, hab]

theorem compareRecursively_nil_ptr_left (h : Heap) (m : Nat) (path : String) (t : GoType)
    (a : Nat) (ev av : visitedPtrs) :
    compareRecursively h (m + 1) path (.val false (.ptr t none)) (.val false (.ptr t (some a)))
        ev av =
      .ret [{ Field := path, Expected := some (.ptr t none),
              Actual := some (.ptr t (some a)) }] none := by
  simp [compareRecursively, ReflectValue.typ, Value.typ, ReflectValue.kind, Value.kind,
    isPrimitiveType, isPointerType, isSliceOrArrayType, isArrayType, isSliceType, isMapType,
    isStructType, ReflectValue.IsNil, newSingleDiffList, ReflectValue.Interface]

theorem compareRecursively_nil_ptr_right (h : Heap) (m : Nat) (path : String) (t : GoType)
    (a : Nat) (ev av : visitedPtrs) :
    compareRecursively h (m + 1) path (.val false (.ptr t (some a))) (.val false (.ptr t none))
        ev av =
      .ret [{ Field := path, Expected := some (.ptr t (some a)),
              Actual := some (.ptr t none) }] none := by
  simp [compareRecursively, ReflectValue.typ, Value.typ, ReflectValue.kind, Value.kind,
    isPrimitiveType, isPointerType, isSliceOrArrayType, isArrayType, isSliceType, isMapType,
    isStructType, ReflectValue.IsNil, newSingleDiffList, ReflectValue.Interface]

theorem compareRecursively_nil_ptr_both (h : Heap) (m : Nat) (path : String) (t : GoType)
    (r : Bool) (ev av : visitedPtrs) :
    compareRecursively h (m + 1) path (.val r (.ptr t none)) (.val r (.ptr t none)) ev av =
      .ret [] none :=
  compareRecursively_nil_nil h m path r r _ _ ev av rfl rfl rfl rfl rfl rfl

/-! ### More fuel does not change a result of the comparator

Once a call returns or panics with some amount of fuel, it does the same with any larger
amount: the results the theorems below state at one amount of fuel are the results of the
Go code. -/

theorem compareElem_mono (w1 w2 : Walk) (hle : WalkLe w1 w2) (diffs : List Diff)
    (path : String) (e a : ReflectValue) (ev av : visitedPtrs) (o : Outcome)
    (h1 : compareElem w1 diffs path e a ev av = o) (hne : o ≠ .outOfFuel) :
    compareElem w2 diffs path e a ev av = o := by
  unfold compareElem at h1 ⊢
  cases hw : w1 path e a ev av with
  | ret ds err =>
    rw [hle path e a ev av _ hw (by simp)]
    rw [hw] at h1
    exact h1
  | panic p =>
    rw [hle path e a ev av _ hw (by simp)]
    rw [hw] at h1
    exact h1
  | outOfFuel =>
    rw [hw] at h1
    exact absurd h1.symm hne

theorem sliceLoop_mono (w1 w2 : Walk) (hle : WalkLe w1 w2) (fieldPrefix : String)
    (ev av : visitedPtrs) :
    ∀ (es as : List ReflectValue) (i : Nat) (diffs : List Diff) (o : Outcome),
      compareSliceOrArrayLoop w1 fieldPrefix ev av i es as diffs = o → o ≠ .outOfFuel →
      compareSliceOrArrayLoop w2 fieldPrefix ev av i es as diffs = o := by
  intro es
  induction es with
  | nil => intro as i diffs o h1 _; simpa [compareSliceOrArrayLoop] using h1
  | cons e es ih =>
    intro as i diffs o h1 hne
    cases as with
    | nil => simpa [compareSliceOrArrayLoop] using h1
    | cons a as =>
      simp only [compareSliceOrArrayLoop] at h1 ⊢
      cases hc : compareElem w1 diffs (fieldPrefix ++ "[" ++ toString i ++ "]") e a ev av with
      | ret ds err =>
        rw [compareElem_mono w1 w2 hle _ _ _ _ _ _ _ hc (by simp)]
        rw [hc] at h1
        cases err with
        | none => exact ih as (i + 1) ds o h1 hne
        | some err => exact h1
      | panic p =>
        rw [compareElem_mono w1 w2 hle _ _ _ _ _ _ _ hc (by simp)]
        rw [hc] at h1
        exact h1
      | outOfFuel =>
        rw [hc] at h1
        exact absurd h1.symm hne

theorem mapLoop_mono (w1 w2 : Walk) (hle : WalkLe w1 w2) (fieldPrefix : String)
    (exp act : ReflectValue) (ev av : visitedPtrs) :
    ∀ (keys : List Value) (diffs : List Diff) (o : Outcome),
      compareMapLoop w1 fieldPrefix exp act ev av keys diffs = o → o ≠ .outOfFuel →
      compareMapLoop w2 fieldPrefix exp act ev av keys diffs = o := by
  intro keys
  induction keys with
  | nil => intro diffs o h1 _; simpa [compareMapLoop] using h1
  | cons key keys ih =>
    intro diffs o h1 hne
    simp only [compareMapLoop] at h1 ⊢
    cases hc : compareElem w1 diffs (fieldPrefix ++ "[" ++ key.String ++ "]")
        (exp.MapIndex key) (act.MapIndex key) ev av with
    | ret ds err =>
      rw [compareElem_mono w1 w2 hle _ _ _ _ _ _ _ hc (by simp)]
      rw [hc] at h1
      cases err with
      | none => exact ih ds o h1 hne
      | some err => exact h1
    | panic p =>
      rw [compareElem_mono w1 w2 hle _ _ _ _ _ _ _ hc (by simp)]
      rw [hc] at h1
      exact h1
    | outOfFuel =>
      rw [hc] at h1
      exact absurd h1.symm hne

theorem structLoop_mono (w1 w2 : Walk) (hle : WalkLe w1 w2) (fieldPrefix : String)
    (exp act : ReflectValue) (ev av : visitedPtrs) :
    ∀ (names : List String) (diffs : List Diff) (o : Outcome),
      compareStructLoop w1 fieldPrefix exp act ev av names diffs = o → o ≠ .outOfFuel →
      compareStructLoop w2 fieldPrefix exp act ev av names diffs = o := by
  intro names
  induction names with
  | nil => intro diffs o h1 _; simpa [compareStructLoop] using h1
  | cons name names ih =>
    intro diffs o h1 hne
    simp only [compareStructLoop] at h1 ⊢
    cases he : exp.FieldByName name with
    | none => simpa [he] using h1
    | some expField =>
      cases ha : act.FieldByName name with
      | none => simpa [he, ha] using h1
      | some actField =>
        simp only [he, ha] at h1 ⊢
        cases actField with
        | zero => exact h1
        | val r v =>
          simp only at h1 ⊢
          cases hc : compareElem w1 diffs (fieldPrefix ++ "." ++ name) expField
              (.val r v) ev av with
          | ret ds err =>
            rw [compareElem_mono w1 w2 hle _ _ _ _ _ _ _ hc (by simp)]
            rw [hc] at h1
            cases err with
            | none => exact ih ds o h1 hne
            | some err => exact h1
          | panic p =>
            rw [compareElem_mono w1 w2 hle _ _ _ _ _ _ _ hc (by simp)]
            rw [hc] at h1
            exact h1
          | outOfFuel =>
            rw [hc] at h1
            exact absurd h1.symm hne

theorem compareStruct_mono (w1 w2 : Walk) (hle : WalkLe w1 w2) (fieldPrefix : String)
    (exp act : ReflectValue) (ev av : visitedPtrs) (o : Outcome)
    (h1 : compareStruct w1 fieldPrefix exp act ev av = o) (hne : o ≠ .outOfFuel) :
    compareStruct w2 fieldPrefix exp act ev av = o := by
  unfold compareStruct at h1 ⊢
  cases hn : exp.fieldNames with
  | none => simpa [hn] using h1
  | some names =>
    simp only [hn] at h1 ⊢
    exact structLoop_mono w1 w2 hle fieldPrefix exp act ev av names [] o h1 hne

theorem compareSliceOrArray_mono (w1 w2 : Walk) (hle : WalkLe w1 w2) (fieldPrefix : String)
    (exp act : ReflectValue) (ev av : visitedPtrs) (o : Outcome)
    (h1 : compareSliceOrArray w1 fieldPrefix exp act ev av = o) (hne : o ≠ .outOfFuel) :
    compareSliceOrArray w2 fieldPrefix exp act ev av = o := by
  unfold compareSliceOrArray at h1 ⊢
  cases he : exp.elems with
  | none => simpa [he] using h1
  | some es =>
    cases ha : act.elems with
    | none => simpa [he, ha] using h1
    | some as =>
      simp only [he, ha] at h1 ⊢
      split
      · rename_i hl; rw [if_pos hl] at h1; exact h1
      · rename_i hl
        rw [if_neg hl] at h1
        split
        · rename_i hz; rw [if_pos hz] at h1; exact h1
        · rename_i hz
          rw [if_neg hz] at h1
          exact sliceLoop_mono w1 w2 hle fieldPrefix ev av es as 0 [] o h1 hne

theorem compareMap_mono (w1 w2 : Walk) (hle : WalkLe w1 w2) (fieldPrefix : String)
    (exp act : ReflectValue) (ev av : visitedPtrs) (o : Outcome)
    (h1 : compareMap w1 fieldPrefix exp act ev av = o) (hne : o ≠ .outOfFuel) :
    compareMap w2 fieldPrefix exp act ev av = o := by
  unfold compareMap at h1 ⊢
  cases he : exp.entries with
  | none => simpa [he] using h1
  | some es =>
    cases ha : act.entries with
    | none => simpa [he, ha] using h1
    | some as =>
      simp only [he, ha] at h1 ⊢
      split
      · rename_i hl; rw [if_pos hl] at h1; exact h1
      · rename_i hl
        rw [if_neg hl] at h1
        split
        · rename_i hz; rw [if_pos hz] at h1; exact h1
        · rename_i hz
          rw [if_neg hz] at h1
          exact mapLoop_mono w1 w2 hle fieldPrefix exp act ev av _ [] o h1 hne

theorem comparePointer_mono (h : Heap) (w1 w2 : Walk) (hle : WalkLe w1 w2)
    (fieldPrefix : String) (exp act : ReflectValue) (ev av : visitedPtrs) (o : Outcome)
    (h1 : comparePointer h w1 fieldPrefix exp act ev av = o) (hne : o ≠ .outOfFuel) :
    comparePointer h w2 fieldPrefix exp act ev av = o := by
  unfold comparePointer at h1 ⊢
  cases hp : exp.Pointer with
  | none => simpa [hp] using h1
  | some p =>
    simp only [hp] at h1 ⊢
    split
    · rename_i hv; rw [if_pos hv] at h1; exact h1
    · rename_i hv
      rw [if_neg hv] at h1
      cases hie : Indirect h exp with
      | error q => simpa [hie] using h1
      | ok e =>
        cases hia : Indirect h act with
        | error q => simpa [hie, hia] using h1
        | ok a =>
          simp only [hie, hia] at h1 ⊢
          exact hle _ _ _ _ _ o h1 hne

theorem compareRecursively_step_mono (h : Heap) (n : Nat)
    (hle : WalkLe (compareRecursively h n) (compareRecursively h (n + 1))) :
    WalkLe (compareRecursively h (n + 1)) (compareRecursively h (n + 2)) := by
  intro path e a ev av o h1 hne
  unfold compareRecursively at h1 ⊢
  cases he : e.typ with
  | none => simpa [he] using h1
  | some te =>
    cases ha : a.typ with
    | none => simpa [he, ha] using h1
    | some ta =>
      simp only [he, ha] at h1 ⊢
      split
      · rename_i ht; rw [if_pos ht] at h1; exact h1
      · rename_i ht
        rw [if_neg ht] at h1
        split
        · rename_i hp
          rw [if_pos hp] at h1
          cases hei : e.Interface with
          | error p => simpa [hei] using h1
          | ok ie =>
            cases hai : a.Interface with
            | error p => simpa [hei, hai] using h1
            | ok ia =>
              simp only [hei, hai] at h1 ⊢
              cases hd : DeepEqual h n ie ia with
              | none =>
                rw [hd] at h1
                exact absurd h1.symm hne
              | some b =>
                rw [DeepEqual_mono h n ie ia b hd (n + 1) (by omega)]
                rw [hd] at h1
                exact h1
        · rename_i hp
          rw [if_neg hp] at h1
          split
          · rename_i hs
            rw [if_pos hs] at h1
            exact compareStruct_mono _ _ hle path e a ev av o h1 hne
          · rename_i hs
            rw [if_neg hs] at h1
            split
            · rename_i har
              rw [if_pos har] at h1
              exact compareSliceOrArray_mono _ _ hle path e a ev av o h1 hne
            · rename_i har
              rw [if_neg har] at h1
              cases hen : e.IsNil with
              | none => simpa [hen] using h1
              | some en =>
                cases han : a.IsNil with
                | none => simpa [hen, han] using h1
                | some an =>
                  simp only [hen, han] at h1 ⊢
                  split
                  · rename_i hb; rw [if_pos hb] at h1; exact h1
                  · rename_i hb
                    rw [if_neg hb] at h1
                    split
                    · rename_i hc; rw [if_pos hc] at h1; exact h1
                    · rename_i hc
                      rw [if_neg hc] at h1
                      split
                      · rename_i hq
                        rw [if_pos hq] at h1
                        exact comparePointer_mono h _ _ hle path e a ev av o h1 hne
                      · rename_i hq
                        rw [if_neg hq] at h1
                        split
                        · rename_i hsl
                          rw [if_pos hsl] at h1
                          exact compareSliceOrArray_mono _ _ hle path e a ev av o h1 hne
                        · rename_i hsl
                          rw [if_neg hsl] at h1
                          split
                          · rename_i hmp
                            rw [if_pos hmp] at h1
                            exact compareMap_mono _ _ hle path e a ev av o h1 hne
                          · rename_i hmp
                            rw [if_neg hmp] at h1
                            exact h1

theorem compareRecursively_succ_mono (h : Heap) :
    ∀ n, WalkLe (compareRecursively h n) (compareRecursively h (n + 1)) := by
  intro n
  induction n with
  | zero =>
    intro path e a ev av o h1 hne
    simp only [compareRecursively] at h1
    exact absurd h1.symm hne
  | succ n ih => exact compareRecursively_step_mono h n ih

theorem compareRecursively_mono (h : Heap) (n m : Nat) (hnm : n ≤ m) :
    WalkLe (compareRecursively h n) (compareRecursively h m) := by
  induction m with
  | zero =>
    have hn : n = 0 := by omega
    subst hn
    intro path e a ev av o h1 _
    exact h1
  | succ m ih =>
    by_cases hle : n ≤ m
    · intro path e a ev av o h1 hne
      exact compareRecursively_succ_mono h m path e a ev av o (ih hle path e a ev av o h1 hne)
        hne
    · have hn : n = m + 1 := by omega
      subst hn
      intro path e a ev av o h1 _
      exact h1

theorem Compare_mono (h : Heap) (n m : Nat) (hnm : n ≤ m) (expected actual : Option Value)
    (o : Outcome) (h1 : Compare h n expected actual = o) (hne : o ≠ .outOfFuel) :
    Compare h m expected actual = o :=
  compareRecursively_mono h n m hnm _ _ _ _ _ o h1 hne

/-! ### The diffs of a struct, a sequence or a map are those of its parts, in order -/

theorem noError_ret (o : Outcome) (ho : o.noError = true) : o = .ret o.diffs none := by
  cases o with
  | ret ds err =>
    cases err with
    | none => rfl
    | some e => simp [Outcome.noError] at ho
  | panic p => simp [Outcome.noError] at ho
  | outOfFuel => simp [Outcome.noError] at ho

theorem sliceLoop_concat (walk : Walk) (fieldPrefix : String) (ev av : visitedPtrs) :
    ∀ (es as : List ReflectValue) (i : Nat) (diffs : List Diff),
      (∀ o, o ∈ elemOutcomes walk fieldPrefix ev av i es as → o.noError = true) →
      compareSliceOrArrayLoop walk fieldPrefix ev av i es as diffs =
        .ret (diffs ++ concatDiffs (elemOutcomes walk fieldPrefix ev av i es as)) none := by
  intro es
  induction es with
  | nil => intro as i diffs _; simp [compareSliceOrArrayLoop, elemOutcomes, concatDiffs]
  | cons e es ih =>
    intro as i diffs hall
    cases as with
    | nil => simp [compareSliceOrArrayLoop, elemOutcomes, concatDiffs]
    | cons a as =>
      simp only [elemOutcomes, List.mem_cons] at hall
      have hw := noError_ret _ (hall _ (Or.inl rfl))
      simp only [compareSliceOrArrayLoop, elemOutcomes, concatDiffs,
        compareElem_ret walk diffs _ _ e a ev av hw]
      rw [ih as (i + 1) _ (fun o ho => hall o (Or.inr ho))]
      simp [List.append_assoc]

theorem mapLoop_concat (walk : Walk) (fieldPrefix : String) (exp act : ReflectValue)
    (ev av : visitedPtrs) :
    ∀ (keys : List Value) (diffs : List Diff),
      (∀ o, o ∈ entryOutcomes walk fieldPrefix exp act ev av keys → o.noError = true) →
      compareMapLoop walk fieldPrefix exp act ev av keys diffs =
        .ret (diffs ++ concatDiffs (entryOutcomes walk fieldPrefix exp act ev av keys))
          none := by
  intro keys
  induction keys with
  | nil => intro diffs _; simp [compareMapLoop, entryOutcomes, concatDiffs]
  | cons key keys ih =>
    intro diffs hall
    simp only [entryOutcomes, List.mem_cons] at hall
    have hw := noError_ret _ (hall _ (Or.inl rfl))
    simp only [compareMapLoop, entryOutcomes, concatDiffs,
      compareElem_ret walk diffs _ _ _ _ ev av hw]
    rw [ih _ (fun o ho => hall o (Or.inr ho))]
    simp [List.append_assoc]

theorem structLoop_concat (walk : Walk) (fieldPrefix : String) (ro : Bool) (t u : GoType)
    (fs gs : List (String × Value)) (ev av : visitedPtrs) :
    ∀ (fs1 gs1 : List (String × Value)) (diffs : List Diff),
      fs1.map Prod.fst = gs1.map Prod.fst →
      (∀ f, f ∈ fs1 → fs.lookup f.1 = some f.2) →
      (∀ g, g ∈ gs1 → gs.lookup g.1 = some g.2) →
      (∀ o, o ∈ fieldOutcomes walk fieldPrefix ro ev av fs1 gs1 → o.noError = true) →
      compareStructLoop walk fieldPrefix (.val ro (.struct t fs)) (.val ro (.struct u gs))
          ev av (fs1.map Prod.fst) diffs =
        .ret (diffs ++ concatDiffs (fieldOutcomes walk fieldPrefix ro ev av fs1 gs1))
          none := by
  intro fs1
  induction fs1 with
  | nil =>
    intro gs1 diffs _ _ _ _
    cases gs1 <;> simp [compareStructLoop, fieldOutcomes, concatDiffs]
  | cons f fs1 ih =>
    intro gs1 diffs hnames hf hg hall
    cases gs1 with
    | nil => simp at hnames
    | cons g gs1 =>
      simp only [List.map_cons, List.cons.injEq] at hnames
      simp only [fieldOutcomes, List.mem_cons] at hall
      have hw := noError_ret _ (hall _ (Or.inl rfl))
      have hfl := hf f (by simp)
      have hgl := hg g (by simp)
      rw [← hnames.1] at hgl
      simp only [List.map_cons, compareStructLoop, ReflectValue.FieldByName, hfl, hgl,
        fieldOutcomes, concatDiffs, compareElem_ret walk diffs _ _ _ _ ev av hw]
      rw [ih gs1 _ hnames.2 (fun f1 h1 => hf f1 (by simp [h1]))
        (fun g1 h1 => hg g1 (by simp [h1])) (fun o ho => hall o (Or.inr ho))]
      simp [List.append_assoc]

theorem lookup_all_of_nodup {β : Type} (fs : List (String × β))
    (hnd : (fs.map Prod.fst).Nodup) : ∀ f, f ∈ fs → fs.lookup f.1 = some f.2 :=
  fun f hf => lookup_of_mem_nodup fs f.1 f.2 hnd hf

theorem compareRecursively_struct_concat (h : Heap) (m : Nat) (path : String) (ro : Bool)
    (t : GoType) (fs gs : List (String × Value)) (ev av : visitedPtrs)
    (hnames : fs.map Prod.fst = gs.map Prod.fst) (hnodup : (fs.map Prod.fst).Nodup)
    (hall : ∀ o, o ∈ fieldOutcomes (compareRecursively h m) path ro ev av fs gs →
      o.noError = true) :
    compareRecursively h (m + 1) path (.val ro (.struct t fs)) (.val ro (.struct t gs))
        ev av =
      .ret (concatDiffs (fieldOutcomes (compareRecursively h m) path ro ev av fs gs))
        none := by
  rw [compareRecursively_struct]
  have hs := structLoop_concat (compareRecursively h m) path ro t t fs gs ev av fs gs []
    hnames (lookup_all_of_nodup fs hnodup) (lookup_all_of_nodup gs (hnames ▸ hnodup)) hall
  simpa using hs

theorem compareSliceOrArray_concat (walk : Walk) (path : String) (ev av : visitedPtrs)
    (exp act : ReflectValue) (es as : List ReflectValue)
    (he : exp.elems = some es) (ha : act.elems = some as) (hlen : es.length = as.length)
    (hall : ∀ o, o ∈ elemOutcomes walk path ev av 0 es as → o.noError = true) :
    compareSliceOrArray walk path exp act ev av =
      .ret (concatDiffs (elemOutcomes walk path ev av 0 es as)) none := by
  simp only [compareSliceOrArray, he, ha, hlen, ne_eq, not_true_eq_false, ite_false]
  split
  · rename_i hz
    have hes : es = [] := by
      cases es with
      | nil => rfl
      | cons e es => simp [← hlen] at hz
    subst hes
    simp [elemOutcomes, concatDiffs]
  · have hs := sliceLoop_concat walk path ev av es as 0 [] hall
    simpa using hs

theorem compareMap_concat (walk : Walk) (path : String) (ev av : visitedPtrs)
    (r s : Bool) (t : GoType) (es gs : List (Value × Value)) (hlen : es.length = gs.length)
    (hall : ∀ o, o ∈ entryOutcomes walk path (.val r (.map t (some es)))
      (.val s (.map t (some gs))) ev av (es.map Prod.fst) → o.noError = true) :
    compareMap walk path (.val r (.map t (some es))) (.val s (.map t (some gs))) ev av =
      .ret (concatDiffs (entryOutcomes walk path (.val r (.map t (some es)))
        (.val s (.map t (some gs))) ev av (es.map Prod.fst))) none := by
  simp only [compareMap, ReflectValue.entries, hlen, ne_eq, not_true_eq_false, ite_false]
  split
  · rename_i hz
    have hes : es = [] := by
      cases es with
      | nil => rfl
      | cons e es => simp [← hlen] at hz
    subst hes
    simp [entryOutcomes, concatDiffs]
  · have hs := mapLoop_concat walk path (.val r (.map t (some es)))
      (.val s (.map t (some gs))) ev av (es.map Prod.fst) [] hall
    simpa using hs

/-! ### Every diff lies at the position its `Field` names -/

theorem Interface_ok (ro : Bool) (v : Value) (e : Option Value)
    (he : (ReflectValue.val ro v).Interface = .ok e) : e = asInterface v := by
  cases ro with
  | true => simp [ReflectValue.Interface] at he
  | false =>
    cases v <;> simp [ReflectValue.Interface, asInterface] at he ⊢ <;> exact he.symm

theorem located_here (h : Heap) (path : String) (ro1 ro2 : Bool) (x y : Value)
    (e a : Option Value) (he : (ReflectValue.val ro1 x).Interface = .ok e)
    (ha : (ReflectValue.val ro2 y).Interface = .ok a) :
    LocatedR h path (.val ro1 x) (.val ro2 y) { Field := path, Expected := e, Actual := a } :=
  ⟨ro1, x, ro2, y, rfl, rfl, [], x, y, rfl, by simp [valueAt], by simp [valueAt],
    Interface_ok ro1 x e he, Interface_ok ro2 y a ha⟩

theorem newSingleDiffList_located (h : Heap) (path : String) (ro1 ro2 : Bool) (x y : Value)
    (diffs : List Diff)
    (hnew : newSingleDiffList path (.val ro1 x) (.val ro2 y) = .ok diffs) (d : Diff)
    (hd : d ∈ diffs) : LocatedR h path (.val ro1 x) (.val ro2 y) d := by
  unfold newSingleDiffList at hnew
  split at hnew
  · cases hnew
  · rename_i e1 he1
    split at hnew
    · cases hnew
    · rename_i a1 ha1
      simp only [Except.ok.injEq] at hnew
      rw [← hnew, List.mem_singleton] at hd
      rw [hd]
      exact located_here h path ro1 ro2 x y e1 a1 he1 ha1

theorem locatedR_step (h : Heap) (s : Step) (path : String) (e a e1 a1 : ReflectValue)
    (d : Diff) (he : Child h s e e1) (ha : Child h s a a1)
    (hd : LocatedR h (s.extend path) e1 a1 d) : LocatedR h path e a d := by
  obtain ⟨ro1, x1, ro2, y1, rfl, rfl, steps, vx, vy, hf, hx, hy, hE, hA⟩ := hd
  rcases he with he | ⟨ro, v, r1, v1, rfl, hc, hv⟩
  · cases he
  rcases ha with ha | ⟨rob, w, r2, w1, rfl, hc2, hw⟩
  · cases ha
  cases hc
  cases hc2
  refine ⟨ro, v, rob, w, rfl, rfl, s :: steps, vx, vy, ?_, ?_, ?_, hE, hA⟩
  · rw [pathFrom_cons]; exact hf
  · rw [hv]; exact hx
  · rw [hw]; exact hy

theorem kindsAgreeR_step (h : Heap) (s : Step) (e a e1 a1 : ReflectValue)
    (he : Child h s e e1) (ha : Child h s a a1) (hk : KindsAgreeR h e a) :
    KindsAgreeR h e1 a1 := by
  intro r1 x1 r2 y1 hx1 hy1 steps vx vy hvx hvy
  rcases he with he | ⟨ro, v, r3, v1, rfl, hc, hv⟩
  · rw [he] at hx1; cases hx1
  rcases ha with ha | ⟨rob, w, r4, w1, rfl, hc2, hw⟩
  · rw [ha] at hy1; cases hy1
  rw [hc] at hx1
  rw [hc2] at hy1
  cases hx1
  cases hy1
  exact hk ro v rob w rfl rfl (s :: steps) vx vy (by rw [hv]; exact hvx) (by rw [hw]; exact hvy)

theorem elems_child (h : Heap) (e : ReflectValue) (es : List ReflectValue)
    (he : e.elems = some es) (j : Nat) (c : ReflectValue) (hj : es.get? j = some c) :
    Child h (.index j) e c := by
  cases e with
  | zero => simp [ReflectValue.elems] at he
  | val ro v =>
    cases v with
    | slice t xs =>
      cases xs with
      | none =>
        simp only [ReflectValue.elems, Option.some.injEq] at he
        subst he
        simp at hj
      | some xs =>
        simp only [ReflectValue.elems, Option.some.injEq] at he
        subst he
        simp only [List.get?_eq_getElem?, List.getElem?_map, Option.map_eq_some'] at hj
        obtain ⟨v1, hx, hj⟩ := hj
        exact Or.inr ⟨ro, _, ro, v1, rfl, hj.symm, fun steps => by simp [valueAt, hx]⟩
    | array t xs =>
      simp only [ReflectValue.elems, Option.some.injEq] at he
      subst he
      simp only [List.get?_eq_getElem?, List.getElem?_map, Option.map_eq_some'] at hj
      obtain ⟨v1, hx, hj⟩ := hj
      exact Or.inr ⟨ro, _, ro, v1, rfl, hj.symm, fun steps => by simp [valueAt, hx]⟩
    | scalar t s => simp [ReflectValue.elems] at he
    | iface t d => simp [ReflectValue.elems] at he
    | ptr t a => simp [ReflectValue.elems] at he
    | map t es => simp [ReflectValue.elems] at he
    | struct t fs => simp [ReflectValue.elems] at he

theorem field_child (h : Heap) (e : ReflectValue) (name : String) (c : ReflectValue)
    (hc : e.FieldByName name = some c) : Child h (.field name) e c := by
  cases e with
  | zero => simp [ReflectValue.FieldByName] at hc
  | val ro v =>
    cases v with
    | struct t fs =>
      simp only [ReflectValue.FieldByName] at hc
      cases hl : fs.lookup name with
      | none =>
        simp only [hl, Option.some.injEq] at hc
        exact Or.inl hc.symm
      | some v1 =>
        simp only [hl, Option.some.injEq] at hc
        exact Or.inr ⟨ro, _, _, v1, rfl, hc.symm, fun steps => by simp [valueAt, hl]⟩
    | scalar t s => simp [ReflectValue.FieldByName] at hc
    | iface t d => simp [ReflectValue.FieldByName] at hc
    | ptr t a => simp [ReflectValue.FieldByName] at hc
    | map t es => simp [ReflectValue.FieldByName] at hc
    | slice t xs => simp [ReflectValue.FieldByName] at hc
    | array t xs => simp [ReflectValue.FieldByName] at hc

theorem mapIndex_child (h : Heap) (e : ReflectValue) (k : Value) :
    Child h (.key k) e (e.MapIndex k) := by
  cases e with
  | zero => exact Or.inl rfl
  | val ro v =>
    cases v with
    | map t es =>
      cases es with
      | none => exact Or.inl rfl
      | some es =>
        cases hl : mapIndex es k with
        | none => exact Or.inl (by simp [ReflectValue.MapIndex, hl])
        | some v1 =>
          exact Or.inr ⟨ro, _, ro, v1, rfl, by simp [ReflectValue.MapIndex, hl],
            fun steps => by simp [valueAt, hl]⟩
    | scalar t s => exact Or.inl rfl
    | iface t d => exact Or.inl rfl
    | ptr t a => exact Or.inl rfl
    | slice t xs => exact Or.inl rfl
    | array t xs => exact Or.inl rfl
    | struct t fs => exact Or.inl rfl

theorem indirect_child (h : Heap) (e : ReflectValue) (p : Nat) (c : ReflectValue)
    (hp : e.Pointer = some p) (hc : Indirect h e = .ok c) : Child h .deref e c := by
  cases e with
  | zero => simp [ReflectValue.Pointer] at hp
  | val ro v =>
    cases v with
    | ptr t a =>
      cases a with
      | none =>
        simp only [Indirect, Except.ok.injEq] at hc
        exact Or.inl hc.symm
      | some a =>
        simp only [Indirect] at hc
        cases hl : h.lookup a with
        | none => simp [hl] at hc
        | some v1 =>
          simp only [hl, Except.ok.injEq] at hc
          exact Or.inr ⟨ro, _, ro, v1, rfl, hc.symm, fun steps => by simp [valueAt, hl]⟩
    | scalar t s => simp [ReflectValue.Pointer] at hp
    | iface t d => simp [ReflectValue.Pointer] at hp
    | map t es => simp [ReflectValue.Pointer] at hp
    | slice t xs => simp [ReflectValue.Pointer] at hp
    | array t xs => simp [ReflectValue.Pointer] at hp
    | struct t fs => simp [ReflectValue.Pointer] at hp

theorem compareElem_mem (walk : Walk) (diffs : List Diff) (path : String)
    (e a : ReflectValue) (ev av : visitedPtrs) (ds : List Diff) (err : Option CompareError)
    (hret : compareElem walk diffs path e a ev av = .ret ds err) (d : Diff) (hd : d ∈ ds) :
    d ∈ diffs ∨ ∃ ds1 err1, walk path e a ev av = .ret ds1 err1 ∧ d ∈ ds1 := by
  unfold compareElem at hret
  split at hret
  · simp only [Outcome.ret.injEq] at hret
    rw [← hret.1] at hd
    exact Or.inl hd
  · rename_i elemDiffs hw
    split at hret
    · simp only [Outcome.ret.injEq] at hret
      rw [← hret.1, List.mem_append] at hd
      rcases hd with hd | hd
      · exact Or.inl hd
      · exact Or.inr ⟨elemDiffs, none, hw, hd⟩
    · simp only [Outcome.ret.injEq] at hret
      rw [← hret.1] at hd
      exact Or.inl hd
  · cases hret
  · cases hret

theorem sliceLoop_mem (walk : Walk) (path : String) (ev av : visitedPtrs)
    (P : Diff → Prop) :
    ∀ (es as : List ReflectValue) (i : Nat) (diffs ds : List Diff)
      (err : Option CompareError),
      (∀ d, d ∈ diffs → P d) →
      (∀ j e a, es.get? j = some e → as.get? j = some a → ∀ ds1 err1,
        walk (path ++ "[" ++ toString (i + j) ++ "]") e a ev av = .ret ds1 err1 →
        ∀ d, d ∈ ds1 → P d) →
      compareSliceOrArrayLoop walk path ev av i es as diffs = .ret ds err →
      ∀ d, d ∈ ds → P d := by
  intro es
  induction es with
  | nil =>
    intro as i diffs ds err hdiffs _ hret d hd
    simp only [compareSliceOrArrayLoop, Outcome.ret.injEq] at hret
    exact hdiffs d (hret.1 ▸ hd)
  | cons e es ih =>
    intro as i diffs ds err hdiffs hwalk hret d hd
    cases as with
    | nil =>
      simp only [compareSliceOrArrayLoop, Outcome.ret.injEq] at hret
      exact hdiffs d (hret.1 ▸ hd)
    | cons a as =>
      have hstep : ∀ ds1 err1,
          compareElem walk diffs (path ++ "[" ++ toString i ++ "]") e a ev av =
            .ret ds1 err1 → ∀ d, d ∈ ds1 → P d := by
        intro ds1 err1 h1 d1 hd1
        rcases compareElem_mem walk diffs _ e a ev av ds1 err1 h1 d1 hd1 with h2 | h2
        · exact hdiffs d1 h2
        · obtain ⟨ds2, err2, hw, hd2⟩ := h2
          exact hwalk 0 e a rfl rfl ds2 err2 hw d1 hd2
      simp only [compareSliceOrArrayLoop] at hret
      split at hret
      · rename_i diffs1 hce
        refine ih as (i + 1) diffs1 ds err (hstep diffs1 none hce) ?_ hret d hd
        intro j e1 a1 he1 ha1 ds1 err1 hw
        have := hwalk (j + 1) e1 a1 (by simpa using he1) (by simpa using ha1) ds1 err1
        rw [show i + (j + 1) = i + 1 + j by omega] at this
        exact this hw
      · rename_i o hne
        exact hstep ds err hret d hd

theorem mapLoop_mem (walk : Walk) (path : String) (exp act : ReflectValue)
    (ev av : visitedPtrs) (P : Diff → Prop)
    (hwalk : ∀ key ds1 err1,
      walk (path ++ "[" ++ key.String ++ "]") (exp.MapIndex key) (act.MapIndex key) ev av =
        .ret ds1 err1 → ∀ d, d ∈ ds1 → P d) :
    ∀ (keys : List Value) (diffs ds : List Diff) (err : Option CompareError),
      (∀ d, d ∈ diffs → P d) →
      compareMapLoop walk path exp act ev av keys diffs = .ret ds err →
      ∀ d, d ∈ ds → P d := by
  intro keys
  induction keys with
  | nil =>
    intro diffs ds err hdiffs hret d hd
    simp only [compareMapLoop, Outcome.ret.injEq] at hret
    exact hdiffs d (hret.1 ▸ hd)
  | cons key keys ih =>
    intro diffs ds err hdiffs hret d hd
    have hstep : ∀ ds1 err1,
        compareElem walk diffs (path ++ "[" ++ key.String ++ "]") (exp.MapIndex key)
          (act.MapIndex key) ev av = .ret ds1 err1 → ∀ d, d ∈ ds1 → P d := by
      intro ds1 err1 h1 d1 hd1
      rcases compareElem_mem walk diffs _ _ _ ev av ds1 err1 h1 d1 hd1 with h2 | h2
      · exact hdiffs d1 h2
      · obtain ⟨ds2, err2, hw, hd2⟩ := h2
        exact hwalk key ds2 err2 hw d1 hd2
    simp only [compareMapLoop] at hret
    split at hret
    · rename_i diffs1 hce
      exact ih diffs1 ds err (hstep diffs1 none hce) hret d hd
    · exact hstep ds err hret d hd

theorem structLoop_mem (walk : Walk) (path : String) (exp act : ReflectValue)
    (ev av : visitedPtrs) (P : Diff → Prop)
    (hwalk : ∀ name e a, exp.FieldByName name = some e → act.FieldByName name = some a →
      ∀ ds1 err1, walk (path ++ "." ++ name) e a ev av = .ret ds1 err1 →
        ∀ d, d ∈ ds1 → P d) :
    ∀ (names : List String) (diffs ds : List Diff) (err : Option CompareError),
      (∀ d, d ∈ diffs → P d) →
      compareStructLoop walk path exp act ev av names diffs = .ret ds err →
      ∀ d, d ∈ ds → P d := by
  intro names
  induction names with
  | nil =>
    intro diffs ds err hdiffs hret d hd
    simp only [compareStructLoop, Outcome.ret.injEq] at hret
    exact hdiffs d (hret.1 ▸ hd)
  | cons name names ih =>
    intro diffs ds err hdiffs hret d hd
    simp only [compareStructLoop] at hret
    split at hret
    · rename_i expField actField hef haf
      have hstep : ∀ ds1 err1,
          compareElem walk diffs (path ++ "." ++ name) expField actField ev av =
            .ret ds1 err1 → ∀ d, d ∈ ds1 → P d := by
        intro ds1 err1 h1 d1 hd1
        rcases compareElem_mem walk diffs _ _ _ ev av ds1 err1 h1 d1 hd1 with h2 | h2
        · exact hdiffs d1 h2
        · obtain ⟨ds2, err2, hw, hd2⟩ := h2
          exact hwalk name expField actField hef haf ds2 err2 hw d1 hd2
      split at hret
      · simp only [Outcome.ret.injEq] at hret
        rw [← hret.1] at hd
        simp at hd
      · split at hret
        · rename_i diffs1 hce
          exact ih diffs1 ds err (hstep diffs1 none hce) hret d hd
        · exact hstep ds err hret d hd
    · cases hret

theorem compareSliceOrArray_sound (h : Heap) (walk : Walk) (hw : WalkSound h walk)
    (path : String) (e a : ReflectValue) (ev av : visitedPtrs) (ds : List Diff)
    (err : Option CompareError)
    (hret : compareSliceOrArray walk path e a ev av = .ret ds err) (hk : KindsAgreeR h e a)
    (d : Diff) (hd : d ∈ ds) : LocatedR h path e a d := by
  unfold compareSliceOrArray at hret
  split at hret
  · rename_i es as hes has
    split at hret
    · simp only [Outcome.ret.injEq] at hret
      rw [← hret.1] at hd
      simp at hd
    · split at hret
      · simp only [Outcome.ret.injEq] at hret
        rw [← hret.1] at hd
        simp at hd
      · refine sliceLoop_mem walk path ev av (LocatedR h path e a) es as 0 [] ds err
          (by simp) ?_ hret d hd
        intro j e1 a1 he1 ha1 ds1 err1 hw1 d1 hd1
        rw [Nat.zero_add] at hw1
        have hce := elems_child h e es hes j e1 he1
        have hca := elems_child h a as has j a1 ha1
        exact locatedR_step h (.index j) path e a e1 a1 d1 hce hca
          (hw _ e1 a1 ev av ds1 err1 hw1 (kindsAgreeR_step h _ e a e1 a1 hce hca hk) d1 hd1)
  · cases hret

theorem compareMap_sound (h : Heap) (walk : Walk) (hw : WalkSound h walk)
    (path : String) (e a : ReflectValue) (ev av : visitedPtrs) (ds : List Diff)
    (err : Option CompareError)
    (hret : compareMap walk path e a ev av = .ret ds err) (hk : KindsAgreeR h e a)
    (d : Diff) (hd : d ∈ ds) : LocatedR h path e a d := by
  unfold compareMap at hret
  split at hret
  · split at hret
    · simp only [Outcome.ret.injEq] at hret
      rw [← hret.1] at hd
      simp at hd
    · split at hret
      · simp only [Outcome.ret.injEq] at hret
        rw [← hret.1] at hd
        simp at hd
      · refine mapLoop_mem walk path e a ev av (LocatedR h path e a) ?_ _ [] ds err
          (by simp) hret d hd
        intro key ds1 err1 hw1 d1 hd1
        have hce := mapIndex_child h e key
        have hca := mapIndex_child h a key
        exact locatedR_step h (.key key) path e a _ _ d1 hce hca
          (hw _ _ _ ev av ds1 err1 hw1 (kindsAgreeR_step h _ e a _ _ hce hca hk) d1 hd1)
  · cases hret

theorem compareStruct_sound (h : Heap) (walk : Walk) (hw : WalkSound h walk)
    (path : String) (e a : ReflectValue) (ev av : visitedPtrs) (ds : List Diff)
    (err : Option CompareError)
    (hret : compareStruct walk path e a ev av = .ret ds err) (hk : KindsAgreeR h e a)
    (d : Diff) (hd : d ∈ ds) : LocatedR h path e a d := by
  unfold compareStruct at hret
  split at hret
  · refine structLoop_mem walk path e a ev av (LocatedR h path e a) ?_ _ [] ds err
      (by simp) hret d hd
    intro name e1 a1 he1 ha1 ds1 err1 hw1 d1 hd1
    have hce := field_child h e name e1 he1
    have hca := field_child h a name a1 ha1
    exact locatedR_step h (.field name) path e a e1 a1 d1 hce hca
      (hw _ e1 a1 ev av ds1 err1 hw1 (kindsAgreeR_step h _ e a e1 a1 hce hca hk) d1 hd1)
  · cases hret

theorem comparePointer_sound (h : Heap) (walk : Walk) (hw : WalkSound h walk)
    (path : String) (e a : ReflectValue) (ev av : visitedPtrs) (ds : List Diff)
    (err : Option CompareError) (ha : ∃ q, a.Pointer = some q)
    (hret : comparePointer h walk path e a ev av = .ret ds err) (hk : KindsAgreeR h e a)
    (d : Diff) (hd : d ∈ ds) : LocatedR h path e a d := by
  obtain ⟨q, hq⟩ := ha
  unfold comparePointer at hret
  split at hret
  · cases hret
  · rename_i p hp
    split at hret
    · simp only [Outcome.ret.injEq] at hret
      rw [← hret.1] at hd
      simp at hd
    · split at hret
      · rename_i e1 a1 he1 ha1
        have hce := indirect_child h e p e1 hp he1
        have hca := indirect_child h a q a1 hq ha1
        exact locatedR_step h .deref path e a e1 a1 d hce hca
          (hw _ e1 a1 ev av ds err hret (kindsAgreeR_step h _ e a e1 a1 hce hca hk) d hd)
      · cases hret
      · cases hret

theorem ptr_of_kind (ro : Bool) (y : Value) (hy : y.kind = Kind.Ptr) :
    ∃ q, (ReflectValue.val ro y).Pointer = some q := by
  cases y with
  | ptr t a =>
    cases a with
    | none => exact ⟨0, rfl⟩
    | some a => exact ⟨a, rfl⟩
  | scalar t s => cases s <;> simp [Value.kind, Scalar.kind] at hy
  | iface t d => simp [Value.kind] at hy
  | map t es => simp [Value.kind] at hy
  | slice t xs => simp [Value.kind] at hy
  | array t xs => simp [Value.kind] at hy
  | struct t fs => simp [Value.kind] at hy

theorem compareRecursively_sound (h : Heap) :
    ∀ fuel, WalkSound h (compareRecursively h fuel) := by
  intro fuel
  induction fuel with
  | zero =>
    intro path e a ev av ds err hret
    simp [compareRecursively] at hret
  | succ m ih =>
    intro path e a ev av ds err hret hk d hd
    cases e with
    | zero => simp [compareRecursively, ReflectValue.typ] at hret
    | val ro1 x =>
      cases a with
      | zero => simp [compareRecursively, ReflectValue.typ] at hret
      | val ro2 y =>
        simp only [compareRecursively, ReflectValue.typ] at hret
        split at hret
        · simp only [Outcome.ret.injEq] at hret
          rw [← hret.1] at hd
          simp at hd
        · rename_i htyp
          split at hret
          · split at hret
            · rename_i e1 a1 he1 ha1
              split at hret
              · simp only [Outcome.ret.injEq] at hret
                rw [← hret.1] at hd
                simp at hd
              · simp only [Outcome.ret.injEq] at hret
                rw [← hret.1, List.mem_singleton] at hd
                rw [hd]
                exact located_here h path ro1 ro2 x y e1 a1 he1 ha1
              · cases hret
            · cases hret
            · cases hret
          · split at hret
            · exact compareStruct_sound h _ ih path _ _ ev av ds err hret hk d hd
            · split at hret
              · exact compareSliceOrArray_sound h _ ih path _ _ ev av ds err hret hk d hd
              · split at hret
                · split at hret
                  · simp only [Outcome.ret.injEq] at hret
                    rw [← hret.1] at hd
                    simp at hd
                  · split at hret
                    · split at hret
                      · rename_i diffs hnew
                        simp only [Outcome.ret.injEq] at hret
                        rw [← hret.1] at hd
                        exact newSingleDiffList_located h path ro1 ro2 x y diffs hnew d hd
                      · cases hret
                    · split at hret
                      · rename_i hptr
                        have hkx : x.kind = Kind.Ptr := by
                          simpa [isPointerType, ReflectValue.kind] using hptr
                        have hky : y.kind = Kind.Ptr := by
                          rw [← hk ro1 x ro2 y rfl rfl [] x y (by simp [valueAt])
                            (by simp [valueAt]) (by simpa using htyp)]
                          exact hkx
                        exact comparePointer_sound h _ ih path _ _ ev av ds err
                          (ptr_of_kind ro2 y hky) hret hk d hd
                      · split at hret
                        · exact compareSliceOrArray_sound h _ ih path _ _ ev av ds err hret
                            hk d hd
                        · split at hret
                          · exact compareMap_sound h _ ih path _ _ ev av ds err hret hk d hd
                          · simp only [Outcome.ret.injEq] at hret
                            rw [← hret.1] at hd
                            simp at hd
                · cases hret

/-! ### A call returns with a nil error only when each of its parts does -/

theorem compareElem_noError (walk : Walk) (diffs : List Diff) (path : String)
    (e a : ReflectValue) (ev av : visitedPtrs) (ds : List Diff)
    (hret : compareElem walk diffs path e a ev av = .ret ds none) :
    (walk path e a ev av).noError = true := by
  unfold compareElem at hret
  split at hret
  · simp at hret
  · rename_i elemDiffs hw
    rw [hw]
    rfl
  · cases hret
  · cases hret

theorem sliceLoop_noError (walk : Walk) (path : String) (ev av : visitedPtrs) :
    ∀ (es as : List ReflectValue) (i : Nat) (diffs ds : List Diff),
      compareSliceOrArrayLoop walk path ev av i es as diffs = .ret ds none →
      ∀ o, o ∈ elemOutcomes walk path ev av i es as → o.noError = true := by
  intro es
  induction es with
  | nil =>
    intro as i diffs ds _ o ho
    simp [elemOutcomes] at ho
  | cons e es ih =>
    intro as i diffs ds hret o ho
    cases as with
    | nil => simp [elemOutcomes] at ho
    | cons a as =>
      simp only [compareSliceOrArrayLoop] at hret
      simp only [elemOutcomes, List.mem_cons] at ho
      split at hret
      · rename_i diffs1 hce
        rcases ho with ho | ho
        · rw [ho]
          exact compareElem_noError walk diffs _ e a ev av diffs1 hce
        · exact ih as (i + 1) diffs1 ds hret o ho
      · rename_i hne
        exact absurd hret (hne ds)

theorem mapLoop_noError (walk : Walk) (path : String) (exp act : ReflectValue)
    (ev av : visitedPtrs) :
    ∀ (keys : List Value) (diffs ds : List Diff),
      compareMapLoop walk path exp act ev av keys diffs = .ret ds none →
      ∀ o, o ∈ entryOutcomes walk path exp act ev av keys → o.noError = true := by
  intro keys
  induction keys with
  | nil =>
    intro diffs ds _ o ho
    simp [entryOutcomes] at ho
  | cons key keys ih =>
    intro diffs ds hret o ho
    simp only [compareMapLoop] at hret
    simp only [entryOutcomes, List.mem_cons] at ho
    split at hret
    · rename_i diffs1 hce
      rcases ho with ho | ho
      · rw [ho]
        exact compareElem_noError walk diffs _ _ _ ev av diffs1 hce
      · exact ih diffs1 ds hret o ho
    · rename_i hne
      exact absurd hret (hne ds)

theorem structLoop_noError (walk : Walk) (path : String) (ro : Bool) (t u : GoType)
    (fs gs : List (String × Value)) (ev av : visitedPtrs) :
    ∀ (fs1 gs1 : List (String × Value)) (diffs ds : List Diff),
      fs1.map Prod.fst = gs1.map Prod.fst →
      (∀ f, f ∈ fs1 → fs.lookup f.1 = some f.2) →
      (∀ g, g ∈ gs1 → gs.lookup g.1 = some g.2) →
      compareStructLoop walk path (.val ro (.struct t fs)) (.val ro (.struct u gs))
          ev av (fs1.map Prod.fst) diffs = .ret ds none →
      ∀ o, o ∈ fieldOutcomes walk path ro ev av fs1 gs1 → o.noError = true := by
  intro fs1
  induction fs1 with
  | nil =>
    intro gs1 diffs ds _ _ _ _ o ho
    cases gs1 <;> simp [fieldOutcomes] at ho
  | cons f fs1 ih =>
    intro gs1 diffs ds hnames hf hg hret o ho
    cases gs1 with
    | nil => simp at hnames
    | cons g gs1 =>
      simp only [List.map_cons, List.cons.injEq] at hnames
      have hfl := hf f (by simp)
      have hgl := hg g (by simp)
      rw [← hnames.1] at hgl
      simp only [List.map_cons, compareStructLoop, ReflectValue.FieldByName, hfl, hgl]
        at hret
      simp only [fieldOutcomes, List.mem_cons] at ho
      split at hret
      · rename_i diffs1 hce
        rcases ho with ho | ho
        · rw [ho]
          exact compareElem_noError walk diffs _ _ _ ev av diffs1 hce
        · exact ih gs1 diffs1 ds hnames.2 (fun f1 h1 => hf f1 (by simp [h1]))
            (fun g1 h1 => hg g1 (by simp [h1])) hret o ho
      · rename_i hne
        exact absurd hret (hne ds)

theorem concat_spec (r : Outcome) (outs : List Outcome)
    (hfwd : (∀ o, o ∈ outs → o.noError = true) → r = .ret (concatDiffs outs) none)
    (hbwd : ∀ ds, r = .ret ds none → ∀ o, o ∈ outs → o.noError = true) :
    ConcatOf r outs := by
  have h1 : r.noError = true → ∀ o, o ∈ outs → o.noError = true :=
    fun hr => hbwd r.diffs (noError_ret r hr)
  refine ⟨⟨h1, fun hall => ?_⟩, fun hr => hfwd (h1 hr)⟩
  rw [hfwd hall]
  rfl

theorem struct_concat_spec (h : Heap) (m : Nat) (path : String) (ro : Bool) (t : GoType)
    (fs gs : List (String × Value)) (ev av : visitedPtrs)
    (hnames : fs.map Prod.fst = gs.map Prod.fst) (hnodup : (fs.map Prod.fst).Nodup) :
    ConcatOf
      (compareRecursively h (m + 1) path (.val ro (.struct t fs)) (.val ro (.struct t gs))
        ev av)
      (fieldOutcomes (compareRecursively h m) path ro ev av fs gs) := by
  apply concat_spec
  · exact compareRecursively_struct_concat h m path ro t fs gs ev av hnames hnodup
  · intro ds hret
    rw [compareRecursively_struct] at hret
    exact structLoop_noError (compareRecursively h m) path ro t t fs gs ev av fs gs [] ds
      hnames (lookup_all_of_nodup fs hnodup) (lookup_all_of_nodup gs (hnames ▸ hnodup)) hret

theorem compareSliceOrArray_noError (walk : Walk) (path : String) (ev av : visitedPtrs)
    (exp act : ReflectValue) (es as : List ReflectValue)
    (he : exp.elems = some es) (ha : act.elems = some as) (hlen : es.length = as.length)
    (ds : List Diff) (hret : compareSliceOrArray walk path exp act ev av = .ret ds none) :
    ∀ o, o ∈ elemOutcomes walk path ev av 0 es as → o.noError = true := by
  simp only [compareSliceOrArray, he, ha, hlen, ne_eq, not_true_eq_false, ite_false] at hret
  split at hret
  · rename_i hz
    have hes : es = [] := by
      cases es with
      | nil => rfl
      | cons e es => simp [← hlen] at hz
    subst hes
    intro o ho
    simp [elemOutcomes] at ho
  · exact sliceLoop_noError walk path ev av es as 0 [] ds hret

theorem slice_concat_spec (h : Heap) (m : Nat) (path : String) (ro : Bool) (t : GoType)
    (xs ys : List Value) (ev av : visitedPtrs) (hlen : xs.length = ys.length) :
    ConcatOf
      (compareRecursively h (m + 1) path (.val ro (.slice t (some xs)))
        (.val ro (.slice t (some ys))) ev av)
      (elemOutcomes (compareRecursively h m) path ev av 0
        (xs.map (ReflectValue.val ro)) (ys.map (ReflectValue.val ro))) := by
  apply concat_spec
  · intro hall
    rw [compareRecursively_slice]
    exact compareSliceOrArray_concat _ path ev av _ _ _ _ rfl rfl (by simpa using hlen) hall
  · intro ds hret
    rw [compareRecursively_slice] at hret
    exact compareSliceOrArray_noError _ path ev av (.val ro (.slice t (some xs)))
      (.val ro (.slice t (some ys))) _ _ rfl rfl (by simpa using hlen) ds hret

theorem array_concat_spec (h : Heap) (m : Nat) (path : String) (ro : Bool) (t : GoType)
    (xs ys : List Value) (ev av : visitedPtrs) (hlen : xs.length = ys.length) :
    ConcatOf
      (compareRecursively h (m + 1) path (.val ro (.array t xs))
        (.val ro (.array t ys)) ev av)
      (elemOutcomes (compareRecursively h m) path ev av 0
        (xs.map (ReflectValue.val ro)) (ys.map (ReflectValue.val ro))) := by
  apply concat_spec
  · intro hall
    rw [compareRecursively_array]
    exact compareSliceOrArray_concat _ path ev av _ _ _ _ rfl rfl (by simpa using hlen) hall
  · intro ds hret
    rw [compareRecursively_array] at hret
    exact compareSliceOrArray_noError _ path ev av (.val ro (.array t xs))
      (.val ro (.array t ys)) _ _ rfl rfl (by simpa using hlen) ds hret

theorem map_concat_spec (h : Heap) (m : Nat) (path : String) (ro : Bool) (t : GoType)
    (es gs : List (Value × Value)) (ev av : visitedPtrs) (hlen : es.length = gs.length) :
    ConcatOf
      (compareRecursively h (m + 1) path (.val ro (.map t (some es)))
        (.val ro (.map t (some gs))) ev av)
      (entryOutcomes (compareRecursively h m) path (.val ro (.map t (some es)))
        (.val ro (.map t (some gs))) ev av (es.map Prod.fst)) := by
  apply concat_spec
  · intro hall
    rw [compareRecursively_map]
    exact compareMap_concat _ path ev av ro ro t es gs hlen hall
  · intro ds hret
    rw [compareRecursively_map] at hret
    simp only [compareMap, ReflectValue.entries, hlen, ne_eq, not_true_eq_false, ite_false]
      at hret
    split at hret
    · rename_i hz
      have hes : es = [] := by
        cases es with
        | nil => rfl
        | cons e es => simp [← hlen] at hz
      subst hes
      intro o ho
      simp [entryOutcomes] at ho
    · exact mapLoop_noError _ path _ _ ev av _ [] ds hret

/-! ### Values built alike agree in their kinds -/

theorem kindsAgree_scalar (h : Heap) (t u : GoType) (a b : Scalar) (hk : a.kind = b.kind) :
    KindsAgree h (.scalar t a) (.scalar u b) := by
  intro steps vx vy hx hy _
  cases steps with
  | nil =>
    simp only [valueAt, Option.some.injEq] at hx hy
    subst hx
    subst hy
    exact hk
  | cons s steps => simp [valueAt] at hx

theorem kindsAgree_ptr (h : Heap) (t u : GoType) (a b : Nat) (x y : Value)
    (ha : h.lookup a = some x) (hb : h.lookup b = some y) (hk : KindsAgree h x y) :
    KindsAgree h (.ptr t (some a)) (.ptr u (some b)) := by
  intro steps vx vy hx hy ht
  cases steps with
  | nil =>
    simp only [valueAt, Option.some.injEq] at hx hy
    subst hx
    subst hy
    rfl
  | cons s steps =>
    cases s with
    | deref =>
      simp only [valueAt, ha, hb] at hx hy
      exact hk steps vx vy hx hy ht
    | field n => simp [valueAt] at hx
    | index i => simp [valueAt] at hx
    | key k => simp [valueAt] at hx

theorem kindsAgree_get (h : Heap) :
    ∀ (xs ys : List Value), List.Forall₂ (KindsAgree h) xs ys →
      ∀ i v w, xs.get? i = some v → ys.get? i = some w → KindsAgree h v w := by
  intro xs ys hall
  induction hall with
  | nil =>
    intro i v w hv
    simp at hv
  | cons hxy _ ih =>
    intro i v w hv hw
    cases i with
    | zero =>
      simp only [List.get?_cons_zero, Option.some.injEq] at hv hw
      subst hv
      subst hw
      exact hxy
    | succ i => exact ih i v w (by simpa using hv) (by simpa using hw)

theorem kindsAgree_slice (h : Heap) (t u : GoType) (xs ys : List Value)
    (hall : List.Forall₂ (KindsAgree h) xs ys) :
    KindsAgree h (.slice t (some xs)) (.slice u (some ys)) := by
  intro steps vx vy hx hy ht
  cases steps with
  | nil =>
    simp only [valueAt, Option.some.injEq] at hx hy
    subst hx
    subst hy
    rfl
  | cons s steps =>
    cases s with
    | index i =>
      simp only [valueAt] at hx hy
      cases hv : xs.get? i with
      | none =>
        rw [hv] at hx
        cases hx
      | some v =>
        cases hw : ys.get? i with
        | none =>
          rw [hw] at hy
          cases hy
        | some w =>
          simp only [hv] at hx
          simp only [hw] at hy
          exact kindsAgree_get h xs ys hall i v w hv hw steps vx vy hx hy ht
    | field n => simp [valueAt] at hx
    | deref => simp [valueAt] at hx
    | key k => simp [valueAt] at hx

theorem kindsAgree_lookup (h : Heap) :
    ∀ (fs gs : List (String × Value)),
      List.Forall₂ (fun f g => f.1 = g.1 ∧ KindsAgree h f.2 g.2) fs gs →
      ∀ name v w, fs.lookup name = some v → gs.lookup name = some w → KindsAgree h v w := by
  intro fs gs hall
  induction hall with
  | nil =>
    intro name v w hv
    simp at hv
  | @cons f g fs gs hfg _ ih =>
    intro name v w hv hw
    obtain ⟨f1, f2⟩ := f
    obtain ⟨g1, g2⟩ := g
    obtain ⟨hn, hk⟩ := hfg
    simp only at hn hk
    subst hn
    simp only [List.lookup] at hv hw
    cases hnf : name == f1 with
    | true =>
      simp only [hnf, Option.some.injEq] at hv hw
      subst hv
      subst hw
      exact hk
    | false =>
      simp only [hnf] at hv hw
      exact ih name v w hv hw

theorem kindsAgree_struct (h : Heap) (t u : GoType) (fs gs : List (String × Value))
    (hall : List.Forall₂ (fun f g => f.1 = g.1 ∧ KindsAgree h f.2 g.2) fs gs) :
    KindsAgree h (.struct t fs) (.struct u gs) := by
  intro steps vx vy hx hy ht
  cases steps with
  | nil =>
    simp only [valueAt, Option.some.injEq] at hx hy
    subst hx
    subst hy
    rfl
  | cons s steps =>
    cases s with
    | field n =>
      simp only [valueAt] at hx hy
      cases hv : fs.lookup n with
      | none => simp [hv] at hx
      | some v =>
        cases hw : gs.lookup n with
        | none => simp [hw] at hy
        | some w =>
          simp only [hv] at hx
          simp only [hw] at hy
          exact kindsAgree_lookup h fs gs hall n v w hv hw steps vx vy hx hy ht
    | index i => simp [valueAt] at hx
    | deref => simp [valueAt] at hx
    | key k => simp [valueAt] at hx

theorem xsHeap_kindsAgree :
    KindsAgree xsHeap (.ptr tPtrXs (some 1)) (.ptr tPtrXs (some 2)) := by
  refine kindsAgree_ptr xsHeap _ _ 1 2 _ _ rfl rfl ?_
  refine kindsAgree_struct xsHeap _ _ _ _ (List.Forall₂.cons ⟨rfl, ?_⟩ List.Forall₂.nil)
  refine kindsAgree_slice xsHeap _ _ _ _ ?_
  exact List.Forall₂.cons (kindsAgree_scalar _ _ _ _ _ rfl)
    (List.Forall₂.cons (kindsAgree_scalar _ _ _ _ _ rfl)
      (List.Forall₂.cons (kindsAgree_scalar _ _ _ _ _ rfl) List.Forall₂.nil))

/-! ### Go values: the type determines the kind and the fields -/

theorem wellTypedR_step (h : Heap) (s : Step) (e a e1 a1 : ReflectValue)
    (he : Child h s e e1) (ha : Child h s a a1) (hk : WellTypedR h e a) :
    WellTypedR h e1 a1 := by
  intro r1 x1 r2 y1 hx1 hy1 steps vx vy hvx hvy
  rcases he with he | ⟨ro, v, r3, v1, rfl, hc, hv⟩
  · rw [he] at hx1; cases hx1
  rcases ha with ha | ⟨rob, w, r4, w1, rfl, hc2, hw⟩
  · rw [ha] at hy1; cases hy1
  rw [hc] at hx1
  rw [hc2] at hy1
  cases hx1
  cases hy1
  exact hk ro v rob w rfl rfl (s :: steps) vx vy (by rw [hv]; exact hvx) (by rw [hw]; exact hvy)

theorem wellTyped_here (h : Heap) (x y : Value) (hw : WellTyped h x y) :
    SameTypeSameShape x y :=
  hw [] x y (by simp [valueAt]) (by simp [valueAt])

theorem wellTyped_kindsAgree (h : Heap) (x y : Value) (hw : WellTyped h x y) :
    KindsAgree h x y :=
  fun steps vx vy hx hy ht => (hw steps vx vy hx hy ht).1

theorem everywhere_child (h : Heap) (P : Value → Value → Prop) (s : Step) (x y v w : Value)
    (hv : ∀ steps, valueAt h x (s :: steps) = valueAt h v steps)
    (hw : ∀ steps, valueAt h y (s :: steps) = valueAt h w steps)
    (hxy : Everywhere h P x y) : Everywhere h P v w :=
  fun steps vx vy hx hy => hxy (s :: steps) vx vy (by rw [hv]; exact hx) (by rw [hw]; exact hy)

theorem lookup_of_mem_names {β : Type} (name : String) :
    ∀ (fs : List (String × β)), name ∈ fs.map Prod.fst → ∃ v, fs.lookup name = some v := by
  intro fs
  induction fs with
  | nil => intro hm; simp at hm
  | cons f fs ih =>
    intro hm
    obtain ⟨f1, f2⟩ := f
    simp only [List.lookup]
    cases hnf : name == f1 with
    | true => exact ⟨f2, rfl⟩
    | false =>
      simp only [List.map_cons, List.mem_cons] at hm
      rcases hm with hm | hm
      · rw [hm] at hnf
        simp at hnf
      · exact ih hm

theorem struct_of_kind (y : Value) (hy : y.kind = Kind.Struct) : ∃ u gs, y = .struct u gs := by
  cases y with
  | struct u gs => exact ⟨u, gs, rfl⟩
  | scalar t s => cases s <;> simp [Value.kind, Scalar.kind] at hy
  | iface t d => simp [Value.kind] at hy
  | map t es => simp [Value.kind] at hy
  | slice t xs => simp [Value.kind] at hy
  | array t xs => simp [Value.kind] at hy
  | ptr t a => simp [Value.kind] at hy

/-! ### Values built alike are Go values -/

theorem everywhere_scalar (h : Heap) (P : Value → Value → Prop) (t u : GoType) (a b : Scalar)
    (hp : P (.scalar t a) (.scalar u b)) : Everywhere h P (.scalar t a) (.scalar u b) := by
  intro steps vx vy hx hy
  cases steps with
  | nil =>
    simp only [valueAt, Option.some.injEq] at hx hy
    subst hx
    subst hy
    exact hp
  | cons s steps => simp [valueAt] at hx

theorem everywhere_ptr (h : Heap) (P : Value → Value → Prop) (t u : GoType) (a b : Nat)
    (x y : Value) (ha : h.lookup a = some x) (hb : h.lookup b = some y)
    (hp : P (.ptr t (some a)) (.ptr u (some b))) (hk : Everywhere h P x y) :
    Everywhere h P (.ptr t (some a)) (.ptr u (some b)) := by
  intro steps vx vy hx hy
  cases steps with
  | nil =>
    simp only [valueAt, Option.some.injEq] at hx hy
    subst hx
    subst hy
    exact hp
  | cons s steps =>
    cases s with
    | deref =>
      simp only [valueAt, ha, hb] at hx hy
      exact hk steps vx vy hx hy
    | field n => simp [valueAt] at hx
    | index i => simp [valueAt] at hx
    | key k => simp [valueAt] at hx

theorem everywhere_slice (h : Heap) (P : Value → Value → Prop) (t u : GoType)
    (xs ys : List Value) (hp : P (.slice t (some xs)) (.slice u (some ys)))
    (hall : ∀ i v w, xs.get? i = some v → ys.get? i = some w → Everywhere h P v w) :
    Everywhere h P (.slice t (some xs)) (.slice u (some ys)) := by
  intro steps vx vy hx hy
  cases steps with
  | nil =>
    simp only [valueAt, Option.some.injEq] at hx hy
    subst hx
    subst hy
    exact hp
  | cons s steps =>
    cases s with
    | index i =>
      simp only [valueAt] at hx hy
      cases hv : xs.get? i with
      | none =>
        rw [hv] at hx
        cases hx
      | some v =>
        cases hw : ys.get? i with
        | none =>
          rw [hw] at hy
          cases hy
        | some w =>
          simp only [hv] at hx
          simp only [hw] at hy
          exact hall i v w hv hw steps vx vy hx hy
    | field n => simp [valueAt] at hx
    | deref => simp [valueAt] at hx
    | key k => simp [valueAt] at hx

theorem everywhere_struct (h : Heap) (P : Value → Value → Prop) (t u : GoType)
    (fs gs : List (String × Value)) (hp : P (.struct t fs) (.struct u gs))
    (hall : ∀ name v w, fs.lookup name = some v → gs.lookup name = some w →
      Everywhere h P v w) :
    Everywhere h P (.struct t fs) (.struct u gs) := by
  intro steps vx vy hx hy
  cases steps with
  | nil =>
    simp only [valueAt, Option.some.injEq] at hx hy
    subst hx
    subst hy
    exact hp
  | cons s steps =>
    cases s with
    | field n =>
      simp only [valueAt] at hx hy
      cases hv : fs.lookup n with
      | none => simp [hv] at hx
      | some v =>
        cases hw : gs.lookup n with
        | none => simp [hw] at hy
        | some w =>
          simp only [hv] at hx
          simp only [hw] at hy
          exact hall n v w hv hw steps vx vy hx hy
    | index i => simp [valueAt] at hx
    | deref => simp [valueAt] at hx
    | key k => simp [valueAt] at hx

theorem sameShape_scalar (t u : GoType) (a b : Scalar) (hk : a.kind = b.kind) :
    SameTypeSameShape (.scalar t a) (.scalar u b) :=
  fun _ => ⟨hk, fun _ _ _ _ hx => by cases hx⟩

theorem sameShape_slice (t u : GoType) (xs ys : Option (List Value)) :
    SameTypeSameShape (.slice t xs) (.slice u ys) :=
  fun _ => ⟨rfl, fun _ _ _ _ hx => by cases hx⟩

theorem sameShape_ptr (t u : GoType) (a b : Option Nat) :
    SameTypeSameShape (.ptr t a) (.ptr u b) :=
  fun _ => ⟨rfl, fun _ _ _ _ hx => by cases hx⟩

theorem sameShape_struct (t u : GoType) (fs gs : List (String × Value))
    (hn : fs.map Prod.fst = gs.map Prod.fst) :
    SameTypeSameShape (.struct t fs) (.struct u gs) := by
  intro _
  refine ⟨rfl, ?_⟩
  intro t1 fs1 u1 gs1 hx hy
  cases hx
  cases hy
  exact hn

theorem wellTyped_ints (h : Heap) :
    ∀ (xs ys : List Int) (i : Nat) (v w : Value), (xs.map intV).get? i = some v →
      (ys.map intV).get? i = some w → WellTyped h v w := by
  intro xs ys i v w hv hw
  simp only [List.get?_eq_getElem?, List.getElem?_map, Option.map_eq_some'] at hv hw
  obtain ⟨a, _, rfl⟩ := hv
  obtain ⟨b, _, rfl⟩ := hw
  exact everywhere_scalar h _ _ _ _ _ (sameShape_scalar _ _ _ _ rfl)

theorem xsHeap_wellTyped :
    WellTyped xsHeap (.ptr tPtrXs (some 1)) (.ptr tPtrXs (some 2)) := by
  refine everywhere_ptr xsHeap _ _ _ 1 2 _ _ rfl rfl (sameShape_ptr _ _ _ _) ?_
  refine everywhere_struct xsHeap _ _ _ _ _ (sameShape_struct _ _ _ _ rfl) ?_
  intro name v w hv hw
  simp only [List.lookup] at hv hw
  cases hn : name == "Xs" with
  | false =>
    rw [hn] at hv
    cases hv
  | true =>
    rw [hn] at hv hw
    cases hv
    cases hw
    exact everywhere_slice xsHeap _ _ _ _ _ (sameShape_slice _ _ _ _)
      (wellTyped_ints xsHeap [1, 2, 3] [1, 2, 4])

/-! ### The errors that the walk returns -/

theorem compareElem_err (walk : Walk) (diffs : List Diff) (path : String)
    (e a : ReflectValue) (ev av : visitedPtrs) (ds : List Diff) (err : CompareError)
    (hret : compareElem walk diffs path e a ev av = .ret ds (some err)) :
    ∃ ds1, walk path e a ev av = .ret ds1 (some err) := by
  unfold compareElem at hret
  split at hret
  · rename_i ds1 err1 hw
    simp only [Outcome.ret.injEq, Option.some.injEq] at hret
    rw [← hret.2]
    exact ⟨ds1, hw⟩
  · split at hret
    · simp at hret
    · simp at hret
  · cases hret
  · cases hret

theorem sliceLoop_err (walk : Walk) (path : String) (ev av : visitedPtrs)
    (P : CompareError → Prop) :
    ∀ (es as : List ReflectValue) (i : Nat) (diffs ds : List Diff) (err : CompareError),
      (∀ j e a, es.get? j = some e → as.get? j = some a → ∀ ds1 err1,
        walk (path ++ "[" ++ toString (i + j) ++ "]") e a ev av = .ret ds1 (some err1) →
        P err1) →
      compareSliceOrArrayLoop walk path ev av i es as diffs = .ret ds (some err) →
      P err := by
  intro es
  induction es with
  | nil =>
    intro as i diffs ds err _ hret
    simp [compareSliceOrArrayLoop] at hret
  | cons e es ih =>
    intro as i diffs ds err hwalk hret
    cases as with
    | nil => simp [compareSliceOrArrayLoop] at hret
    | cons a as =>
      simp only [compareSliceOrArrayLoop] at hret
      split at hret
      · rename_i diffs1 hce
        refine ih as (i + 1) diffs1 ds err ?_ hret
        intro j e1 a1 he1 ha1 ds1 err1 hw
        have := hwalk (j + 1) e1 a1 (by simpa using he1) (by simpa using ha1) ds1 err1
        rw [show i + (j + 1) = i + 1 + j by omega] at this
        exact this hw
      · obtain ⟨ds1, hw⟩ := compareElem_err walk diffs _ e a ev av ds err hret
        exact hwalk 0 e a rfl rfl ds1 err hw

theorem mapLoop_err (walk : Walk) (path : String) (exp act : ReflectValue)
    (ev av : visitedPtrs) (P : CompareError → Prop)
    (hwalk : ∀ key ds1 err1,
      walk (path ++ "[" ++ key.String ++ "]") (exp.MapIndex key) (act.MapIndex key) ev av =
        .ret ds1 (some err1) → P err1) :
    ∀ (keys : List Value) (diffs ds : List Diff) (err : CompareError),
      compareMapLoop walk path exp act ev av keys diffs = .ret ds (some err) → P err := by
  intro keys
  induction keys with
  | nil =>
    intro diffs ds err hret
    simp [compareMapLoop] at hret
  | cons key keys ih =>
    intro diffs ds err hret
    simp only [compareMapLoop] at hret
    split at hret
    · rename_i diffs1 hce
      exact ih diffs1 ds err hret
    · obtain ⟨ds1, hw⟩ := compareElem_err walk diffs _ _ _ ev av ds err hret
      exact hwalk key ds1 err hw

theorem structLoop_err (walk : Walk) (path : String) (exp act : ReflectValue)
    (ev av : visitedPtrs) (P : CompareError → Prop)
    (hwalk : ∀ name e a, exp.FieldByName name = some e → act.FieldByName name = some a →
      ∀ ds1 err1, walk (path ++ "." ++ name) e a ev av = .ret ds1 (some err1) → P err1) :
    ∀ (names : List String) (diffs ds : List Diff) (err : CompareError),
      (∀ name, name ∈ names → act.FieldByName name ≠ some .zero) →
      compareStructLoop walk path exp act ev av names diffs = .ret ds (some err) →
      P err := by
  intro names
  induction names with
  | nil =>
    intro diffs ds err _ hret
    simp [compareStructLoop] at hret
  | cons name names ih =>
    intro diffs ds err hfound hret
    simp only [compareStructLoop] at hret
    split at hret
    · rename_i expField actField hef haf
      split at hret
      · exact absurd haf (hfound name (List.mem_cons_self _ _))
      · split at hret
        · rename_i diffs1 hce
          exact ih diffs1 ds err (fun n hn => hfound n (List.mem_cons_of_mem _ hn)) hret
        · obtain ⟨ds1, hw⟩ := compareElem_err walk diffs _ _ _ ev av ds err hret
          exact hwalk name expField actField hef haf ds1 err hw
    · cases hret

theorem compareSliceOrArray_err (h : Heap) (walk : Walk) (hw : WalkErr h walk)
    (path : String) (e a : ReflectValue) (ev av : visitedPtrs) (ds : List Diff)
    (err : CompareError)
    (hret : compareSliceOrArray walk path e a ev av = .ret ds (some err))
    (hk : WellTypedR h e a) : err.isMismatch = true := by
  unfold compareSliceOrArray at hret
  split at hret
  · rename_i es as hes has
    split at hret
    · simp only [Outcome.ret.injEq, Option.some.injEq] at hret
      rw [← hret.2]
      rfl
    · split at hret
      · simp at hret
      · refine sliceLoop_err walk path ev av (fun err => err.isMismatch = true) es as 0 [] ds
          err ?_ hret
        intro j e1 a1 he1 ha1 ds1 err1 hw1
        rw [Nat.zero_add] at hw1
        have hce := elems_child h e es hes j e1 he1
        have hca := elems_child h a as has j a1 ha1
        exact hw _ e1 a1 ev av ds1 err1 hw1 (wellTypedR_step h _ e a e1 a1 hce hca hk)
  · cases hret

theorem compareMap_err (h : Heap) (walk : Walk) (hw : WalkErr h walk)
    (path : String) (e a : ReflectValue) (ev av : visitedPtrs) (ds : List Diff)
    (err : CompareError)
    (hret : compareMap walk path e a ev av = .ret ds (some err))
    (hk : WellTypedR h e a) : err.isMismatch = true := by
  unfold compareMap at hret
  split at hret
  · split at hret
    · simp only [Outcome.ret.injEq, Option.some.injEq] at hret
      rw [← hret.2]
      rfl
    · split at hret
      · simp at hret
      · refine mapLoop_err walk path e a ev av (fun err => err.isMismatch = true) ?_ _ [] ds
          err hret
        intro key ds1 err1 hw1
        have hce := mapIndex_child h e key
        have hca := mapIndex_child h a key
        exact hw _ _ _ ev av ds1 err1 hw1 (wellTypedR_step h _ e a _ _ hce hca hk)
  · cases hret

theorem compareStruct_err (h : Heap) (walk : Walk) (hw : WalkErr h walk)
    (path : String) (ro1 ro2 : Bool) (x y : Value) (ev av : visitedPtrs) (ds : List Diff)
    (err : CompareError) (htyp : x.typ = y.typ)
    (hret : compareStruct walk path (.val ro1 x) (.val ro2 y) ev av = .ret ds (some err))
    (hk : WellTypedR h (.val ro1 x) (.val ro2 y)) : err.isMismatch = true := by
  unfold compareStruct at hret
  split at hret
  · rename_i names hnames
    refine structLoop_err walk path _ _ ev av (fun err => err.isMismatch = true) ?_ names []
      ds err ?_ hret
    · intro name e1 a1 he1 ha1 ds1 err1 hw1
      have hce := field_child h _ name e1 he1
      have hca := field_child h _ name a1 ha1
      exact hw _ e1 a1 ev av ds1 err1 hw1 (wellTypedR_step h _ _ _ e1 a1 hce hca hk)
    · intro name hmem
      have hshape := wellTyped_here h x y (hk ro1 x ro2 y rfl rfl) htyp
      cases x with
      | struct t fs =>
        obtain ⟨u, gs, rfl⟩ := struct_of_kind y hshape.1.symm
        simp only [ReflectValue.fieldNames, Option.some.injEq] at hnames
        rw [← hnames, hshape.2 t fs u gs rfl rfl] at hmem
        obtain ⟨v, hv⟩ := lookup_of_mem_names name gs hmem
        simp [ReflectValue.FieldByName, hv]
      | scalar t s => simp [ReflectValue.fieldNames] at hnames
      | iface t d => simp [ReflectValue.fieldNames] at hnames
      | map t es => simp [ReflectValue.fieldNames] at hnames
      | slice t xs => simp [ReflectValue.fieldNames] at hnames
      | array t xs => simp [ReflectValue.fieldNames] at hnames
      | ptr t a => simp [ReflectValue.fieldNames] at hnames
  · cases hret

theorem comparePointer_err (h : Heap) (walk : Walk) (hw : WalkErr h walk)
    (path : String) (e a : ReflectValue) (ev av : visitedPtrs) (ds : List Diff)
    (err : CompareError) (ha : ∃ q, a.Pointer = some q)
    (hret : comparePointer h walk path e a ev av = .ret ds (some err))
    (hk : WellTypedR h e a) : err.isMismatch = true := by
  obtain ⟨q, hq⟩ := ha
  unfold comparePointer at hret
  split at hret
  · cases hret
  · rename_i p hp
    split at hret
    · simp at hret
    · split at hret
      · rename_i e1 a1 he1 ha1
        have hce := indirect_child h e p e1 hp he1
        have hca := indirect_child h a q a1 hq ha1
        exact hw _ e1 a1 ev av ds err hret (wellTypedR_step h _ e a e1 a1 hce hca hk)
      · cases hret
      · cases hret

theorem kind_cases (k : Kind) (h1 : isPrimitiveType k = false) (h2 : isStructType k = false)
    (h3 : isArrayType k = false) (h4 : isPointerType k = false)
    (h5 : isSliceType k = false) (h6 : isMapType k = false) : False := by
  cases k <;>
    simp [isPrimitiveType, isStructType, isArrayType, isPointerType, isSliceType, isMapType,
      isSliceOrArrayType] at h1 h2 h3 h4 h5 h6

theorem compareRecursively_errs (h : Heap) :
    ∀ fuel, WalkErr h (compareRecursively h fuel) := by
  intro fuel
  induction fuel with
  | zero =>
    intro path e a ev av ds err hret
    simp [compareRecursively] at hret
  | succ m ih =>
    intro path e a ev av ds err hret hk
    cases e with
    | zero => simp [compareRecursively, ReflectValue.typ] at hret
    | val ro1 x =>
      cases a with
      | zero => simp [compareRecursively, ReflectValue.typ] at hret
      | val ro2 y =>
        simp only [compareRecursively, ReflectValue.typ] at hret
        split at hret
        · simp only [Outcome.ret.injEq, Option.some.injEq] at hret
          rw [← hret.2]
          rfl
        · rename_i htyp
          have htyp1 : x.typ = y.typ := by simpa using htyp
          split at hret
          · split at hret
            · split at hret
              · simp at hret
              · simp at hret
              · cases hret
            · cases hret
            · cases hret
          · rename_i hprim
            split at hret
            · exact compareStruct_err h _ ih path ro1 ro2 x y ev av ds err htyp1 hret hk
            · rename_i hstruct
              split at hret
              · exact compareSliceOrArray_err h _ ih path _ _ ev av ds err hret hk
              · rename_i harray
                split at hret
                · split at hret
                  · simp at hret
                  · split at hret
                    · split at hret
                      · simp at hret
                      · cases hret
                    · split at hret
                      · rename_i hptr
                        have hkx : x.kind = Kind.Ptr := by
                          simpa [isPointerType, ReflectValue.kind] using hptr
                        have hky : y.kind = Kind.Ptr := by
                          rw [← (wellTyped_here h x y (hk ro1 x ro2 y rfl rfl) htyp1).1]
                          exact hkx
                        exact comparePointer_err h _ ih path _ _ ev av ds err
                          (ptr_of_kind ro2 y hky) hret hk
                      · rename_i hptr
                        split at hret
                        · exact compareSliceOrArray_err h _ ih path _ _ ev av ds err hret hk
                        · rename_i hslice
                          split at hret
                          · exact compareMap_err h _ ih path _ _ ev av ds err hret hk
                          · rename_i hmap
                            exact (kind_cases (ReflectValue.kind (.val ro1 x))
                              (by simpa using hprim) (by simpa using hstruct)
                              (by simpa using harray) (by simpa using hptr)
                              (by simpa using hslice) (by simpa using hmap)).elim
                · cases hret

/-! ### Exchanging the two sides -/

theorem beq_symm {α : Type} [BEq α] [LawfulBEq α] (a b : α) : (b == a) = (a == b) := by
  rw [Bool.eq_iff_iff]
  simp only [beq_iff_eq]
  exact eq_comm

theorem floatEq_symm (a b : Nat) : floatEq b a = floatEq a b := by
  unfold floatEq
  rw [beq_symm a b]
  cases isNaN a <;> cases isNaN b <;> cases (a == b) <;> cases (a % 2 ^ 63 == 0) <;>
    cases (b % 2 ^ 63 == 0) <;> rfl

theorem goEq_symm (a b : Scalar) : b.goEq a = a.goEq b := by
  cases a <;> cases b <;> simp only [Scalar.goEq, floatEq_symm] <;> exact beq_symm _ _

theorem deepEq_symm (a b : Scalar) : b.deepEq a = a.deepEq b := by
  cases a <;> cases b <;> simp only [Scalar.deepEq, goEq_symm, Bool.and_comm]

theorem deepAll_symm (eq : Value → Value → Option Bool) :
    ∀ (xs ys : List Value), (∀ x, x ∈ xs → ∀ y, eq y x = eq x y) →
      deepAll eq ys xs = deepAll eq xs ys := by
  intro xs
  induction xs with
  | nil =>
    intro ys _
    cases ys <;> rfl
  | cons x xs ih =>
    intro ys hsym
    cases ys with
    | nil => rfl
    | cons y ys =>
      simp only [deepAll]
      rw [hsym x (List.mem_cons_self _ _) y,
        ih ys (fun x1 hx1 => hsym x1 (List.mem_cons_of_mem _ hx1))]

theorem noMap_scalar (h : Heap) (n : Nat) (t : GoType) (s : Scalar) :
    noMapWithin h n (.scalar t s) = true := by
  cases n <;> rfl

theorem noMap_elem (h : Heap) (n : Nat) (xs : List Value)
    (hall : xs.all (noMapWithin h n) = true) (j : Nat) (v : Value)
    (hv : xs.get? j = some v) : noMapWithin h n v = true :=
  List.all_eq_true.mp hall v (List.get?_mem hv)

theorem lookup_mem {β : Type} (name : String) (v : β) :
    ∀ (fs : List (String × β)), fs.lookup name = some v → (name, v) ∈ fs := by
  intro fs
  induction fs with
  | nil => intro hl; simp at hl
  | cons f fs ih =>
    intro hl
    obtain ⟨f1, f2⟩ := f
    simp only [List.lookup] at hl
    cases hnf : name == f1 with
    | true =>
      simp only [hnf, Option.some.injEq] at hl
      have : name = f1 := by simpa using hnf
      rw [this, hl]
      exact List.mem_cons_self _ _
    | false =>
      simp only [hnf] at hl
      exact List.mem_cons_of_mem _ (ih hl)

theorem noMap_field (h : Heap) (n : Nat) (fs : List (String × Value))
    (hall : fs.all (fun f => noMapWithin h n f.2) = true) (name : String) (v : Value)
    (hv : fs.lookup name = some v) : noMapWithin h n v = true :=
  List.all_eq_true.mp hall (name, v) (lookup_mem name v fs hv)

theorem deepValueEqual_symm (h : Heap) :
    ∀ (fuel : Nat) (x y : Value), noMapWithin h fuel x = true →
      deepValueEqual h fuel y x = deepValueEqual h fuel x y := by
  intro fuel
  induction fuel with
  | zero =>
    intro x y _
    rfl
  | succ n ih =>
    intro x y hx
    by_cases ht : x.typ = y.typ
    · rw [deepValueEqual.eq_def, deepValueEqual.eq_def]
      simp only [ne_eq, ht, not_true_eq_false, if_false]
      cases x with
      | scalar t a =>
        cases y with
        | scalar u b => simp only [deepEq_symm]
        | _ => simp
      | iface t d =>
        cases y with
        | iface u d1 =>
          cases d with
          | none => cases d1 <;> rfl
          | some v =>
            cases d1 with
            | none => rfl
            | some w =>
              simp only [noMapWithin] at hx
              exact ih v w hx
        | _ => cases d <;> simp
      | ptr t a =>
        cases y with
        | ptr u b =>
          cases a with
          | none => cases b <;> rfl
          | some a =>
            cases b with
            | none => rfl
            | some b =>
              simp only
              by_cases hab : a = b
              · rw [if_pos hab, if_pos hab.symm]
              · rw [if_neg hab, if_neg (fun hba => hab hba.symm)]
                cases ha : h.lookup a with
                | none => cases h.lookup b <;> rfl
                | some v =>
                  cases hb : h.lookup b with
                  | none => rfl
                  | some w =>
                    simp only [noMapWithin, ha] at hx
                    exact ih v w hx
        | _ => cases a <;> simp
      | slice t xs =>
        cases y with
        | slice u ys =>
          cases xs with
          | none => cases ys <;> rfl
          | some xs =>
            cases ys with
            | none => rfl
            | some ys =>
              simp only [noMapWithin] at hx
              simp only
              by_cases hl : xs.length = ys.length
              · rw [if_neg (not_not.mpr hl), if_neg (not_not.mpr hl.symm)]
                exact deepAll_symm _ xs ys
                  (fun x1 hx1 y1 => ih x1 y1 (List.all_eq_true.mp hx x1 hx1))
              · rw [if_pos hl, if_pos (fun hl1 => hl hl1.symm)]
        | _ => cases xs <;> simp
      | array t xs =>
        cases y with
        | array u ys =>
          simp only [noMapWithin] at hx
          exact deepAll_symm _ xs ys
            (fun x1 hx1 y1 => ih x1 y1 (List.all_eq_true.mp hx x1 hx1))
        | _ => simp
      | map t es => simp [noMapWithin] at hx
      | struct t fs =>
        cases y with
        | struct u gs =>
          simp only [noMapWithin] at hx
          refine deepAll_symm _ _ _ ?_
          intro x1 hx1 y1
          obtain ⟨f, hf, rfl⟩ := List.mem_map.mp hx1
          exact ih f.2 y1 (List.all_eq_true.mp hx f hf)
        | _ => simp
    · rw [deepValueEqual.eq_def, deepValueEqual.eq_def]
      have ht1 : ¬y.typ = x.typ := fun ht1 => ht ht1.symm
      simp only [ne_eq, ht, ht1, not_false_eq_true, if_true]

theorem DeepEqual_symm (h : Heap) (fuel : Nat) (e a : Option Value)
    (he : ∀ v, e = some v → noMapWithin h fuel v = true) :
    DeepEqual h fuel a e = DeepEqual h fuel e a := by
  cases e with
  | none => cases a <;> rfl
  | some x =>
    cases a with
    | none => rfl
    | some y =>
      simp only [DeepEqual]
      by_cases ht : x.typ = y.typ
      · rw [if_neg (not_not.mpr ht), if_neg (not_not.mpr ht.symm)]
        exact deepValueEqual_symm h fuel x y (he x rfl)
      · rw [if_pos ht, if_pos (fun ht1 => ht ht1.symm)]

theorem compareElem_swap (walk : Walk) (diffs : List Diff) (path : String)
    (e a : ReflectValue) (ev av : visitedPtrs)
    (hw : walk path a e ev av = (walk path e a ev av).swap) :
    compareElem walk (diffs.map Diff.swap) path a e ev av =
      (compareElem walk diffs path e a ev av).swap := by
  unfold compareElem
  rw [hw]
  cases walk path e a ev av with
  | ret ds err =>
    cases err with
    | none =>
      cases ds with
      | nil => simp [Outcome.swap]
      | cons d ds => simp [Outcome.swap]
    | some err => simp [Outcome.swap]
  | panic p => rfl
  | outOfFuel => rfl

theorem sliceLoop_swap (walk : Walk) (path : String) (ev av : visitedPtrs) :
    ∀ (es as : List ReflectValue) (i : Nat) (diffs : List Diff),
      (∀ j e a, es.get? j = some e → as.get? j = some a →
        walk (path ++ "[" ++ toString (i + j) ++ "]") a e ev av =
          (walk (path ++ "[" ++ toString (i + j) ++ "]") e a ev av).swap) →
      compareSliceOrArrayLoop walk path ev av i as es (diffs.map Diff.swap) =
        (compareSliceOrArrayLoop walk path ev av i es as diffs).swap := by
  intro es
  induction es with
  | nil =>
    intro as i diffs _
    cases as <;> simp [compareSliceOrArrayLoop, Outcome.swap]
  | cons e es ih =>
    intro as i diffs hwalk
    cases as with
    | nil => simp [compareSliceOrArrayLoop, Outcome.swap]
    | cons a as =>
      have h0 := compareElem_swap walk diffs (path ++ "[" ++ toString i ++ "]") e a ev av
        (hwalk 0 e a rfl rfl)
      simp only [compareSliceOrArrayLoop]
      rw [h0]
      have hrest : ∀ diffs1,
          compareSliceOrArrayLoop walk path ev av (i + 1) as es (diffs1.map Diff.swap) =
            (compareSliceOrArrayLoop walk path ev av (i + 1) es as diffs1).swap := by
        intro diffs1
        refine ih as (i + 1) diffs1 ?_
        intro j e1 a1 he1 ha1
        have := hwalk (j + 1) e1 a1 (by simpa using he1) (by simpa using ha1)
        rw [show i + (j + 1) = i + 1 + j by omega] at this
        exact this
      cases compareElem walk diffs (path ++ "[" ++ toString i ++ "]") e a ev av with
      | ret ds err =>
        cases err with
        | none => simp only [Outcome.swap, Option.map_none']; exact hrest ds
        | some err => simp [Outcome.swap]
      | panic p => rfl
      | outOfFuel => rfl

theorem structLoop_swap (walk : Walk) (path : String) (exp act : ReflectValue)
    (ev av : visitedPtrs) :
    ∀ (names : List String) (diffs : List Diff),
      (∀ name, name ∈ names → ∃ r v s w,
        exp.FieldByName name = some (.val r v) ∧ act.FieldByName name = some (.val s w) ∧
        walk (path ++ "." ++ name) (.val s w) (.val r v) ev av =
          (walk (path ++ "." ++ name) (.val r v) (.val s w) ev av).swap) →
      compareStructLoop walk path act exp ev av names (diffs.map Diff.swap) =
        (compareStructLoop walk path exp act ev av names diffs).swap := by
  intro names
  induction names with
  | nil =>
    intro diffs _
    simp [compareStructLoop, Outcome.swap]
  | cons name names ih =>
    intro diffs hnames
    obtain ⟨r, v, s, w, he, ha, hw⟩ := hnames name (List.mem_cons_self _ _)
    have h0 := compareElem_swap walk diffs (path ++ "." ++ name) (.val r v) (.val s w) ev av
      hw
    simp only [compareStructLoop, he, ha]
    rw [h0]
    have hrest : ∀ diffs1,
        compareStructLoop walk path act exp ev av names (diffs1.map Diff.swap) =
          (compareStructLoop walk path exp act ev av names diffs1).swap :=
      fun diffs1 => ih diffs1 (fun n hn => hnames n (List.mem_cons_of_mem _ hn))
    cases compareElem walk diffs (path ++ "." ++ name) (.val r v) (.val s w) ev av with
    | ret ds err =>
      cases err with
      | none => simp only [Outcome.swap, Option.map_none']; exact hrest ds
      | some err => simp [Outcome.swap]
    | panic p => rfl
    | outOfFuel => rfl

theorem compareSliceOrArray_swap (walk : Walk) (path : String) (ro : Bool)
    (xs ys : List Value) (e a : ReflectValue)
    (he : e.elems = some (xs.map (ReflectValue.val ro)))
    (ha : a.elems = some (ys.map (ReflectValue.val ro)))
    (hw : ∀ j v w, xs.get? j = some v → ys.get? j = some w →
      SymAt walk (path ++ "[" ++ toString j ++ "]") ro v w) :
    compareSliceOrArray walk path a e [] [] =
      (compareSliceOrArray walk path e a [] []).swap := by
  unfold compareSliceOrArray
  simp only [he, ha, List.length_map]
  by_cases hl : xs.length = ys.length
  · rw [if_neg (not_not.mpr hl), if_neg (not_not.mpr hl.symm)]
    by_cases h0 : xs.length = 0
    · rw [if_pos h0, if_pos (hl ▸ h0)]
      rfl
    · rw [if_neg h0, if_neg (hl ▸ h0)]
      refine sliceLoop_swap walk path [] [] _ _ 0 [] ?_
      intro j e1 a1 he1 ha1
      simp only [List.get?_eq_getElem?, List.getElem?_map, Option.map_eq_some'] at he1 ha1
      obtain ⟨v, hv, rfl⟩ := he1
      obtain ⟨w, hw1, rfl⟩ := ha1
      rw [Nat.zero_add]
      exact hw j v w (by simpa using hv) (by simpa using hw1)
  · rw [if_pos hl, if_pos (fun hl1 => hl hl1.symm)]
    rfl

theorem Interface_val (v : Value) :
    (ReflectValue.val false v).Interface = .ok (asInterface v) := by
  cases v <;> rfl

theorem primitive_swap (h : Heap) (m : Nat) (path : String) (ro : Bool) (x y : Value)
    (ht : x.typ = y.typ) (hkx : isPrimitiveType x.kind = true)
    (hky : isPrimitiveType y.kind = true)
    (hn : ∀ v, asInterface x = some v → noMapWithin h m v = true) :
    SymAt (compareRecursively h (m + 1)) path ro x y := by
  unfold SymAt
  simp only [compareRecursively, ReflectValue.typ, ReflectValue.kind, ht, hkx, hky, ne_eq,
    not_true_eq_false, if_false, if_true]
  cases ro with
  | true => rfl
  | false =>
    simp only [Interface_val]
    rw [DeepEqual_symm h m (asInterface x) (asInterface y) hn]
    cases DeepEqual h m (asInterface x) (asInterface y) with
    | none => rfl
    | some b => cases b <;> rfl

theorem compareRecursively_swap (h : Heap) :
    ∀ (fuel : Nat) (path : String) (ro : Bool) (x y : Value),
      noMapWithin h fuel x = true → noMapWithin h fuel y = true → WellTyped h x y →
      SymAt (compareRecursively h fuel) path ro x y := by
  intro fuel
  induction fuel with
  | zero =>
    intro path ro x y _ _ _
    rfl
  | succ m ih =>
    intro path ro x y hx hy hwt
    by_cases ht : x.typ = y.typ
    · have hshape := wellTyped_here h x y hwt ht
      obtain ⟨hk, hnames⟩ := hshape
      cases x with
      | scalar t a =>
        cases y with
        | scalar u b =>
          exact primitive_swap h m path ro _ _ ht (isPrimitiveType_scalar a)
            (isPrimitiveType_scalar b)
            (fun v hv => by
              simp only [asInterface, Option.some.injEq] at hv
              rw [← hv]
              exact noMap_scalar h m t a)
        | iface u d => cases a <;> simp [Value.kind, Scalar.kind] at hk
        | ptr u b => cases a <;> simp [Value.kind, Scalar.kind] at hk
        | slice u ys => cases a <;> simp [Value.kind, Scalar.kind] at hk
        | array u ys => cases a <;> simp [Value.kind, Scalar.kind] at hk
        | map u gs => cases a <;> simp [Value.kind, Scalar.kind] at hk
        | struct u gs => cases a <;> simp [Value.kind, Scalar.kind] at hk
      | iface t d =>
        cases y with
        | iface u d1 =>
          refine primitive_swap h m path ro _ _ ht rfl rfl ?_
          intro v hv
          simp only [asInterface] at hv
          rw [hv] at hx
          simpa [noMapWithin] using hx
        | scalar u b => cases b <;> simp [Value.kind, Scalar.kind] at hk
        | ptr u b => simp [Value.kind] at hk
        | slice u ys => simp [Value.kind] at hk
        | array u ys => simp [Value.kind] at hk
        | map u gs => simp [Value.kind] at hk
        | struct u gs => simp [Value.kind] at hk
      | ptr t a =>
        cases y with
        | ptr u b =>
          simp only [Value.typ] at ht
          subst ht
          cases a with
          | none =>
            cases b with
            | none =>
              unfold SymAt
              rw [compareRecursively_nil_nil h m path ro ro (.ptr t none) (.ptr t none) [] [] rfl rfl
                rfl rfl rfl rfl]
              rfl
            | some b =>
              unfold SymAt
              cases ro <;>
                simp [compareRecursively, ReflectValue.typ, Value.typ, ReflectValue.kind,
                  Value.kind, isPrimitiveType, isPointerType, isSliceOrArrayType, isArrayType,
                  isSliceType, isMapType, isStructType, ReflectValue.IsNil, newSingleDiffList,
                  ReflectValue.Interface, Outcome.swap, Diff.swap]
          | some a =>
            cases b with
            | none =>
              unfold SymAt
              cases ro <;>
                simp [compareRecursively, ReflectValue.typ, Value.typ, ReflectValue.kind,
                  Value.kind, isPrimitiveType, isPointerType, isSliceOrArrayType, isArrayType,
                  isSliceType, isMapType, isStructType, ReflectValue.IsNil, newSingleDiffList,
                  ReflectValue.Interface, Outcome.swap, Diff.swap]
            | some b =>
              unfold SymAt
              rw [compareRecursively_ptr, compareRecursively_ptr]
              simp only [comparePointer, ReflectValue.Pointer, visitedPtrs_get_nil,
                Bool.or_self, Bool.false_eq_true, if_false, Indirect]
              cases ha : h.lookup a with
              | none => cases h.lookup b <;> rfl
              | some v =>
                cases hb : h.lookup b with
                | none => rfl
                | some w =>
                  simp only [noMapWithin, ha] at hx
                  simp only [noMapWithin, hb] at hy
                  exact ih _ ro v w hx hy
                    (everywhere_child h _ .deref _ _ v w (fun steps => by simp [valueAt, ha])
                      (fun steps => by simp [valueAt, hb]) hwt)
        | scalar u b => cases b <;> simp [Value.kind, Scalar.kind] at hk
        | iface u d => simp [Value.kind] at hk
        | slice u ys => simp [Value.kind] at hk
        | array u ys => simp [Value.kind] at hk
        | map u gs => simp [Value.kind] at hk
        | struct u gs => simp [Value.kind] at hk
      | slice t xs =>
        cases y with
        | slice u ys =>
          simp only [Value.typ] at ht
          subst ht
          cases xs with
          | none =>
            cases ys with
            | none =>
              unfold SymAt
              rw [compareRecursively_nil_nil h m path ro ro (.slice t none) (.slice t none) [] [] rfl
                rfl rfl rfl rfl rfl]
              rfl
            | some ys =>
              unfold SymAt
              cases ro <;>
                simp [compareRecursively, ReflectValue.typ, Value.typ, ReflectValue.kind,
                  Value.kind, isPrimitiveType, isPointerType, isSliceOrArrayType, isArrayType,
                  isSliceType, isMapType, isStructType, ReflectValue.IsNil, newSingleDiffList,
                  ReflectValue.Interface, Outcome.swap, Diff.swap]
          | some xs =>
            cases ys with
            | none =>
              unfold SymAt
              cases ro <;>
                simp [compareRecursively, ReflectValue.typ, Value.typ, ReflectValue.kind,
                  Value.kind, isPrimitiveType, isPointerType, isSliceOrArrayType, isArrayType,
                  isSliceType, isMapType, isStructType, ReflectValue.IsNil, newSingleDiffList,
                  ReflectValue.Interface, Outcome.swap, Diff.swap]
            | some ys =>
              unfold SymAt
              rw [compareRecursively_slice, compareRecursively_slice]
              simp only [noMapWithin] at hx hy
              refine compareSliceOrArray_swap _ path ro xs ys _ _ rfl rfl ?_
              intro j v w hv hw
              exact ih _ ro v w (noMap_elem h m xs hx j v hv) (noMap_elem h m ys hy j w hw)
                (everywhere_child h _ (.index j) _ _ v w
                  (fun steps => by simp only [valueAt, hv]) (fun steps => by simp only [valueAt, hw])
                  hwt)
        | scalar u b => cases b <;> simp [Value.kind, Scalar.kind] at hk
        | iface u d => simp [Value.kind] at hk
        | ptr u b => simp [Value.kind] at hk
        | array u ys => simp [Value.kind] at hk
        | map u gs => simp [Value.kind] at hk
        | struct u gs => simp [Value.kind] at hk
      | array t xs =>
        cases y with
        | array u ys =>
          simp only [Value.typ] at ht
          subst ht
          unfold SymAt
          rw [compareRecursively_array, compareRecursively_array]
          simp only [noMapWithin] at hx hy
          refine compareSliceOrArray_swap _ path ro xs ys _ _ rfl rfl ?_
          intro j v w hv hw
          exact ih _ ro v w (noMap_elem h m xs hx j v hv) (noMap_elem h m ys hy j w hw)
            (everywhere_child h _ (.index j) _ _ v w
              (fun steps => by simp only [valueAt, hv]) (fun steps => by simp only [valueAt, hw]) hwt)
        | scalar u b => cases b <;> simp [Value.kind, Scalar.kind] at hk
        | iface u d => simp [Value.kind] at hk
        | ptr u b => simp [Value.kind] at hk
        | slice u ys => simp [Value.kind] at hk
        | map u gs => simp [Value.kind] at hk
        | struct u gs => simp [Value.kind] at hk
      | map t es => simp [noMapWithin] at hx
      | struct t fs =>
        cases y with
        | struct u gs =>
          simp only [Value.typ] at ht
          subst ht
          have hn := hnames t fs t gs rfl rfl
          unfold SymAt
          rw [compareRecursively_struct, compareRecursively_struct, ← hn]
          simp only [noMapWithin] at hx hy
          refine structLoop_swap _ path _ _ [] [] _ [] ?_
          intro name hmem
          obtain ⟨v, hv⟩ := lookup_of_mem_names name fs hmem
          obtain ⟨w, hw⟩ := lookup_of_mem_names name gs (hn ▸ hmem)
          refine ⟨ro || !isExported name, v, ro || !isExported name, w,
            by simp only [ReflectValue.FieldByName, hv],
            by simp only [ReflectValue.FieldByName, hw], ?_⟩
          exact ih _ _ v w (noMap_field h m fs hx name v hv) (noMap_field h m gs hy name w hw)
            (everywhere_child h _ (.field name) _ _ v w
              (fun steps => by simp only [valueAt, hv]) (fun steps => by simp only [valueAt, hw]) hwt)
        | scalar u b => cases b <;> simp [Value.kind, Scalar.kind] at hk
        | iface u d => simp [Value.kind] at hk
        | ptr u b => simp [Value.kind] at hk
        | slice u ys => simp [Value.kind] at hk
        | array u ys => simp [Value.kind] at hk
        | map u gs => simp [Value.kind] at hk
    · unfold SymAt
      have ht1 : ¬y.typ = x.typ := fun ht1 => ht ht1.symm
      simp only [compareRecursively, ReflectValue.typ, ne_eq, ht, ht1, not_false_eq_true,
        if_true]
      rfl

/-! ### Below the root the walk meets no type mismatch -/

theorem partsTypedR_step (h : Heap) (s : Step) (e a e1 a1 : ReflectValue)
    (he : Child h s e e1) (ha : Child h s a a1) (hk : PartsTypedR h e a) :
    PartsTypedR h e1 a1 := by
  intro r1 x1 r2 y1 hx1 hy1
  rcases he with he | ⟨ro, v, r3, v1, rfl, hc, hv⟩
  · rw [he] at hx1; cases hx1
  rcases ha with ha | ⟨rob, w, r4, w1, rfl, hc2, hw⟩
  · rw [ha] at hy1; cases hy1
  rw [hc] at hx1
  rw [hc2] at hy1
  cases hx1
  cases hy1
  obtain ⟨ht, hp⟩ := hk ro v rob w rfl rfl
  refine ⟨?_, everywhere_child h _ s v w x1 y1 hv hw hp⟩
  have hroot := hp [] v w (by simp [valueAt]) (by simp [valueAt]) ht
  exact hroot.2 s x1 y1 (by rw [hv]; simp [valueAt]) (by rw [hw]; simp [valueAt])

theorem structLoop_errs (walk : Walk) (path : String) (exp act : ReflectValue)
    (ev av : visitedPtrs) (P : CompareError → Prop)
    (hwalk : ∀ name e a, exp.FieldByName name = some e → act.FieldByName name = some a →
      ∀ ds1 err1, walk (path ++ "." ++ name) e a ev av = .ret ds1 (some err1) → P err1)
    (hnf : ∀ name, P (.fieldNotFound (path ++ "." ++ name))) :
    ∀ (names : List String) (diffs ds : List Diff) (err : CompareError),
      compareStructLoop walk path exp act ev av names diffs = .ret ds (some err) →
      P err := by
  intro names
  induction names with
  | nil =>
    intro diffs ds err hret
    simp [compareStructLoop] at hret
  | cons name names ih =>
    intro diffs ds err hret
    simp only [compareStructLoop] at hret
    split at hret
    · rename_i expField actField hef haf
      split at hret
      · simp only [Outcome.ret.injEq, Option.some.injEq] at hret
        rw [← hret.2]
        exact hnf name
      · split at hret
        · rename_i diffs1 hce
          exact ih diffs1 ds err hret
        · obtain ⟨ds1, hw⟩ := compareElem_err walk diffs _ _ _ ev av ds err hret
          exact hwalk name expField actField hef haf ds1 err hw
    · cases hret

theorem compareSliceOrArray_typed (h : Heap) (walk : Walk) (hw : WalkTyped h walk)
    (path : String) (e a : ReflectValue) (ev av : visitedPtrs) (ds : List Diff)
    (err : CompareError)
    (hret : compareSliceOrArray walk path e a ev av = .ret ds (some err))
    (hk : PartsTypedR h e a) : err.isTypeMismatch = false := by
  unfold compareSliceOrArray at hret
  split at hret
  · rename_i es as hes has
    split at hret
    · simp only [Outcome.ret.injEq, Option.some.injEq] at hret
      rw [← hret.2]
      rfl
    · split at hret
      · simp at hret
      · refine sliceLoop_err walk path ev av (fun err => err.isTypeMismatch = false) es as 0
          [] ds err ?_ hret
        intro j e1 a1 he1 ha1 ds1 err1 hw1
        rw [Nat.zero_add] at hw1
        have hce := elems_child h e es hes j e1 he1
        have hca := elems_child h a as has j a1 ha1
        exact hw _ e1 a1 ev av ds1 err1 hw1 (partsTypedR_step h _ e a e1 a1 hce hca hk)
  · cases hret

theorem compareMap_typed (h : Heap) (walk : Walk) (hw : WalkTyped h walk)
    (path : String) (e a : ReflectValue) (ev av : visitedPtrs) (ds : List Diff)
    (err : CompareError)
    (hret : compareMap walk path e a ev av = .ret ds (some err))
    (hk : PartsTypedR h e a) : err.isTypeMismatch = false := by
  unfold compareMap at hret
  split at hret
  · split at hret
    · simp only [Outcome.ret.injEq, Option.some.injEq] at hret
      rw [← hret.2]
      rfl
    · split at hret
      · simp at hret
      · refine mapLoop_err walk path e a ev av (fun err => err.isTypeMismatch = false) ?_ _
          [] ds err hret
        intro key ds1 err1 hw1
        have hce := mapIndex_child h e key
        have hca := mapIndex_child h a key
        exact hw _ _ _ ev av ds1 err1 hw1 (partsTypedR_step h _ e a _ _ hce hca hk)
  · cases hret

theorem compareStruct_typed (h : Heap) (walk : Walk) (hw : WalkTyped h walk)
    (path : String) (e a : ReflectValue) (ev av : visitedPtrs) (ds : List Diff)
    (err : CompareError)
    (hret : compareStruct walk path e a ev av = .ret ds (some err))
    (hk : PartsTypedR h e a) : err.isTypeMismatch = false := by
  unfold compareStruct at hret
  split at hret
  · rename_i names hnames
    refine structLoop_errs walk path _ _ ev av (fun err => err.isTypeMismatch = false) ?_
      (fun _ => rfl) names [] ds err hret
    intro name e1 a1 he1 ha1 ds1 err1 hw1
    have hce := field_child h _ name e1 he1
    have hca := field_child h _ name a1 ha1
    exact hw _ e1 a1 ev av ds1 err1 hw1 (partsTypedR_step h _ _ _ e1 a1 hce hca hk)
  · cases hret

theorem comparePointer_typed (h : Heap) (walk : Walk) (hw : WalkTyped h walk)
    (path : String) (e a : ReflectValue) (ev av : visitedPtrs) (ds : List Diff)
    (err : CompareError) (ha : ∃ q, a.Pointer = some q)
    (hret : comparePointer h walk path e a ev av = .ret ds (some err))
    (hk : PartsTypedR h e a) : err.isTypeMismatch = false := by
  obtain ⟨q, hq⟩ := ha
  unfold comparePointer at hret
  split at hret
  · cases hret
  · rename_i p hp
    split at hret
    · simp at hret
    · split at hret
      · rename_i e1 a1 he1 ha1
        have hce := indirect_child h e p e1 hp he1
        have hca := indirect_child h a q a1 hq ha1
        exact hw _ e1 a1 ev av ds err hret (partsTypedR_step h _ e a e1 a1 hce hca hk)
      · cases hret
      · cases hret

theorem compareRecursively_typed (h : Heap) :
    ∀ fuel, WalkTyped h (compareRecursively h fuel) := by
  intro fuel
  induction fuel with
  | zero =>
    intro path e a ev av ds err hret
    simp [compareRecursively] at hret
  | succ m ih =>
    intro path e a ev av ds err hret hk
    cases e with
    | zero => simp [compareRecursively, ReflectValue.typ] at hret
    | val ro1 x =>
      cases a with
      | zero => simp [compareRecursively, ReflectValue.typ] at hret
      | val ro2 y =>
        obtain ⟨htyp1, hparts⟩ := hk ro1 x ro2 y rfl rfl
        simp only [compareRecursively, ReflectValue.typ] at hret
        split at hret
        · rename_i hne
          exact absurd htyp1 hne
        · split at hret
          · split at hret
            · split at hret
              · simp at hret
              · simp at hret
              · cases hret
            · cases hret
            · cases hret
          · split at hret
            · exact compareStruct_typed h _ ih path _ _ ev av ds err hret hk
            · split at hret
              · exact compareSliceOrArray_typed h _ ih path _ _ ev av ds err hret hk
              · split at hret
                · split at hret
                  · simp at hret
                  · split at hret
                    · split at hret
                      · simp at hret
                      · cases hret
                    · split at hret
                      · rename_i hptr
                        have hkx : x.kind = Kind.Ptr := by
                          simpa [isPointerType, ReflectValue.kind] using hptr
                        have hky : y.kind = Kind.Ptr := by
                          rw [← (hparts [] x y (by simp [valueAt]) (by simp [valueAt])
                            htyp1).1]
                          exact hkx
                        exact comparePointer_typed h _ ih path _ _ ev av ds err
                          (ptr_of_kind ro2 y hky) hret hk
                      · split at hret
                        · exact compareSliceOrArray_typed h _ ih path _ _ ev av ds err hret
                            hk
                        · split at hret
                          · exact compareMap_typed h _ ih path _ _ ev av ds err hret hk
                          · simp only [Outcome.ret.injEq, Option.some.injEq] at hret
                            rw [← hret.2]
                            rfl
                · cases hret

theorem everywhere_right_scalar (h : Heap) (P : Value → Value → Prop) (x : Value)
    (u : GoType) (b : Scalar) (hp : P x (.scalar u b)) : Everywhere h P x (.scalar u b) := by
  intro steps vx vy hx hy
  cases steps with
  | nil =>
    simp only [valueAt, Option.some.injEq] at hx hy
    subst hx
    subst hy
    exact hp
  | cons s steps => simp [valueAt] at hy

/-! ### Nil slices and nil maps; the fields before and after a field -/

theorem compareRecursively_nil_slices (h : Heap) (m : Nat) (path : String) (t : GoType)
    (r : Bool) (ev av : visitedPtrs) :
    compareRecursively h (m + 1) path (.val r (.slice t none)) (.val r (.slice t none)) ev av =
      .ret [] none :=
  compareRecursively_nil_nil h m path r r _ _ ev av rfl rfl rfl rfl rfl rfl

theorem compareRecursively_nil_slice_left (h : Heap) (m : Nat) (path : String) (t : GoType)
    (ys : List Value) (ev av : visitedPtrs) :
    compareRecursively h (m + 1) path (.val false (.slice t none))
        (.val false (.slice t (some ys))) ev av =
      .ret [{ Field := path, Expected := some (.slice t none),
              Actual := some (.slice t (some ys)) }] none := by
  simp [compareRecursively, ReflectValue.typ, Value.typ, ReflectValue.kind, Value.kind,
    isPrimitiveType, isPointerType, isSliceOrArrayType, isArrayType, isSliceType, isMapType,
    isStructType, ReflectValue.IsNil, newSingleDiffList, ReflectValue.Interface]

theorem compareRecursively_nil_slice_right (h : Heap) (m : Nat) (path : String) (t : GoType)
    (xs : List Value) (ev av : visitedPtrs) :
    compareRecursively h (m + 1) path (.val false (.slice t (some xs)))
        (.val false (.slice t none)) ev av =
      .ret [{ Field := path, Expected := some (.slice t (some xs)),
              Actual := some (.slice t none) }] none := by
  simp [compareRecursively, ReflectValue.typ, Value.typ, ReflectValue.kind, Value.kind,
    isPrimitiveType, isPointerType, isSliceOrArrayType, isArrayType, isSliceType, isMapType,
    isStructType, ReflectValue.IsNil, newSingleDiffList, ReflectValue.Interface]

theorem compareRecursively_nil_maps (h : Heap) (m : Nat) (path : String) (t : GoType)
    (r : Bool) (ev av : visitedPtrs) :
    compareRecursively h (m + 1) path (.val r (.map t none)) (.val r (.map t none)) ev av =
      .ret [] none :=
  compareRecursively_nil_nil h m path r r _ _ ev av rfl rfl rfl rfl rfl rfl

theorem compareRecursively_nil_map_left (h : Heap) (m : Nat) (path : String) (t : GoType)
    (gs : List (Value × Value)) (ev av : visitedPtrs) :
    compareRecursively h (m + 1) path (.val false (.map t none))
        (.val false (.map t (some gs))) ev av =
      .ret [{ Field := path, Expected := some (.map t none),
              Actual := some (.map t (some gs)) }] none := by
  simp [compareRecursively, ReflectValue.typ, Value.typ, ReflectValue.kind, Value.kind,
    isPrimitiveType, isPointerType, isSliceOrArrayType, isArrayType, isSliceType, isMapType,
    isStructType, ReflectValue.IsNil, newSingleDiffList, ReflectValue.Interface]

theorem compareRecursively_nil_map_right (h : Heap) (m : Nat) (path : String) (t : GoType)
    (es : List (Value × Value)) (ev av : visitedPtrs) :
    compareRecursively h (m + 1) path (.val false (.map t (some es)))
        (.val false (.map t none)) ev av =
      .ret [{ Field := path, Expected := some (.map t (some es)),
              Actual := some (.map t none) }] none := by
  simp [compareRecursively, ReflectValue.typ, Value.typ, ReflectValue.kind, Value.kind,
    isPrimitiveType, isPointerType, isSliceOrArrayType, isArrayType, isSliceType, isMapType,
    isStructType, ReflectValue.IsNil, newSingleDiffList, ReflectValue.Interface]

theorem fieldOutcomes_append (walk : Walk) (path : String) (ro : Bool) (ev av : visitedPtrs) :
    ∀ (pre pre1 fs gs : List (String × Value)), pre.length = pre1.length →
      fieldOutcomes walk path ro ev av (pre ++ fs) (pre1 ++ gs) =
        fieldOutcomes walk path ro ev av pre pre1 ++ fieldOutcomes walk path ro ev av fs gs := by
  intro pre
  induction pre with
  | nil =>
    intro pre1 fs gs hlen
    cases pre1 with
    | nil => simp [fieldOutcomes]
    | cons g pre1 => simp at hlen
  | cons f pre ih =>
    intro pre1 fs gs hlen
    cases pre1 with
    | nil => simp at hlen
    | cons g pre1 =>
      simp only [List.cons_append, fieldOutcomes, List.cons.injEq, true_and]
      exact ih pre1 fs gs (by simpa using hlen)

theorem struct_field_concat_spec (h : Heap) (m : Nat) (path : String) (t : GoType)
    (name : String) (x y : Value) (o : Outcome)
    (pre post pre1 post1 : List (String × Value))
    (hpre : pre.map Prod.fst = pre1.map Prod.fst)
    (hpost : post.map Prod.fst = post1.map Prod.fst)
    (hnodup : ((pre ++ (name, x) :: post).map Prod.fst).Nodup)
    (hw : compareRecursively h m (path ++ "." ++ name) (.val (false || !isExported name) x)
      (.val (false || !isExported name) y) [] [] = o) :
    ConcatOf
      (compareRecursively h (m + 1) path (.val false (.struct t (pre ++ (name, x) :: post)))
        (.val false (.struct t (pre1 ++ (name, y) :: post1))) [] [])
      (fieldOutcomes (compareRecursively h m) path false [] [] pre pre1 ++
        o :: fieldOutcomes (compareRecursively h m) path false [] [] post post1) := by
  have hnames : (pre ++ (name, x) :: post).map Prod.fst =
      (pre1 ++ (name, y) :: post1).map Prod.fst := by
    simp [hpre, hpost]
  have hlen : pre.length = pre1.length := by
    simpa using congrArg List.length hpre
  have hs := struct_concat_spec h m path false t _ _ [] [] hnames hnodup
  rw [fieldOutcomes_append _ _ _ _ _ pre pre1 _ _ hlen] at hs
  simp only [fieldOutcomes] at hs
  rw [hw] at hs
  exact hs

/-! ## The claims -/

/-! ### C1: an error together with diffs -/

/-- C1 (code bug): on `struct { A int; B []int }{1, {1}}` against `{2, {1, 2}}` the field `A`
yields a diff and the field `B` a length mismatch; `compareElem` hands the diffs collected
so far back with the error, so `Compare` returns a non-nil error together with a non-empty
diff list, for every amount of fuel that lets it return. -/
theorem C1_error_returned_with_diffs (fuel : Nat) :
    Compare [] (fuel + 3) (some pairExpected) (some pairActual) =
      .ret [{ Field := ".A", Expected := some (intV 1), Actual := some (intV 2) }]
        (some (.mismatchedLen ".B" 1 2)) := rfl

/-! ### C2: self-referential structures -/

theorem selfHeap_ptr_step (fuel : Nat) (path : String) :
    compareRecursively selfHeap (fuel + 1) path
        (.val false (.ptr tPtrNode (some 1))) (.val false (.ptr tPtrNode (some 2))) [] [] =
      compareRecursively selfHeap fuel ("*(" ++ path ++ ")")
        (.val false (.struct tNode [("Next", .ptr tPtrNode (some 1))]))
        (.val false (.struct tNode [("Next", .ptr tPtrNode (some 2))])) [] [] := rfl

theorem selfHeap_struct_step (fuel : Nat) (path : String)
    (hyp : compareRecursively selfHeap fuel (path ++ "." ++ "Next")
      (.val false (.ptr tPtrNode (some 1))) (.val false (.ptr tPtrNode (some 2))) [] [] =
        .outOfFuel) :
    compareRecursively selfHeap (fuel + 1) path
      (.val false (.struct tNode [("Next", .ptr tPtrNode (some 1))]))
      (.val false (.struct tNode [("Next", .ptr tPtrNode (some 2))])) [] [] = .outOfFuel := by
  show (match compareElem (compareRecursively selfHeap fuel) [] (path ++ "." ++ "Next")
      (.val false (.ptr tPtrNode (some 1))) (.val false (.ptr tPtrNode (some 2))) [] [] with
    | .ret diffs1 none => _
    | o => o) = _
  simp only [compareElem, hyp]

theorem selfHeap_diverges (fuel : Nat) : ∀ path,
    compareRecursively selfHeap fuel path
        (.val false (.ptr tPtrNode (some 1))) (.val false (.ptr tPtrNode (some 2))) [] [] =
      .outOfFuel ∧
    compareRecursively selfHeap fuel path
        (.val false (.struct tNode [("Next", .ptr tPtrNode (some 1))]))
        (.val false (.struct tNode [("Next", .ptr tPtrNode (some 2))])) [] [] =
      .outOfFuel := by
  induction fuel with
  | zero => intro path; exact ⟨rfl, rfl⟩
  | succ n ih =>
    intro path
    refine ⟨?_, ?_⟩
    · rw [selfHeap_ptr_step]; exact (ih _).2
    · exact selfHeap_struct_step n path (ih _).1

/-- C2 (code bug): nothing is ever recorded in the two maps of visited pointers, so on a node
whose field `Next` points back to the node, compared with an identically shaped node,
the recursion of `Compare` never ends: no amount of fuel lets it return. -/
theorem C2_self_reference_diverges (fuel : Nat) :
    Compare selfHeap fuel (some (.ptr tPtrNode (some 1))) (some (.ptr tPtrNode (some 2))) =
      .outOfFuel :=
  (selfHeap_diverges fuel "").1

/-! ### C3: a value against its deep copy -/

/-- C3, counterexample: a NaN of type `float64` compared with itself yields a diff, for
`reflect.DeepEqual` holds a NaN different from itself. -/
theorem C3_counterexample :
    Compare [] 2 (some nanV) (some nanV) =
        .ret [{ Field := "", Expected := some nanV, Actual := some nanV }] none ∧
      Compare [] 2 (some nanV) (some nanV) ≠ .ret [] none := by
  refine ⟨rfl, ?_⟩
  rw [show Compare [] 2 (some nanV) (some nanV) =
    .ret [{ Field := "", Expected := some nanV, Actual := some nanV }] none from rfl]
  simp

/-- C3 (amended): for every value `x` that, down to a depth `n`, holds no NaN and no
non-nil function and has no leaf below an unexported struct field, and for every deep
copy `y` of `x` in which every map has the keys of the map it copies (`==`, so that a
pointer in a key is copied as the same pointer, as a channel is), `Compare x y` returns no
diff and no error, as soon as the fuel exceeds the depth. -/
theorem C3_deep_copy_has_no_diff (h : Heap) (n : Nat) (x y : Value) (fuel : Nat)
    (hcopy : comparableCopy h n x y = true) (hexp : exportedLeaves h n false x = true)
    (hfuel : n + 1 ≤ fuel) :
    Compare h fuel (some x) (some y) = .ret [] none :=
  walk_of_copy h n false x y hcopy hexp fuel hfuel "" [] []

/-- C3, witness: the value of type `*TS` of the test against a copy of it at another
address, both holding the same `*B` in the interface-typed field; and a map whose keys are
arrays, `map[[1]int]int{{1}: 2}`, against a copy of it. -/
theorem C3_witness :
    comparableCopy [(1, tsValue 3), (2, tsValue 3), (3, .struct tB [("M", strV "mmm")])] 7
        (.ptr tPtrTS (some 1)) (.ptr tPtrTS (some 2)) = true ∧
      exportedLeaves [(1, tsValue 3), (2, tsValue 3), (3, .struct tB [("M", strV "mmm")])] 7
        false (.ptr tPtrTS (some 1)) = true ∧
      Compare [(1, tsValue 3), (2, tsValue 3), (3, .struct tB [("M", strV "mmm")])] 8
        (some (.ptr tPtrTS (some 1))) (some (.ptr tPtrTS (some 2))) = .ret [] none ∧
      Compare [] 4 (some (arrMap 1 2)) (some (arrMap 1 2)) = .ret [] none :=
  ⟨rfl, rfl, C3_deep_copy_has_no_diff _ 7 _ _ 8 rfl rfl (by decide),
    C3_deep_copy_has_no_diff [] 3 (arrMap 1 2) (arrMap 1 2) 4 rfl rfl (by decide)⟩

/-! ### C4: one leaf differs -/

/-- C4, counterexample: the two `*TS` values of `Test_Compare` differ only in the field
`M` of the `*B` stored in `B.D`; the diff `Compare` returns is at the interface-typed
field `B.D`, with the two pointers as `Expected` and `Actual`, not at the leaf `M` with
the two strings. -/
theorem C4_counterexample :
    Compare testHeap 7 (some (.ptr tPtrTS (some 1))) (some (.ptr tPtrTS (some 2))) =
      .ret [{ Field := "*().B.D", Expected := some (.ptr tPtrB (some 3)),
              Actual := some (.ptr tPtrB (some 4)) }] none := rfl

/-- C4 (amended): for every two values of the same type that are the same except at one
leaf, `Compare` returns a nil error and exactly one Diff: its `Field` is the path
synthesized along the steps to that leaf, its `Expected` and `Actual` are the two values of
the leaf (for an interface-typed value: the two values the interface holds).  A leaf is a
value of leaf kind, or an interface-typed value, whose two sides `reflect.DeepEqual` tells
apart; it does not lie below an unexported field; everything beside the way to the leaf is
in the one value a deep copy of what it is in the other, in the sense of C3 (no NaN, no
non-nil function, no leaf below an unexported field, the same map keys). -/
theorem C4_one_leaf_one_diff (h : Heap) (n : Nat) (x y : Value) (steps : List Step)
    (lx ly : Option Value) (fuel : Nat)
    (hdiff : OneLeafDiffers h n false x y steps lx ly) (hfuel : n + 1 ≤ fuel) :
    Compare h fuel (some x) (some y) =
      .ret [{ Field := pathFrom "" steps, Expected := lx, Actual := ly }] none :=
  walk_oneLeaf h n false x y steps lx ly hdiff fuel hfuel ""

/-- C4, witness: the two `*TS` values of `Test_Compare`; the leaf that differs is the
interface-typed field `B.D`, reached by a dereference and the fields `B` and `D`. -/
theorem C4_witness :
    OneLeafDiffers testHeap 7 false (.ptr tPtrTS (some 1)) (.ptr tPtrTS (some 2))
        [Step.deref, Step.field "B", Step.field "D"]
        (some (.ptr tPtrB (some 3))) (some (.ptr tPtrB (some 4))) ∧
      Compare testHeap 8 (some (.ptr tPtrTS (some 1))) (some (.ptr tPtrTS (some 2))) =
        .ret [{ Field := pathFrom "" [Step.deref, Step.field "B", Step.field "D"],
                Expected := some (.ptr tPtrB (some 3)),
                Actual := some (.ptr tPtrB (some 4)) }] none :=
  have h1 : OneLeafDiffers testHeap 4 false
      (.iface tIface (some (.ptr tPtrB (some 3)))) (.iface tIface (some (.ptr tPtrB (some 4))))
      [] (some (.ptr tPtrB (some 3))) (some (.ptr tPtrB (some 4))) :=
    OneLeafDiffers.ifaceLeaf 3 tIface (some (.ptr tPtrB (some 3)))
      (some (.ptr tPtrB (some 4))) rfl rfl
  have h2 : OneLeafDiffers testHeap 5 false
      (.struct tTSInner ([("C", intV 3)] ++
        ("D", .iface tIface (some (.ptr tPtrB (some 3)))) :: []))
      (.struct tTSInner ([("C", intV 3)] ++
        ("D", .iface tIface (some (.ptr tPtrB (some 4)))) :: []))
      [Step.field "D"] (some (.ptr tPtrB (some 3))) (some (.ptr tPtrB (some 4))) :=
    OneLeafDiffers.field 4 tTSInner false "D" _ _ _ _ _ [("C", intV 3)] []
      [("C", intV 3)] [] rfl (by decide) rfl rfl h1
  have h3 : OneLeafDiffers testHeap 6 false (tsValue 3) (tsValue 4)
      [Step.field "B", Step.field "D"]
      (some (.ptr tPtrB (some 3))) (some (.ptr tPtrB (some 4))) :=
    OneLeafDiffers.field 5 tTS false "B" _ _ _ _ _ [("A", strV "aaa")] []
      [("A", strV "aaa")] [] rfl (by decide) rfl rfl h2
  have hd : OneLeafDiffers testHeap 7 false (.ptr tPtrTS (some 1)) (.ptr tPtrTS (some 2))
      [Step.deref, Step.field "B", Step.field "D"]
      (some (.ptr tPtrB (some 3))) (some (.ptr tPtrB (some 4))) :=
    OneLeafDiffers.deref 6 tPtrTS false 1 2 (tsValue 3) (tsValue 4) _ _ _ rfl rfl h3
  ⟨hd, C4_one_leaf_one_diff testHeap 7 _ _ _ _ _ 8 hd (by decide)⟩

/-! ### C5: distinct types at the top level -/

/-- C5: for every two top-level values whose types are distinct, `Compare` returns nil
diffs and the type-mismatch error for the empty field path and the two types, whose
message names them. -/
theorem C5_top_level_type_mismatch (h : Heap) (fuel : Nat) (x y : Value)
    (hne : x.typ ≠ y.typ) :
    Compare h (fuel + 1) (some x) (some y) =
        .ret [] (some (.mismatchedType "" x.typ y.typ)) ∧
      (CompareError.mismatchedType "" x.typ y.typ).Error =
        "mismatched type of ``, exp.Type=" ++ x.typ.name ++ ", act.Type=" ++ y.typ.name := by
  refine ⟨?_, rfl⟩
  simp [Compare, compareRecursively, ValueOf, ReflectValue.typ, hne]

/-- C5, witness: a struct against a string. -/
theorem C5_witness :
    pairExpected.typ ≠ (strV "s").typ ∧
      (Compare [] 1 (some pairExpected) (some (strV "s")) =
          .ret [] (some (.mismatchedType "" pairExpected.typ (strV "s").typ)) ∧
        (CompareError.mismatchedType "" pairExpected.typ (strV "s").typ).Error =
          "mismatched type of ``, exp.Type=" ++ pairExpected.typ.name ++ ", act.Type="
            ++ (strV "s").typ.name) :=
  ⟨by decide, C5_top_level_type_mismatch [] 0 pairExpected (strV "s") (by decide)⟩

/-! ### C6: distinct types below the top level -/

/-- C6, counterexample: an `int` and a `string` stored in the same interface-typed
struct field have distinct types, and `Compare` reports a Diff at that field, with a nil
error. -/
theorem C6_counterexample :
    (intV 1).typ ≠ (strV "x").typ ∧
      Compare [] 3 (some (holder (intV 1))) (some (holder (strV "x"))) =
        .ret [{ Field := ".D", Expected := some (intV 1), Actual := some (strV "x") }]
          none :=
  ⟨by decide, rfl⟩

/-- C6 (amended): `Compare` fails with a type mismatch only at the root.  On two Go values,
where the type of a value determines the types of its parts, a type-mismatch error that
`Compare` returns names the empty path and the two top-level types, which differ, and
comes with nil diffs; and two top-level values of distinct types do get this error.
Below the root the walk meets no type mismatch, and it does not look at the types of the
values that interfaces hold: two values that are the same except that one interface-typed
position holds values of distinct types yield one Diff, at the path of that position, with
the two values held, and a nil error. -/
theorem C6_type_mismatch_only_at_the_root (h : Heap) (fuel : Nat) (x y : Value) :
    (∀ ds field t u, PartsTyped h x y →
        Compare h fuel (some x) (some y) = .ret ds (some (.mismatchedType field t u)) →
        x.typ ≠ y.typ ∧ ds = [] ∧ field = "" ∧ t = x.typ ∧ u = y.typ) ∧
      (x.typ ≠ y.typ →
        Compare h (fuel + 1) (some x) (some y) =
          .ret [] (some (.mismatchedType "" x.typ y.typ))) ∧
      (∀ n steps a b, OneLeafDiffers h n false x y steps (some a) (some b) →
        a.typ ≠ b.typ → n + 1 ≤ fuel →
        Compare h fuel (some x) (some y) =
          .ret [{ Field := pathFrom "" steps, Expected := some a, Actual := some b }]
            none) := by
  have hroot : x.typ ≠ y.typ → ∀ k, Compare h (k + 1) (some x) (some y) =
      .ret [] (some (.mismatchedType "" x.typ y.typ)) := by
    intro hne k
    simp [Compare, compareRecursively, ValueOf, ReflectValue.typ, hne]
  refine ⟨?_, fun hne => hroot hne fuel, ?_⟩
  · intro ds field t u hgo hret
    by_cases ht : x.typ = y.typ
    · have hno := compareRecursively_typed h fuel "" (.val false x) (.val false y) [] [] ds
        (.mismatchedType field t u) hret
        (fun _ _ _ _ hx hy => by cases hx; cases hy; exact ⟨ht, hgo⟩)
      cases hno
    · cases fuel with
      | zero => cases hret
      | succ k =>
        rw [hroot ht k] at hret
        simp only [Outcome.ret.injEq, Option.some.injEq, CompareError.mismatchedType.injEq]
          at hret
        exact ⟨ht, hret.1.symm, hret.2.1.symm, hret.2.2.1.symm, hret.2.2.2.symm⟩
  · intro n steps a b hdiff _ hfuel
    exact walk_oneLeaf h n false x y steps (some a) (some b) hdiff fuel hfuel ""

/-- C6, witness: a struct against a string gets the type mismatch of the root; the struct
`struct { D interface {} }` holding an `int` against the same struct holding a `string`
gets one Diff at `.D`. -/
theorem C6_witness :
    (pairExpected.typ ≠ (strV "s").typ ∧ ([] : List Diff) = [] ∧ "" = "" ∧
        pairExpected.typ = pairExpected.typ ∧ (strV "s").typ = (strV "s").typ) ∧
      Compare [] 1 (some pairExpected) (some (strV "s")) =
        .ret [] (some (.mismatchedType "" pairExpected.typ (strV "s").typ)) ∧
      Compare [] 3 (some (holder (intV 1))) (some (holder (strV "x"))) =
        .ret [{ Field := pathFrom "" [Step.field "D"], Expected := some (intV 1),
                Actual := some (strV "x") }] none :=
  ⟨(C6_type_mismatch_only_at_the_root [] 1 pairExpected (strV "s")).1 [] ""
      pairExpected.typ (strV "s").typ
      (everywhere_right_scalar [] _ _ _ _ (fun ht => absurd ht (by decide))) rfl,
    (C6_type_mismatch_only_at_the_root [] 0 pairExpected (strV "s")).2.1 (by decide),
    (C6_type_mismatch_only_at_the_root [] 3 (holder (intV 1)) (holder (strV "x"))).2.2 2
      [Step.field "D"] (intV 1) (strV "x")
      (OneLeafDiffers.field 1 tHolder false "D" _ _ _ _ _ [] [] [] [] rfl (by decide) rfl
        rfl (OneLeafDiffers.ifaceLeaf 0 tIface (some (intV 1)) (some (strV "x")) rfl rfl))
      (by decide) (by decide)⟩

/-! ### C7: slices of different lengths -/

/-- C7, counterexample: the nil slice against a slice of length 1 yields one Diff and a
nil error, not a length mismatch. -/
theorem C7_counterexample :
    Compare [] 2 (some (.slice tIntSlice none)) (some (.slice tIntSlice (some [intV 1]))) =
      .ret [{ Field := "", Expected := some (.slice tIntSlice none),
              Actual := some (.slice tIntSlice (some [intV 1])) }] none := rfl

/-- C7 (amended): for every two non-nil slices of the same type whose lengths differ,
`Compare` returns nil diffs and the length-mismatch error naming both lengths, whatever
the elements are (none is compared); when the expected slice is nil and the actual one is
not, or the other way round, it returns one Diff at the root and a nil error, whatever
the lengths. -/
theorem C7_slice_length_mismatch (h : Heap) (fuel : Nat) (t : GoType) (xs ys : List Value) :
    (xs.length ≠ ys.length →
      Compare h (fuel + 1) (some (.slice t (some xs))) (some (.slice t (some ys))) =
          .ret [] (some (.mismatchedLen "" xs.length ys.length)) ∧
        (CompareError.mismatchedLen "" xs.length ys.length).Error =
          "mismatched len of ``, exp.Len=" ++ toString xs.length ++ ", act.Len="
            ++ toString ys.length) ∧
    Compare h (fuel + 1) (some (.slice t none)) (some (.slice t (some ys))) =
      .ret [{ Field := "", Expected := some (.slice t none),
              Actual := some (.slice t (some ys)) }] none ∧
    Compare h (fuel + 1) (some (.slice t (some xs))) (some (.slice t none)) =
      .ret [{ Field := "", Expected := some (.slice t (some xs)),
              Actual := some (.slice t none) }] none := by
  refine ⟨?_, ?_, ?_⟩
  · intro hne
    refine ⟨?_, rfl⟩
    simp [Compare, ValueOf, compareRecursively_slice, compareSliceOrArray,
      ReflectValue.elems, hne]
  · simp [Compare, ValueOf, compareRecursively, ReflectValue.typ, Value.typ,
      ReflectValue.kind, Value.kind, isPrimitiveType, isPointerType, isSliceOrArrayType,
      isArrayType, isSliceType, isMapType, isStructType, ReflectValue.IsNil,
      newSingleDiffList, ReflectValue.Interface]
  · simp [Compare, ValueOf, compareRecursively, ReflectValue.typ, Value.typ,
      ReflectValue.kind, Value.kind, isPrimitiveType, isPointerType, isSliceOrArrayType,
      isArrayType, isSliceType, isMapType, isStructType, ReflectValue.IsNil,
      newSingleDiffList, ReflectValue.Interface]

/-- C7, witness: `[]int{1, 2, 3}` against `[]int{1, 2}`. -/
theorem C7_witness :
    Compare [] 1 (some (.slice tIntSlice (some [intV 1, intV 2, intV 3])))
        (some (.slice tIntSlice (some [intV 1, intV 2]))) =
      .ret [] (some (.mismatchedLen "" 3 2)) :=
  ((C7_slice_length_mismatch [] 0 tIntSlice [intV 1, intV 2, intV 3] [intV 1, intV 2]).1
    (by decide)).1

/-! ### C8: maps that differ at one key -/

/-- C8, counterexample: two maps of type `map[string][]int` with the one key `k`, whose
elements `{1}` and `{2}` differ; the Diff is not at `[k]` with the two elements, but at
`[k][0]` with the two integers. -/
theorem C8_counterexample :
    Compare [] 4 (some (mapSlice 1)) (some (mapSlice 2)) =
      .ret [{ Field := "[k][0]", Expected := some (intV 1), Actual := some (intV 2) }]
        none := rfl

/-- C8 (amended): for every two string-keyed maps of the same type whose elements are of
a leaf kind, with the same key set (in whatever order the runtime enumerates the keys),
whose elements are the same at every key but one key `k`, where `reflect.DeepEqual` tells
them apart, `Compare` returns a nil error and exactly the Diff at `[k]` with the two
elements. -/
theorem C8_map_one_key_differs (h : Heap) (fuel : Nat) (t kt vt : GoType)
    (pre post gs : List (String × Scalar)) (k : String) (a b : Scalar)
    (hnodup : ((pre ++ (k, a) :: post).map Prod.fst).Nodup)
    (hkeys : (gs.map Prod.fst).Perm ((pre ++ (k, a) :: post).map Prod.fst))
    (hk : gs.lookup k = some b) (hab : a.deepEq b = false)
    (hothers : ∀ e, e ∈ pre ++ post → gs.lookup e.1 = some e.2 ∧ e.2.deepEq e.2 = true) :
    Compare h (fuel + 3) (some (strMap t kt vt (pre ++ (k, a) :: post)))
        (some (strMap t kt vt gs)) =
      .ret [{ Field := "[" ++ k ++ "]", Expected := some (.scalar vt a),
              Actual := some (.scalar vt b) }] none := by
  have hlen : gs.length = (pre ++ (k, a) :: post).length := by
    simpa using hkeys.length_eq
  simp only [Compare, ValueOf, strMap]
  rw [compareRecursively_map]
  simp only [compareMap, ReflectValue.entries, List.length_map, hlen, ne_eq,
    not_true_eq_false, ite_false]
  rw [if_neg (by simp)]
  simp only [List.map_map, List.map_append, List.map_cons, Function.comp]
  refine mapLoop_one (compareRecursively h (fuel + 2)) "" _ _ [] []
    (pre.map (fun e => Value.scalar kt (.str e.1)))
    (post.map (fun e => Value.scalar kt (.str e.1))) (.scalar kt (.str k)) _ ?_ ?_
  · intro k1 hk1
    simp only [← List.map_append, List.mem_map] at hk1
    obtain ⟨e, hmem, rfl⟩ := hk1
    have hmem2 : (e.1, e.2) ∈ pre ++ (k, a) :: post := by
      simp only [List.mem_append, List.mem_cons] at hmem ⊢
      rcases hmem with hmem | hmem
      · exact Or.inl hmem
      · exact Or.inr (Or.inr hmem)
    have he := lookup_of_mem_nodup _ e.1 e.2 hnodup hmem2
    obtain ⟨hg, hself⟩ := hothers e hmem
    have hx := mapIndex_strEntries kt vt e.1 (pre ++ (k, a) :: post)
    have hy := mapIndex_strEntries kt vt e.1 gs
    simp only [List.map_append, List.map_cons, he, hg, Option.map_some'] at hx hy
    simp only [ReflectValue.MapIndex, hx, hy]
    exact compareRecursively_leaf_same h fuel _ vt e.2 [] [] hself
  · have hmem2 : (k, a) ∈ pre ++ (k, a) :: post := by simp
    have he := lookup_of_mem_nodup _ k a hnodup hmem2
    have hx := mapIndex_strEntries kt vt k (pre ++ (k, a) :: post)
    have hy := mapIndex_strEntries kt vt k gs
    simp only [List.map_append, List.map_cons, he, hk, Option.map_some'] at hx hy
    simp only [ReflectValue.MapIndex, hx, hy]
    exact compareRecursively_leaf_differs h fuel _ vt a b [] [] hab

/-- C8, witness: `{"a":1,"b":2}` against `{"a":1,"b":3}`, the actual map enumerated in
the other order. -/
theorem C8_witness :
    Compare [] 3 (some (strMap tMapInt tString tInt [("a", .int 1), ("b", .int 2)]))
        (some (strMap tMapInt tString tInt [("b", .int 3), ("a", .int 1)])) =
      .ret [{ Field := "[b]", Expected := some (intV 2), Actual := some (intV 3) }] none :=
  C8_map_one_key_differs [] 0 tMapInt tString tInt [("a", .int 1)] []
    [("b", .int 3), ("a", .int 1)] "b" (.int 2) (.int 3) (by decide)
    (List.Perm.swap "a" "b" []) rfl rfl (by
      intro e he
      simp only [List.append_nil, List.mem_singleton] at he
      subst he
      exact ⟨rfl, rfl⟩)

/-! ### C9: a pointer field that is nil on one side -/

/-- C9, counterexample: `struct { P *int; Xs []int }{nil, {1}}` against `{p, {1, 2}}`.  The
field `P` is nil on one side only, and `Compare` does not return a nil error: the other
field makes it return the length mismatch, together with the Diff of `P`. -/
theorem C9_counterexample :
    Compare [] 3
        (some (.struct tPtrSlice
          [("P", .ptr tPtrInt none), ("Xs", .slice tIntSlice (some [intV 1]))]))
        (some (.struct tPtrSlice
          [("P", .ptr tPtrInt (some 5)), ("Xs", .slice tIntSlice (some [intV 1, intV 2]))])) =
      .ret [{ Field := ".P", Expected := some (.ptr tPtrInt none),
              Actual := some (.ptr tPtrInt (some 5)) }]
        (some (.mismatchedLen ".Xs" 1 2)) := rfl

/-- C9 (amended): for every two structs of one type, whose fields have distinct names, with
an exported pointer field `P` (here: `name`) that is nil on one side and non-nil on the
other, whatever it points to: the walk of `P` gives exactly one Diff, at the path `.P`,
carrying the two pointers as they are, and the pointee is never looked at (the address `a`
need not even be allocated in the heap `h`); `Compare` of the two structs returns a nil
error exactly when the walks of the other fields do, and its diff list is then the diff
lists of the fields in declaration order, that of `P` being this one Diff.  When `P` is nil
on both sides, it contributes no Diff. -/
theorem C9_nil_pointer_field (h : Heap) (m : Nat) (t tp : GoType) (name : String) (a : Nat)
    (pre post pre1 post1 : List (String × Value))
    (hexported : isExported name = true)
    (hpre : pre.map Prod.fst = pre1.map Prod.fst)
    (hpost : post.map Prod.fst = post1.map Prod.fst)
    (hnodup : ((pre ++ (name, Value.ptr tp none) :: post).map Prod.fst).Nodup) :
    ConcatOf
        (Compare h (m + 2) (some (.struct t (pre ++ (name, .ptr tp none) :: post)))
          (some (.struct t (pre1 ++ (name, .ptr tp (some a)) :: post1))))
        (fieldOutcomes (compareRecursively h (m + 1)) "" false [] [] pre pre1 ++
          .ret [{ Field := "." ++ name, Expected := some (.ptr tp none),
                  Actual := some (.ptr tp (some a)) }] none ::
            fieldOutcomes (compareRecursively h (m + 1)) "" false [] [] post post1) ∧
      ConcatOf
        (Compare h (m + 2) (some (.struct t (pre ++ (name, .ptr tp (some a)) :: post)))
          (some (.struct t (pre1 ++ (name, .ptr tp none) :: post1))))
        (fieldOutcomes (compareRecursively h (m + 1)) "" false [] [] pre pre1 ++
          .ret [{ Field := "." ++ name, Expected := some (.ptr tp (some a)),
                  Actual := some (.ptr tp none) }] none ::
            fieldOutcomes (compareRecursively h (m + 1)) "" false [] [] post post1) ∧
      ConcatOf
        (Compare h (m + 2) (some (.struct t (pre ++ (name, .ptr tp none) :: post)))
          (some (.struct t (pre1 ++ (name, .ptr tp none) :: post1))))
        (fieldOutcomes (compareRecursively h (m + 1)) "" false [] [] pre pre1 ++
          .ret [] none ::
            fieldOutcomes (compareRecursively h (m + 1)) "" false [] [] post post1) := by
  have hro : (false || !isExported name) = false := by simp [hexported]
  have hpath : "" ++ "." ++ name = "." ++ name := by simp
  have hnodup2 : ((pre ++ (name, Value.ptr tp (some a)) :: post).map Prod.fst).Nodup := by
    simpa using hnodup
  refine ⟨?_, ?_, ?_⟩
  · refine struct_field_concat_spec h (m + 1) "" t name _ _ _ pre post pre1 post1 hpre hpost
      hnodup ?_
    rw [hro, hpath]
    exact compareRecursively_nil_ptr_left h m _ tp a [] []
  · refine struct_field_concat_spec h (m + 1) "" t name _ _ _ pre post pre1 post1 hpre hpost
      hnodup2 ?_
    rw [hro, hpath]
    exact compareRecursively_nil_ptr_right h m _ tp a [] []
  · refine struct_field_concat_spec h (m + 1) "" t name _ _ _ pre post pre1 post1 hpre hpost
      hnodup ?_
    exact compareRecursively_nil_ptr_both h m _ tp _ [] []

/-- C9, witness: `struct { X int; P *int }{1, nil}` against `{2, p}` with `p` pointing to
an address that the empty heap does not even hold: the diffs are that of `X` and the one
of `P`. -/
theorem C9_witness :
    Compare [] 3 (some (.struct tWithPtr ([("X", intV 1)] ++ ("P", .ptr tPtrInt none) :: [])))
        (some (.struct tWithPtr ([("X", intV 2)] ++ ("P", .ptr tPtrInt (some 5)) :: []))) =
      .ret [{ Field := ".X", Expected := some (intV 1), Actual := some (intV 2) },
            { Field := ".P", Expected := some (.ptr tPtrInt none),
              Actual := some (.ptr tPtrInt (some 5)) }] none :=
  (C9_nil_pointer_field [] 1 tWithPtr tPtrInt "P" 5 [("X", intV 1)] [] [("X", intV 2)] []
    rfl rfl rfl (by decide)).1.2 rfl

/-! ### C10: unexported fields -/

/-- C10 (code bug): `compareStruct` traverses all the fields of the type, unexported ones
included; on `struct { A int; b int }{1, 2}` against itself, `Interface()` is called on
the unexported field `b` and `Compare` panics. -/
theorem C10_unexported_field_panics (fuel : Nat) :
    Compare [] (fuel + 3) (some hidden) (some hidden) =
      .panic Panic.interfaceOfUnexported := rfl

/-! ### C11: a key that the actual map lacks -/

/-- C11 (code bug): on `map[string]int{"a": 1}` against `map[string]int{"b": 1}` the lookup
`act.MapIndex(key)` of the key `"a"` gives the zero Value, not the zero value `0` of the
element type, and `compareRecursively` calls `Type()` on it: `Compare` panics instead of
returning a Diff at `[a]`.  `compareMap` has no guard like the one of `compareStruct`. -/
theorem C11_missing_key_panics (fuel : Nat) :
    (ReflectValue.val false (strMap tMapInt tString tInt [("b", .int 1)])).MapIndex
        (strV "a") = .zero ∧
      Compare [] (fuel + 2) (some (strMap tMapInt tString tInt [("a", .int 1)]))
        (some (strMap tMapInt tString tInt [("b", .int 1)])) =
        .panic Panic.typeOfZeroValue :=
  ⟨rfl, rfl⟩

/-! ### C12: the order of the diffs of a map -/

/-- C12, counterexample: the map `{"a": 1, "b": 1}` against `{"a": 2, "b": 2}`.  When the
runtime enumerates the keys of the expected map as `b`, `a`, the diffs come as `[b]`,
`[a]`, which is not ascending; when it enumerates them as `a`, `b`, the same two maps give
the diffs as `[a]`, `[b]`. -/
theorem C12_counterexample :
    List.Perm [("b", Scalar.int 1), ("a", Scalar.int 1)]
        [("a", Scalar.int 1), ("b", Scalar.int 1)] ∧
      ("[a]" : String) < "[b]" ∧
      Compare [] 3 (some (strMap tMapInt tString tInt [("b", .int 1), ("a", .int 1)]))
        (some (strMap tMapInt tString tInt [("a", .int 2), ("b", .int 2)])) =
        .ret [{ Field := "[b]", Expected := some (intV 1), Actual := some (intV 2) },
              { Field := "[a]", Expected := some (intV 1), Actual := some (intV 2) }] none ∧
      Compare [] 3 (some (strMap tMapInt tString tInt [("a", .int 1), ("b", .int 1)]))
        (some (strMap tMapInt tString tInt [("a", .int 2), ("b", .int 2)])) =
        .ret [{ Field := "[a]", Expected := some (intV 1), Actual := some (intV 2) },
              { Field := "[b]", Expected := some (intV 1), Actual := some (intV 2) }] none :=
  ⟨List.Perm.swap _ _ _, by rw [String.lt_iff_toList_lt]; decide, rfl, rfl⟩

/-- C12 (amended): for two non-nil maps of the same type and size, the diffs are listed in
the order in which the keys of the expected map are enumerated, nothing is sorted: the walk
returns with a nil error exactly when the walk of the entry under each key does, and its
diff list is then the diff lists of the entries, one after the other in the order in
which `MapKeys` lists the keys.  Two nil maps give no diff; a nil map against a map that
is not nil, be it empty, gives one Diff for the map itself. -/
theorem C12_map_diffs_in_enumeration_order (h : Heap) (m : Nat) (path : String) (ro : Bool)
    (t : GoType) (es gs : List (Value × Value)) (ev av : visitedPtrs)
    (hlen : es.length = gs.length) :
    ConcatOf
        (compareRecursively h (m + 1) path (.val ro (.map t (some es)))
          (.val ro (.map t (some gs))) ev av)
        (entryOutcomes (compareRecursively h m) path (.val ro (.map t (some es)))
          (.val ro (.map t (some gs))) ev av (es.map Prod.fst)) ∧
      compareRecursively h (m + 1) path (.val ro (.map t none)) (.val ro (.map t none))
          ev av = .ret [] none ∧
      compareRecursively h (m + 1) path (.val false (.map t none))
          (.val false (.map t (some gs))) ev av =
        .ret [{ Field := path, Expected := some (.map t none),
                Actual := some (.map t (some gs)) }] none ∧
      compareRecursively h (m + 1) path (.val false (.map t (some es)))
          (.val false (.map t none)) ev av =
        .ret [{ Field := path, Expected := some (.map t (some es)),
                Actual := some (.map t none) }] none :=
  ⟨map_concat_spec h m path ro t es gs ev av hlen,
    compareRecursively_nil_maps h m path t ro ev av,
    compareRecursively_nil_map_left h m path t gs ev av,
    compareRecursively_nil_map_right h m path t es ev av⟩

/-- C12, witness: `{"y": 1, "x": 2}`, enumerated in this order, against
`{"x": 3, "y": 4}`. -/
theorem C12_witness :
    Compare [] 3 (some (.map tMapInt (some [(strV "y", intV 1), (strV "x", intV 2)])))
        (some (.map tMapInt (some [(strV "x", intV 3), (strV "y", intV 4)]))) =
      .ret [{ Field := "[y]", Expected := some (intV 1), Actual := some (intV 4) },
            { Field := "[x]", Expected := some (intV 2), Actual := some (intV 3) }] none :=
  (C12_map_diffs_in_enumeration_order [] 2 "" false tMapInt
    [(strV "y", intV 1), (strV "x", intV 2)] [(strV "x", intV 3), (strV "y", intV 4)] [] []
    rfl).1.2 rfl

/-! ### C13: the diffs of a struct and of a sequence -/

/-- C13, counterexample: the nil slice against the empty slice `[]int{}`.  The two are of
equal length and no structural error occurs, but the diff list is not the concatenation of
the diff lists of the element pairs, of which there are none: it holds one Diff, for the
slice itself. -/
theorem C13_counterexample :
    (ReflectValue.val false (.slice tIntSlice none)).elems = some [] ∧
      (ReflectValue.val false (.slice tIntSlice (some []))).elems = some [] ∧
      Compare [] 2 (some (.slice tIntSlice none)) (some (.slice tIntSlice (some []))) =
        .ret [{ Field := "", Expected := some (.slice tIntSlice none),
                Actual := some (.slice tIntSlice (some [])) }] none ∧
      ¬ ConcatOf
        (Compare [] 2 (some (.slice tIntSlice none)) (some (.slice tIntSlice (some []))))
        (elemOutcomes (compareRecursively [] 1) "" [] [] 0 [] []) := by
  refine ⟨rfl, rfl, rfl, ?_⟩
  intro hc
  have h2 := hc.2 rfl
  rw [show Compare [] 2 (some (.slice tIntSlice none)) (some (.slice tIntSlice (some []))) =
    .ret [{ Field := "", Expected := some (.slice tIntSlice none),
            Actual := some (.slice tIntSlice (some [])) }] none from rfl] at h2
  simp [elemOutcomes, concatDiffs] at h2

/-- C13 (amended): for two structs of one type, whose fields have distinct names, the walk
returns with a nil error exactly when the walk of each field pair does, and its diff list
is then the diff lists of the fields, one after the other in declaration order; for two
slices that are not nil, and for two arrays, of equal length the same holds with the
element pairs in ascending index order.  No diff is dropped, duplicated, reordered or
truncated.  Two nil slices give no diff; a nil slice against a slice that is not nil, be
it empty, gives one Diff for the slice itself and none for the elements. -/
theorem C13_diffs_are_concatenated (h : Heap) (m : Nat) (path : String) (ro : Bool)
    (t u : GoType) (fs gs : List (String × Value)) (xs ys : List Value)
    (ev av : visitedPtrs) (hnames : fs.map Prod.fst = gs.map Prod.fst)
    (hnodup : (fs.map Prod.fst).Nodup) (hlen : xs.length = ys.length) :
    ConcatOf
        (compareRecursively h (m + 1) path (.val ro (.struct t fs)) (.val ro (.struct t gs))
          ev av)
        (fieldOutcomes (compareRecursively h m) path ro ev av fs gs) ∧
      ConcatOf
        (compareRecursively h (m + 1) path (.val ro (.slice u (some xs)))
          (.val ro (.slice u (some ys))) ev av)
        (elemOutcomes (compareRecursively h m) path ev av 0
          (xs.map (ReflectValue.val ro)) (ys.map (ReflectValue.val ro))) ∧
      ConcatOf
        (compareRecursively h (m + 1) path (.val ro (.array u xs)) (.val ro (.array u ys))
          ev av)
        (elemOutcomes (compareRecursively h m) path ev av 0
          (xs.map (ReflectValue.val ro)) (ys.map (ReflectValue.val ro))) ∧
      compareRecursively h (m + 1) path (.val ro (.slice u none)) (.val ro (.slice u none))
          ev av = .ret [] none ∧
      compareRecursively h (m + 1) path (.val false (.slice u none))
          (.val false (.slice u (some ys))) ev av =
        .ret [{ Field := path, Expected := some (.slice u none),
                Actual := some (.slice u (some ys)) }] none ∧
      compareRecursively h (m + 1) path (.val false (.slice u (some xs)))
          (.val false (.slice u none)) ev av =
        .ret [{ Field := path, Expected := some (.slice u (some xs)),
                Actual := some (.slice u none) }] none :=
  ⟨struct_concat_spec h m path ro t fs gs ev av hnames hnodup,
    slice_concat_spec h m path ro u xs ys ev av hlen,
    array_concat_spec h m path ro u xs ys ev av hlen,
    compareRecursively_nil_slices h m path u ro ev av,
    compareRecursively_nil_slice_left h m path u ys ev av,
    compareRecursively_nil_slice_right h m path u xs ev av⟩

/-- C13, witness: `struct { A []int; B int }{{1, 2}, 3}` against `{{4, 5}, 6}` gives the
diffs `.A[0]`, `.A[1]`, `.B`, and `[]int{1, 2, 3}` against `[]int{4, 2, 5}` the diffs
`[0]`, `[2]`. -/
theorem C13_witness :
    Compare [] 4
        (some (.struct tSliceInt
          [("A", .slice tIntSlice (some [intV 1, intV 2])), ("B", intV 3)]))
        (some (.struct tSliceInt
          [("A", .slice tIntSlice (some [intV 4, intV 5])), ("B", intV 6)])) =
      .ret [{ Field := ".A[0]", Expected := some (intV 1), Actual := some (intV 4) },
            { Field := ".A[1]", Expected := some (intV 2), Actual := some (intV 5) },
            { Field := ".B", Expected := some (intV 3), Actual := some (intV 6) }] none ∧
      Compare [] 4 (some (.slice tIntSlice (some [intV 1, intV 2, intV 3])))
        (some (.slice tIntSlice (some [intV 4, intV 2, intV 5]))) =
      .ret [{ Field := "[0]", Expected := some (intV 1), Actual := some (intV 4) },
            { Field := "[2]", Expected := some (intV 3), Actual := some (intV 5) }] none :=
  have hw := C13_diffs_are_concatenated [] 3 "" false tSliceInt
    tIntSlice [("A", .slice tIntSlice (some [intV 1, intV 2])), ("B", intV 3)]
    [("A", .slice tIntSlice (some [intV 4, intV 5])), ("B", intV 6)]
    [intV 1, intV 2, intV 3] [intV 4, intV 2, intV 5] [] [] rfl (by decide) rfl
  ⟨hw.1.2 rfl, hw.2.1.2 rfl⟩

/-! ### C14: the field path of a Diff -/

/-- C14: every Diff that `Compare` returns lies at a position below the two values: its
`Field` is the path built from the empty string by the steps that lead to the position,
where a struct member appends `.Name`, an element `[i]` with `i` in decimal and a pointer
dereference wraps the path as `*(path)`, and its `Expected` and `Actual` are what the two
values hold there.  The two values are Go values: wherever both have a position, two
values of one type there are of one kind. -/
theorem C14_field_is_the_path (h : Heap) (fuel : Nat) (x y : Value) (diffs : List Diff)
    (err : Option CompareError) (hk : KindsAgree h x y)
    (hret : Compare h fuel (some x) (some y) = .ret diffs err) :
    ∀ d, d ∈ diffs → Located h "" x y d := by
  intro d hd
  have hs := compareRecursively_sound h fuel "" (.val false x) (.val false y) [] [] diffs err
    hret (fun _ _ _ _ hx hy => by cases hx; cases hy; exact hk) d hd
  obtain ⟨_, _, _, _, hx, hy, hl⟩ := hs
  cases hx
  cases hy
  exact hl

/-- C14, witness: two pointers to `Holder{Xs: []int{1, 2, 3}}` and
`Holder{Xs: []int{1, 2, 4}}`; the single Diff has the Field `*().Xs[2]`, the path of a
dereference, the member `Xs` and the element 2. -/
theorem C14_witness :
    Compare xsHeap 6 (some (.ptr tPtrXs (some 1))) (some (.ptr tPtrXs (some 2))) =
        .ret [{ Field := "*().Xs[2]", Expected := some (intV 3), Actual := some (intV 4) }]
          none ∧
      pathFrom "" [.deref, .field "Xs", .index 2] = "*().Xs[2]" ∧
      ∀ d, d ∈ [Diff.mk "*().Xs[2]" (some (intV 3)) (some (intV 4))] →
        Located xsHeap "" (.ptr tPtrXs (some 1)) (.ptr tPtrXs (some 2)) d :=
  ⟨rfl, by decide,
    C14_field_is_the_path xsHeap 6 (.ptr tPtrXs (some 1)) (.ptr tPtrXs (some 2)) _ none
      xsHeap_kindsAgree rfl⟩

/-! ### C20: the two sets of visited pointers -/

/-- C20 (code bug): `comparePointer` only reads the two visited sets, nothing ever marks a
pointer in them.  In `struct { P *int; Q *int }{p, p}` against `{q, q}`, with `*p = 1` and
`*q = 2`, the pointer `p` is met a second time under `Q` and is walked again: there are
two diffs, `*(.P)` and `*(.Q)`, where marking `p` at `P` would leave only the first. -/
theorem C20_visited_pointer_walked_again (fuel : Nat) :
    Compare sharedHeap (fuel + 4) (some (twoPtr 1)) (some (twoPtr 2)) =
      .ret [{ Field := "*(.P)", Expected := some (intV 1), Actual := some (intV 2) },
            { Field := "*(.Q)", Expected := some (intV 1), Actual := some (intV 2) }] none :=
  rfl

/-! ### C21: the path segment of a map entry -/

/-- C21 (code bug): the key of a map entry is rendered by `key.String()`, which prints the
key itself only when it is of kind String and `<T Value>` for a key of any other type `T`.
On the two `map[int]int` values `{7: 1}` and `{7: 2}` the one Diff that `Compare` returns
has the Field `[<int Value>]`, not `[7]`; on `{7: 1, 8: 1}` against `{7: 2, 8: 2}` the two
diffs bear the same Field, whatever the keys. -/
theorem C21_int_key_rendered_as_value_text (fuel : Nat) :
    (intV 7).String = "<int Value>" ∧
      Compare [] (fuel + 3) (some (intMap [(7, 1)])) (some (intMap [(7, 2)])) =
        .ret [{ Field := "[<int Value>]", Expected := some (intV 1),
                Actual := some (intV 2) }] none ∧
      Compare [] (fuel + 3) (some (intMap [(7, 1), (8, 1)]))
          (some (intMap [(7, 2), (8, 2)])) =
        .ret [{ Field := "[<int Value>]", Expected := some (intV 1),
                Actual := some (intV 2) },
              { Field := "[<int Value>]", Expected := some (intV 1),
                Actual := some (intV 2) }] none :=
  ⟨rfl, rfl, rfl⟩

/-! ### C23: the errors of `Compare` -/

/-- C23: every error that `Compare` returns is a type mismatch or a length mismatch; the
branch `field not found in act` of `compareStruct` and the final branch
`invalid type found` of `compareRecursively` are never taken.  The inputs are Go values:
wherever two parts of them have one type, they have one kind and, if structs, the same
fields, which is what having the same type means in Go. -/
theorem C23_errors_are_type_or_length_mismatches (h : Heap) (fuel : Nat)
    (expected actual : Option Value) (diffs : List Diff) (err : CompareError)
    (hgo : ∀ x y, expected = some x → actual = some y → WellTyped h x y)
    (hret : Compare h fuel expected actual = .ret diffs (some err)) :
    (∃ field expType actType, err = .mismatchedType field expType actType) ∨
      ∃ field expLen actLen, err = .mismatchedLen field expLen actLen := by
  have hm : err.isMismatch = true := by
    refine compareRecursively_errs h fuel "" (ValueOf expected) (ValueOf actual) [] [] diffs
      err hret ?_
    intro ro1 x ro2 y hx hy
    cases expected with
    | none => cases hx
    | some x1 =>
      cases actual with
      | none => cases hy
      | some y1 =>
        simp only [ValueOf, ReflectValue.val.injEq] at hx hy
        exact hgo x y (by rw [hx.2]) (by rw [hy.2])
  cases err with
  | mismatchedType field expType actType => exact Or.inl ⟨field, expType, actType, rfl⟩
  | mismatchedLen field expLen actLen => exact Or.inr ⟨field, expLen, actLen, rfl⟩
  | fieldNotFound field => cases hm
  | invalidType field expType actType => cases hm

/-- C23, witness: `[]int{1}` against `[]int{1, 2}`; the error is the length mismatch at
the root. -/
theorem C23_witness :
    Compare [] 1 (some (.slice tIntSlice (some [intV 1])))
        (some (.slice tIntSlice (some [intV 1, intV 2]))) =
        .ret [] (some (.mismatchedLen "" 1 2)) ∧
      ((∃ field expType actType,
          CompareError.mismatchedLen "" 1 2 = .mismatchedType field expType actType) ∨
        ∃ field expLen actLen,
          CompareError.mismatchedLen "" 1 2 = .mismatchedLen field expLen actLen) :=
  ⟨rfl,
    C23_errors_are_type_or_length_mismatches [] 1
      (some (.slice tIntSlice (some [intV 1])))
      (some (.slice tIntSlice (some [intV 1, intV 2]))) [] (.mismatchedLen "" 1 2)
      (fun x y hx hy => by
        cases hx
        cases hy
        exact everywhere_slice [] _ _ _ _ _ (sameShape_slice _ _ _ _)
          (wellTyped_ints [] [1] [1, 2]))
      rfl⟩

/-! ### C24: exchanging the two sides -/

/-- C24: `Compare` is symmetric up to exchanging the sides.  For two Go values `a` and
`b` with no map within the depth that the walk reaches, `Compare(b, a)` is `Compare(a, b)`
with the sides exchanged: it returns an error exactly when `Compare(a, b)` does, and its
diff list has the same length and the same `Field` at every position, with `Expected` and
`Actual` exchanged. -/
theorem C24_compare_is_symmetric (h : Heap) (fuel : Nat) (a b : Value)
    (ha : noMapWithin h fuel a = true) (hb : noMapWithin h fuel b = true)
    (hgo : WellTyped h a b) :
    Compare h fuel (some b) (some a) = (Compare h fuel (some a) (some b)).swap :=
  compareRecursively_swap h fuel "" false a b ha hb hgo

/-- C24, witness: the two pointers to `Holder{Xs: []int{1, 2, 3}}` and to
`Holder{Xs: []int{1, 2, 4}}`; either way the one Diff is at `*().Xs[2]`, with 3 and 4
exchanged. -/
theorem C24_witness :
    Compare xsHeap 6 (some (.ptr tPtrXs (some 1))) (some (.ptr tPtrXs (some 2))) =
        .ret [Diff.mk "*().Xs[2]" (some (intV 3)) (some (intV 4))] none ∧
      Compare xsHeap 6 (some (.ptr tPtrXs (some 2))) (some (.ptr tPtrXs (some 1))) =
        (Outcome.ret [Diff.mk "*().Xs[2]" (some (intV 3)) (some (intV 4))] none).swap ∧
      (Outcome.ret [Diff.mk "*().Xs[2]" (some (intV 3)) (some (intV 4))] none).swap =
        .ret [Diff.mk "*().Xs[2]" (some (intV 4)) (some (intV 3))] none :=
  ⟨rfl,
    C24_compare_is_symmetric xsHeap 6 (.ptr tPtrXs (some 1)) (.ptr tPtrXs (some 2)) rfl rfl
      xsHeap_wellTyped,
    rfl⟩

end compare

namespace lame

/-! ## Package `lame`: reading the wav header -/

theorem readFull_ok (n : Nat) (reader : Reader) (h : n ≤ reader.length) :
    readFull n reader = (some (reader.take n), reader.drop n) := by
  simp [readFull, h]

theorem readFull_short (n : Nat) (reader : Reader) (h : reader.length < n) :
    readFull n reader = (none, []) := by
  simp [readFull, Nat.not_le.mpr h]

theorem window_header (bs : List Byte) (k n : Nat) (hk : k + n ≤ 40) :
    window ((bs.drop 4).take 40) k n = (bs.drop (4 + k)).take n := by
  unfold window
  rw [List.drop_take, List.take_take, List.drop_drop, Nat.min_eq_left (by omega)]

theorem length_header_bytes (bs : List Byte) (hlen : 44 ≤ bs.length) (k n : Nat)
    (hk : k + n ≤ 44) : ((bs.drop k).take n).length = n := by
  rw [List.length_take, List.length_drop]
  omega

theorem uint32_le (l : List Byte) (h : l.length = 4) :
    ByteOrder.LittleEndian.Uint32 l = leValue l := by
  match l, h with
  | [a, b, c, d], _ =>
    simp only [ByteOrder.Uint32, byteAt, leValue, List.getD_cons_zero, List.getD_cons_succ]
    omega

theorem uint32_be (l : List Byte) (h : l.length = 4) :
    ByteOrder.BigEndian.Uint32 l = beValue l := by
  match l, h with
  | [a, b, c, d], _ =>
    simp only [ByteOrder.Uint32, byteAt, beValue, leValue, List.getD_cons_zero,
      List.getD_cons_succ, List.reverse_cons, List.reverse_nil, List.nil_append,
      List.cons_append]
    omega

theorem uint16_le (l : List Byte) (h : l.length = 2) :
    ByteOrder.LittleEndian.Uint16 l = leValue l := by
  match l, h with
  | [a, b], _ =>
    simp only [ByteOrder.Uint16, byteAt, leValue, List.getD_cons_zero, List.getD_cons_succ]
    omega

theorem uint16_be (l : List Byte) (h : l.length = 2) :
    ByteOrder.BigEndian.Uint16 l = beValue l := by
  match l, h with
  | [a, b], _ =>
    simp only [ByteOrder.Uint16, byteAt, beValue, leValue, List.getD_cons_zero,
      List.getD_cons_succ, List.reverse_cons, List.reverse_nil, List.nil_append,
      List.cons_append]
    omega

theorem decode_le (bs : List Byte) (hlen : 44 ≤ bs.length) :
    decodeWavHeaderRemaining .LittleEndian ((bs.drop 4).take 40) =
      (headerAt leValue bs).toWavHeaderRemaining := by
  simp only [decodeWavHeaderRemaining, headerAt, bytesAt]
  rw [window_header bs 0 4 (by omega), window_header bs 4 4 (by omega),
    window_header bs 8 4 (by omega), window_header bs 12 4 (by omega),
    window_header bs 16 2 (by omega), window_header bs 18 2 (by omega),
    window_header bs 20 4 (by omega), window_header bs 24 4 (by omega),
    window_header bs 28 2 (by omega), window_header bs 30 2 (by omega),
    window_header bs 32 4 (by omega), window_header bs 36 4 (by omega)]
  rw [uint32_le _ (length_header_bytes bs hlen _ 4 (by omega)),
    uint32_le _ (length_header_bytes bs hlen (4 + 12) 4 (by omega)),
    uint16_le _ (length_header_bytes bs hlen (4 + 16) 2 (by omega)),
    uint16_le _ (length_header_bytes bs hlen (4 + 18) 2 (by omega)),
    uint32_le _ (length_header_bytes bs hlen (4 + 20) 4 (by omega)),
    uint32_le _ (length_header_bytes bs hlen (4 + 24) 4 (by omega)),
    uint16_le _ (length_header_bytes bs hlen (4 + 28) 2 (by omega)),
    uint16_le _ (length_header_bytes bs hlen (4 + 30) 2 (by omega)),
    uint32_le _ (length_header_bytes bs hlen (4 + 36) 4 (by omega))]

theorem decode_be (bs : List Byte) (hlen : 44 ≤ bs.length) :
    decodeWavHeaderRemaining .BigEndian ((bs.drop 4).take 40) =
      (headerAt beValue bs).toWavHeaderRemaining := by
  simp only [decodeWavHeaderRemaining, headerAt, bytesAt]
  rw [window_header bs 0 4 (by omega), window_header bs 4 4 (by omega),
    window_header bs 8 4 (by omega), window_header bs 12 4 (by omega),
    window_header bs 16 2 (by omega), window_header bs 18 2 (by omega),
    window_header bs 20 4 (by omega), window_header bs 24 4 (by omega),
    window_header bs 28 2 (by omega), window_header bs 30 2 (by omega),
    window_header bs 32 4 (by omega), window_header bs 36 4 (by omega)]
  rw [uint32_be _ (length_header_bytes bs hlen _ 4 (by omega)),
    uint32_be _ (length_header_bytes bs hlen (4 + 12) 4 (by omega)),
    uint16_be _ (length_header_bytes bs hlen (4 + 16) 2 (by omega)),
    uint16_be _ (length_header_bytes bs hlen (4 + 18) 2 (by omega)),
    uint32_be _ (length_header_bytes bs hlen (4 + 20) 4 (by omega)),
    uint32_be _ (length_header_bytes bs hlen (4 + 24) 4 (by omega)),
    uint16_be _ (length_header_bytes bs hlen (4 + 28) 2 (by omega)),
    uint16_be _ (length_header_bytes bs hlen (4 + 30) 2 (by omega)),
    uint32_be _ (length_header_bytes bs hlen (4 + 36) 4 (by omega))]

theorem ReadWavHeader_ok (bs : Reader) (hlen : 44 ≤ bs.length)
    (hid : bs.take 4 = chunkIdLe ∨ bs.take 4 = chunkIdBe) :
    ReadWavHeader bs =
      ({ zeroWavHeader with
          ChunkId := bs.take 4
          toWavHeaderRemaining := decodeWavHeaderRemaining
            (if bs.take 4 = chunkIdLe then .LittleEndian else .BigEndian)
            ((bs.drop 4).take 40) }, none, bs.drop 44) := by
  have h40 : 40 ≤ (bs.drop 4).length := by
    rw [List.length_drop]
    omega
  have hnot : ¬(bs.take 4 ≠ chunkIdLe ∧ bs.take 4 ≠ chunkIdBe) := by
    rcases hid with h | h <;> simp [h]
  simp only [ReadWavHeader, readFull_ok 4 bs (by omega), readFull_ok 40 _ h40, if_neg hnot,
    List.drop_drop]

/-! ### C15: the layout of the header -/

/-- C15: on a stream of at least 44 bytes whose first four bytes are `RIFF`,
`ReadWavHeader` returns a nil error and the header that bytes 0 to 43 spell at the fixed
layout (ChunkSize 4-7, Format 8-11, SubChunk1Id 12-15, SubChunk1Size 16-19, AudioFormat
20-21, NumChannels 22-23, SampleRate 24-27, ByteRate 28-31, BlockAlign 32-33,
BitsPerSample 34-35, SubChunk2Id 36-39, SubChunk2Size 40-43) with the integers read
little-endian; when the first four bytes are `RIFX`, the same with the integers read
big-endian.  It leaves the stream after exactly 44 bytes. -/
theorem C15_header_layout (bs : Reader) (hlen : 44 ≤ bs.length) :
    (bytesAt bs 0 3 = chunkIdLe →
        ReadWavHeader bs = (headerAt leValue bs, none, bs.drop 44)) ∧
      (bytesAt bs 0 3 = chunkIdBe →
        ReadWavHeader bs = (headerAt beValue bs, none, bs.drop 44)) := by
  have hb : bytesAt bs 0 3 = bs.take 4 := by simp [bytesAt]
  rw [hb]
  constructor
  · intro hid
    rw [ReadWavHeader_ok bs hlen (Or.inl hid), if_pos hid, decode_le bs hlen]
    simp only [headerAt, hb]
  · intro hid
    have hne : bs.take 4 ≠ chunkIdLe := by
      rw [hid]
      decide
    rw [ReadWavHeader_ok bs hlen (Or.inr hid), if_neg hne, decode_be bs hlen]
    simp only [headerAt, hb]

/-- C15, witness: the header of `res/1chan_s16ple.wav` that `Test_ReadWavHeader` expects,
followed by two bytes of data, and the same header written big-endian after `RIFX`. -/
theorem C15_witness :
    ReadWavHeader wavLe = (testHeader chunkIdLe, none, [0xfe, 0xff]) ∧
      ReadWavHeader wavBe = (testHeader chunkIdBe, none, [0xfe, 0xff]) :=
  ⟨((C15_header_layout wavLe (by decide)).1 (by decide)).trans (by decide),
    ((C15_header_layout wavBe (by decide)).2 (by decide)).trans (by decide)⟩

/-! ### C16: the errors of `ReadWavHeader` -/

/-- C16: `ReadWavHeader` fails with `ErrCannotReadChunkId` exactly when the stream has
fewer than 4 bytes, with `ErrInvalidWavChunkId` exactly when the first 4 bytes are there
and are neither `RIFF` nor `RIFX`, and it has then consumed exactly those 4 bytes, with
`ErrCannotReadHeader` exactly when the chunk id is valid and fewer than 40 further bytes
are there, and with a nil error in every other case, that is when the chunk id is valid
and 40 further bytes are there. -/
theorem C16_read_errors (bs : Reader) :
    ((ReadWavHeader bs).2.1 = some .ErrCannotReadChunkId ↔ bs.length < 4) ∧
      ((ReadWavHeader bs).2.1 = some .ErrInvalidWavChunkId ↔
        4 ≤ bs.length ∧ bs.take 4 ≠ chunkIdLe ∧ bs.take 4 ≠ chunkIdBe) ∧
      ((ReadWavHeader bs).2.1 = some .ErrInvalidWavChunkId →
        (ReadWavHeader bs).2.2 = bs.drop 4) ∧
      ((ReadWavHeader bs).2.1 = some .ErrCannotReadHeader ↔
        4 ≤ bs.length ∧ (bs.take 4 = chunkIdLe ∨ bs.take 4 = chunkIdBe) ∧
          bs.length < 4 + 40) ∧
      ((ReadWavHeader bs).2.1 = none ↔
        (bs.take 4 = chunkIdLe ∨ bs.take 4 = chunkIdBe) ∧ 4 + 40 ≤ bs.length) := by
  by_cases h4 : 4 ≤ bs.length
  · by_cases hid : bs.take 4 = chunkIdLe ∨ bs.take 4 = chunkIdBe
    · have hnot : ¬(bs.take 4 ≠ chunkIdLe ∧ bs.take 4 ≠ chunkIdBe) := by
        rcases hid with h | h <;> simp [h]
      by_cases h44 : 44 ≤ bs.length
      · rw [ReadWavHeader_ok bs h44 hid]
        refine ⟨?_, ?_, ?_, ?_, ?_⟩
        · simp only [reduceCtorEq, false_iff]
          omega
        · simp only [reduceCtorEq, false_iff]
          exact fun h => hnot h.2
        · intro h
          simp at h
        · simp only [reduceCtorEq, false_iff]
          omega
        · simp only [true_iff]
          exact ⟨hid, by omega⟩
      · have h40 : (bs.drop 4).length < 40 := by
          rw [List.length_drop]
          omega
        simp only [ReadWavHeader, readFull_ok 4 bs h4, if_neg hnot, readFull_short 40 _ h40]
        refine ⟨?_, ?_, ?_, ?_, ?_⟩
        · simp only [Option.some.injEq, reduceCtorEq, false_iff]
          omega
        · simp only [Option.some.injEq, reduceCtorEq, false_iff]
          exact fun h => hnot h.2
        · intro h
          simp at h
        · simp only [true_iff]
          exact ⟨h4, hid, by omega⟩
        · simp only [reduceCtorEq, false_iff]
          omega
    · have hboth : bs.take 4 ≠ chunkIdLe ∧ bs.take 4 ≠ chunkIdBe :=
        ⟨fun h => hid (Or.inl h), fun h => hid (Or.inr h)⟩
      simp only [ReadWavHeader, readFull_ok 4 bs h4, if_pos hboth]
      refine ⟨?_, ?_, ?_, ?_, ?_⟩
      · simp only [Option.some.injEq, reduceCtorEq, false_iff]
        omega
      · simp only [true_iff]
        exact ⟨h4, hboth⟩
      · intro _
        trivial
      · simp only [Option.some.injEq, reduceCtorEq, false_iff]
        exact fun h => hid h.2.1
      · simp only [reduceCtorEq, false_iff]
        exact fun h => hid h.1
  · have hlt : bs.length < 4 := by omega
    simp only [ReadWavHeader, readFull_short 4 bs hlt]
    refine ⟨?_, ?_, ?_, ?_, ?_⟩
    · simp only [true_iff]
      exact hlt
    · simp only [Option.some.injEq, reduceCtorEq, false_iff]
      exact fun h => h4 h.1
    · intro h
      simp at h
    · simp only [Option.some.injEq, reduceCtorEq, false_iff]
      exact fun h => h4 h.1
    · simp only [reduceCtorEq, false_iff]
      omega

/-! ## Package `lame`: the bridge and the writer -/

theorem checkSampleRate_none (rate : Int) :
    checkSampleRate rate = none ↔ rate ∈ sampleRates := by
  unfold checkSampleRate sampleRates
  simp only [List.mem_cons, List.mem_singleton, List.not_mem_nil, or_false]
  split <;> simp_all

theorem checkSampleRate_invalid (rate : Int) (h : rate ∉ sampleRates) :
    checkSampleRate rate = some .ErrInvalidSampleRate := by
  have hn : checkSampleRate rate ≠ none := fun hc => h ((checkSampleRate_none rate).mp hc)
  unfold checkSampleRate at hn ⊢
  split
  · rename_i hv
    simp [hv] at hn
  · rfl

theorem setterError_not_invalid {σ : Type} (l l1 : Lame σ) (name : String) (ret : Int × σ) :
    l.setterError name ret ≠ (some .ErrInvalidSampleRate, l1) := by
  unfold Lame.setterError
  split <;> simp

/-! ### C17: a writer with an unsupported number of channels -/

/-- C17 (code bug): `Write` divides by `int64(w.InNumChannels)` to size the mp3 buffer
before it checks the number of channels.  A writer as `NewWriter` makes it, with its
parameters initialised and `InNumChannels` set to 0, panics with an integer division by
zero on every input `p`, whatever the encoder does, instead of returning
`(0, ErrUnsupportedChannelNum)`. -/
theorem C17_zero_channels_panics {σ : Type} (N : NativeLame σ) (mp3BufSize : Int → Int)
    (g : σ) (out p : List Byte) :
    (writerWith g out 0).Write N mp3BufSize p = .panic .integerDivideByZero := by
  simp [Writer.Write, writerWith, int64, wrapInt]

/-! ### C18: the getter of the number of channels -/

/-- C18 (code bug): `GetNumChannels` calls `lame_get_in_samplerate`: on every handle it
returns what `GetInSampleRate` returns.  On an encoder that keeps its parameters, with
the input sample rate 44100, `SetNumChannels(1)` succeeds and `GetNumChannels()` then
returns 44100, not 1. -/
theorem C18_num_channels_is_sample_rate {σ : Type} (N : NativeLame σ) (l : Lame σ) :
    l.GetNumChannels N = l.GetInSampleRate N ∧
      freshLame.SetNumChannels paramsOnly 1 =
        .ok (none, { lgs := some { in_samplerate := 44100, out_samplerate := 0,
                                    num_channels := 1, quality := -1, mode := 4 },
                     paramUpdated := false }) ∧
      Lame.GetNumChannels paramsOnly
        { lgs := some { in_samplerate := 44100, out_samplerate := 0, num_channels := 1,
                        quality := -1, mode := 4 },
          paramUpdated := false } = .ok 44100 :=
  ⟨rfl, rfl, rfl⟩

/-! ### C19: the sample rates that the setters refuse -/

/-- C19: on an initialised handle, `SetInSampleRate` and `SetOutSampleRate` return
`ErrInvalidSampleRate` exactly when the rate is not one of 8000, 11025, 12000, 16000,
22050, 24000, 32000, 44100, 48000, and the handle is then as it was: neither the native
encoder nor `paramUpdated` has changed.  (On a handle that is not initialised both panic,
whatever the rate.) -/
theorem C19_invalid_sample_rate {σ : Type} (N : NativeLame σ) (l : Lame σ) (g : σ)
    (rate : Int) (hl : l.lgs = some g) :
    ((∃ l1, l.SetInSampleRate N rate = .ok (some .ErrInvalidSampleRate, l1)) ↔
        rate ∉ sampleRates) ∧
      ((∃ l1, l.SetOutSampleRate N rate = .ok (some .ErrInvalidSampleRate, l1)) ↔
        rate ∉ sampleRates) ∧
      (rate ∉ sampleRates →
        l.SetInSampleRate N rate = .ok (some .ErrInvalidSampleRate, l) ∧
          l.SetOutSampleRate N rate = .ok (some .ErrInvalidSampleRate, l)) := by
  have hbad : rate ∉ sampleRates →
      l.SetInSampleRate N rate = .ok (some .ErrInvalidSampleRate, l) ∧
        l.SetOutSampleRate N rate = .ok (some .ErrInvalidSampleRate, l) := by
    intro h
    simp [Lame.SetInSampleRate, Lame.SetOutSampleRate, hl, checkSampleRate_invalid rate h]
  refine ⟨⟨?_, fun h => ⟨l, (hbad h).1⟩⟩, ⟨?_, fun h => ⟨l, (hbad h).2⟩⟩, hbad⟩
  · rintro ⟨l1, h1⟩ hmem
    simp only [Lame.SetInSampleRate, hl, (checkSampleRate_none rate).mpr hmem,
      Except.ok.injEq] at h1
    exact setterError_not_invalid l l1 _ _ h1
  · rintro ⟨l1, h1⟩ hmem
    simp only [Lame.SetOutSampleRate, hl, (checkSampleRate_none rate).mpr hmem,
      Except.ok.injEq] at h1
    exact setterError_not_invalid l l1 _ _ h1

/-- C19, witness: on a fresh handle of an encoder that keeps its parameters, the rate
12345 is refused by both setters and the handle stays as it was. -/
theorem C19_witness :
    freshLame.SetInSampleRate paramsOnly 12345 = .ok (some .ErrInvalidSampleRate, freshLame) ∧
      freshLame.SetOutSampleRate paramsOnly 12345 =
        .ok (some .ErrInvalidSampleRate, freshLame) :=
  (C19_invalid_sample_rate paramsOnly freshLame _ 12345 rfl).2.2 (by decide)

/-! ### C22: the samples that `Write` makes of its input -/

theorem byteAt_lt (p : List Byte) (i : Nat) : byteAt p i < 256 := (p.getD i 0).isLt

theorem sample_le (b0 b1 : Nat) (h0 : b0 < 256) (h1 : b1 < 256) :
    int16 (int16 (int16 b0 * 0x0001) + int16 (int16 b1 * 0x0100)) =
      signed 16 (b0 + 256 * (b1 + 256 * 0)) := by
  have e0 : int16 b0 = b0 := by
    unfold int16 wrapInt
    norm_num
    omega
  have e1 : int16 b1 = b1 := by
    unfold int16 wrapInt
    norm_num
    omega
  rw [e0, e1]
  unfold int16 wrapInt signed
  norm_num
  split_ifs <;> omega

theorem sample_be (b0 b1 : Nat) (h0 : b0 < 256) (h1 : b1 < 256) :
    int16 (int16 (int16 b0 * 0x0100) + int16 (int16 b1 * 0x0001)) =
      signed 16 (b1 + 256 * (b0 + 256 * 0)) := by
  have e0 : int16 b0 = b0 := by
    unfold int16 wrapInt
    norm_num
    omega
  have e1 : int16 b1 = b1 := by
    unfold int16 wrapInt
    norm_num
    omega
  rw [e0, e1]
  unfold int16 wrapInt signed
  norm_num
  split_ifs <;> omega

theorem signed_neg (b0 b1 : Nat) (h0 : b0 < 256) (h1 : b1 < 256) (hb : 128 ≤ b1) :
    signed 16 (b0 + 256 * (b1 + 256 * 0)) < 0 := by
  unfold signed
  norm_num
  split_ifs <;> omega

theorem samplesOf_get (inBigEndian : Bool) (p : List Byte) (i : Nat) (hi : i < p.length / 2) :
    (samplesOf inBigEndian p).get? i =
      some (signed 16
        (if inBigEndian then beValue (bytePair p i) else leValue (bytePair p i))) := by
  have hb0 := byteAt_lt p (2 * i)
  have hb1 := byteAt_lt p (2 * i + 1)
  unfold samplesOf
  simp only [List.get?_eq_getElem?, List.getElem?_map, List.getElem?_range hi, Option.map_some']
  rw [Nat.mul_comm i 2]
  cases inBigEndian with
  | false =>
    simp only [bytePair, leValue, Bool.false_eq_true, if_false]
    exact congrArg some (sample_le _ _ hb0 hb1)
  | true =>
    simp only [bytePair, beValue, leValue, List.reverse_cons, List.reverse_nil, List.nil_append,
      List.singleton_append, if_true]
    exact congrArg some (sample_be _ _ hb0 hb1)

theorem forceUpdateParams_recorder (w : Writer (List (List Int))) (heard : List (List Int))
    (hl : w.lame.lgs = some heard) (hin : w.InSampleRate ∈ sampleRates)
    (hout : w.OutSampleRate ∈ sampleRates) :
    w.ForceUpdateParams recorder =
      .ok (none, { w with lame := { lgs := some heard, paramUpdated := true } }) := by
  simp [Writer.ForceUpdateParams, Writer.andThen, Lame.SetInSampleRate,
    Lame.SetOutSampleRate, Lame.SetNumChannels, Lame.SetMode, Lame.SetQuality,
    Lame.InitParams, Lame.setterError, recorder, hl, (checkSampleRate_none _).mpr hin,
    (checkSampleRate_none _).mpr hout, int64, wrapInt]

theorem write_recorder (w : Writer (List (List Int))) (heard : List (List Int))
    (mp3BufSize : Int → Int) (p : List Byte)
    (hl : w.lame = { lgs := some heard, paramUpdated := true })
    (hch : w.InNumChannels = 1 ∨ w.InNumChannels = 2)
    (hrate : int64 w.OutSampleRate ≠ 0) (hbuf : ∀ n, 0 < mp3BufSize n) :
    w.Write recorder mp3BufSize p =
      if p.length / 2 = 0 then .ret 0 (some .ErrEmptyArguments) w
      else
        .ret (2 * (p.length / 2 : Nat)) none
          { w with
            lame :=
              { lgs := some (heard ++
                  if w.InNumChannels = 1 then
                    [samplesOf w.InBigEndian p, samplesOf w.InBigEndian p]
                  else [samplesOf w.InBigEndian p])
                paramUpdated := true } } := by
  obtain ⟨opts, out, lame⟩ := w
  simp only at hl hch hrate
  subst hl
  have hlen : (samplesOf opts.InBigEndian p).length = p.length / 2 := by simp [samplesOf]
  have h1 : int64 1 ≠ 0 := by decide
  have h2 : int64 2 ≠ 0 := by decide
  have h21 : (2 : Int) ≠ 1 := by decide
  by_cases hz : p.length / 2 = 0
  · rw [if_pos hz]
    have hs : (samplesOf opts.InBigEndian p) = [] :=
      List.eq_nil_of_length_eq_zero (hlen.trans hz)
    rcases hch with hc | hc
    · simp [Writer.Write, hrate, hc, hs, Lame.EncodeInt16, not_lt.mpr (le_of_lt (hbuf _)),
        h1]
    · simp [Writer.Write, hrate, hc, hs, Lame.EncodeInt16Interleaved,
        not_lt.mpr (le_of_lt (hbuf _)), h2, h21]
  · rw [if_neg hz]
    have hs : (samplesOf opts.InBigEndian p).length ≠ 0 := by rw [hlen]; exact hz
    have hs2 : samplesOf opts.InBigEndian p ≠ [] := fun hnil => hs (by rw [hnil]; rfl)
    have h0 : int64 0 = 0 := by decide
    have hb1 : ∀ n, ¬ mp3BufSize n < 0 := fun n => not_lt.mpr (le_of_lt (hbuf n))
    have hb2 : ∀ n, ¬ mp3BufSize n ≤ 0 := fun n => not_le.mpr (hbuf n)
    rcases hch with hc | hc
    · simp [Writer.Write, hrate, hc, hs, hs2, Lame.EncodeInt16, hb1, hb2, h0, h1, recorder,
        encodeError, hlen, filled, hz]
    · simp [Writer.Write, hrate, hc, hs, hs2, Lame.EncodeInt16Interleaved, hb1, hb2, h0, h2,
        h21, recorder, encodeError, hlen, filled, hz]

theorem write_recorder_fresh (w : Writer (List (List Int))) (heard : List (List Int))
    (mp3BufSize : Int → Int) (p : List Byte)
    (hl : w.lame = { lgs := some heard, paramUpdated := false })
    (hin : w.InSampleRate ∈ sampleRates) (hout : w.OutSampleRate ∈ sampleRates) :
    w.Write recorder mp3BufSize p =
      Writer.Write recorder mp3BufSize
        { w with lame := { lgs := some heard, paramUpdated := true } } p := by
  have hf := forceUpdateParams_recorder w heard (by rw [hl]) hin hout
  obtain ⟨opts, out, lame⟩ := w
  simp only at hl
  subst hl
  unfold Writer.Write
  simp only [hf, Bool.not_false, Bool.not_true, if_true, Bool.false_eq_true, if_false]

theorem write_recorder_any (w : Writer (List (List Int))) (heard : List (List Int))
    (mp3BufSize : Int → Int) (p : List Byte)
    (hl : w.lame.lgs = some heard)
    (hinit : w.lame.paramUpdated = true ∨
      (w.InSampleRate ∈ sampleRates ∧ w.OutSampleRate ∈ sampleRates))
    (hch : w.InNumChannels = 1 ∨ w.InNumChannels = 2)
    (hrate : int64 w.OutSampleRate ≠ 0) (hbuf : ∀ n, 0 < mp3BufSize n) :
    w.Write recorder mp3BufSize p =
      if p.length / 2 = 0 then
        .ret 0 (some .ErrEmptyArguments)
          { w with lame := { lgs := some heard, paramUpdated := true } }
      else
        .ret (2 * (p.length / 2 : Nat)) none
          { w with
            lame :=
              { lgs := some (heard ++
                  if w.InNumChannels = 1 then
                    [samplesOf w.InBigEndian p, samplesOf w.InBigEndian p]
                  else [samplesOf w.InBigEndian p])
                paramUpdated := true } } := by
  obtain ⟨opts, out, ⟨lgs, upd⟩⟩ := w
  simp only at hl hinit hch hrate
  subst hl
  cases upd with
  | true => exact write_recorder _ heard mp3BufSize p rfl hch hrate hbuf
  | false =>
    have hv : opts.InSampleRate ∈ sampleRates ∧ opts.OutSampleRate ∈ sampleRates := by
      rcases hinit with hi | hi
      · cases hi
      · exact hi
    rw [write_recorder_fresh _ heard mp3BufSize p rfl hv.1 hv.2]
    exact write_recorder _ heard mp3BufSize p rfl hch hrate hbuf

/-- C22: of every input `p`, `Write` forms `len(p) / 2` samples, and sample `i` is the
signed 16-bit value of the byte pair `p[2i]`, `p[2i+1]`, read little-endian when
`InBigEndian` is false and big-endian when it is true: the 16-bit multiplication and
addition wrap, so that a high byte of `0x80` or more gives a negative sample.  These are
the samples that `Write` hands to the encoder: on an encoder that keeps a record of the
PCM buffers it is handed, a writer whose parameters are initialised, or can be, with one or
two input channels, leaves exactly these samples in the record (twice for one channel, as
the left and the right buffer) and returns `2 * (len(p) / 2)`; of fewer than two bytes it
forms no sample and the encoder is not called. -/
theorem C22_samples_are_signed_byte_pairs (inBigEndian : Bool) (p : List Byte) :
    (samplesOf inBigEndian p).length = p.length / 2 ∧
      (∀ i, i < p.length / 2 →
        (samplesOf inBigEndian p).get? i =
            some (signed 16
              (if inBigEndian then beValue (bytePair p i) else leValue (bytePair p i))) ∧
          (128 ≤ byteAt p (if inBigEndian then 2 * i else 2 * i + 1) →
            signed 16
              (if inBigEndian then beValue (bytePair p i) else leValue (bytePair p i)) <
              0)) ∧
      ∀ (w : Writer (List (List Int))) (heard : List (List Int)) (mp3BufSize : Int → Int),
        w.InBigEndian = inBigEndian → w.lame.lgs = some heard →
        (w.lame.paramUpdated = true ∨
          (w.InSampleRate ∈ sampleRates ∧ w.OutSampleRate ∈ sampleRates)) →
        (w.InNumChannels = 1 ∨ w.InNumChannels = 2) → int64 w.OutSampleRate ≠ 0 →
        (∀ n, 0 < mp3BufSize n) →
        w.Write recorder mp3BufSize p =
          if p.length / 2 = 0 then
            .ret 0 (some .ErrEmptyArguments)
              { w with lame := { lgs := some heard, paramUpdated := true } }
          else
            .ret (2 * (p.length / 2 : Nat)) none
              { w with
                lame :=
                  { lgs := some (heard ++
                      if w.InNumChannels = 1 then
                        [samplesOf inBigEndian p, samplesOf inBigEndian p]
                      else [samplesOf inBigEndian p])
                    paramUpdated := true } } := by
  refine ⟨by simp [samplesOf], fun i hi => ⟨samplesOf_get inBigEndian p i hi, ?_⟩, ?_⟩
  · have hb0 := byteAt_lt p (2 * i)
    have hb1 := byteAt_lt p (2 * i + 1)
    cases inBigEndian with
    | false =>
      simp only [bytePair, leValue, Bool.false_eq_true, if_false]
      exact signed_neg _ _ hb0 hb1
    | true =>
      simp only [bytePair, beValue, leValue, List.reverse_cons, List.reverse_nil,
        List.nil_append, List.singleton_append, if_true]
      exact signed_neg _ _ hb1 hb0
  · intro w heard mp3BufSize hbe hl hinit hch hrate hbuf
    rw [← hbe]
    exact write_recorder_any w heard mp3BufSize p hl hinit hch hrate hbuf

/-- C22, witness: the seven bytes `34 12 ff ff 00 80 7f` make three samples; read
little-endian the second is `-1` and the third, whose high byte is `0x80`, is `-32768`.
A writer with one input channel hands them to the encoder as the left and the right
buffer and returns 6. -/
theorem C22_witness :
    samplesOf false pcm = [0x1234, -1, -32768] ∧ samplesOf true pcm = [0x3412, -1, 128] ∧
      (2 < pcm.length / 2 ∧
        (samplesOf false pcm).get? 2 = some (signed 16 (leValue (bytePair pcm 2))) ∧
        signed 16 (leValue (bytePair pcm 2)) < 0) ∧
      (writerWith ([] : List (List Int)) [] 1).Write recorder (fun _ => 7200) pcm =
        .ret 6 none
          { writerWith ([] : List (List Int)) [] 1 with
            lame :=
              { lgs := some [samplesOf false pcm, samplesOf false pcm]
                paramUpdated := true } } :=
  ⟨by decide, by decide,
    ⟨by decide,
      ((C22_samples_are_signed_byte_pairs false pcm).2.1 2 (by decide)).1,
      ((C22_samples_are_signed_byte_pairs false pcm).2.1 2 (by decide)).2 (by decide)⟩,
    (C22_samples_are_signed_byte_pairs false pcm).2.2 (writerWith [] [] 1) []
      (fun _ => 7200) rfl rfl (Or.inl rfl) (Or.inl rfl) (by decide)
      (fun _ => (by decide : (0 : Int) < 7200))⟩

end lame
